import Mathlib

/-!
# Phantom asset generator

A shallow embedding of `tools/phantom-asset-generator/generate-assets.js`:
the theme catalog, the recolouring transform `replaceColors` (with the part of
the ECMAScript regular-expression machinery it relies on), and the icon and
logo builders with their generated / failed counters.

JavaScript strings are embedded as lists of characters.  The patterns built by
`replaceColors` start with a literal dot and contain no construct that can
match half of a surrogate pair, so matching over code points agrees with
matching over UTF-16 code units on well-formed text.
-/

set_option autoImplicit false
set_option maxRecDepth 8000

namespace Phantom

/-! ## JavaScript values used as colours -/

/-- The JavaScript values a colour slot of a theme may hold in this embedding. -/
inductive JSValue where
  | str (s : List Char)
  | bool (b : Bool)
  | null
  | undefined
  deriving DecidableEq, Repr

/-- JavaScript truthiness (`if (color)`). -/
def JSValue.truthy : JSValue → Bool
  | .str s => !s.isEmpty
  | .bool b => b
  | .null => false
  | .undefined => false

/-- String conversion as performed by a template literal. -/
def JSValue.toJSString : JSValue → List Char
  | .str s => s
  | .bool true => "true".toList
  | .bool false => "false".toList
  | .null => "null".toList
  | .undefined => "undefined".toList

/-! ## Regular expressions: the fragment used by `replaceColors` -/

/-- Outcome of `new RegExp(source)` other than a compiled pattern. -/
inductive RegExpFault where
  /-- ECMAScript throws a `SyntaxError` for this source. -/
  | syntaxError
  /-- The source uses a construct outside the embedded fragment. -/
  | unsupported
  deriving DecidableEq, Repr

/-- Characters matched by `\s`: ECMAScript WhiteSpace and LineTerminator. -/
def isWhiteSpace (c : Char) : Bool :=
  let n := c.toNat
  n == 0x09 || n == 0x0A || n == 0x0B || n == 0x0C || n == 0x0D || n == 0x20 ||
  n == 0xA0 || n == 0x1680 || (0x2000 ≤ n && n ≤ 0x200A) || n == 0x2028 ||
  n == 0x2029 || n == 0x202F || n == 0x205F || n == 0x3000 || n == 0xFEFF

/-- ECMAScript SyntaxCharacter: `^ $ \ . * + ? ( ) [ ] { } |`. -/
def isSyntaxCharacter (c : Char) : Bool :=
  c == '^' || c == '$' || c == '\\' || c == '.' || c == '*' || c == '+' || c == '?' ||
  c == '(' || c == ')' || c == '[' || c == ']' || c == '\x7b' || c == '\x7d' || c == '|'

/-- A set of characters: the atoms of the fragment all match one character. -/
inductive CharSet where
  /-- A pattern character, or an escaped syntax character such as `\.`. -/
  | lit (c : Char)
  /-- The class escape `\s`. -/
  | space
  /-- A character class `[...]` made of single characters and ranges. -/
  | ranges (rs : List (Char × Char))
  deriving DecidableEq, Repr

/-- Does the character belong to the set? -/
def CharSet.test : CharSet → Char → Bool
  | .lit c, d => d == c
  | .space, d => isWhiteSpace d
  | .ranges rs, d => rs.any fun r => decide (r.1.toNat ≤ d.toNat) && decide (d.toNat ≤ r.2.toNat)

/-- Quantifiers of the fragment: none, greedy `*`, and `{n}`. -/
inductive Quantifier where
  | one
  | star
  | exactly (n : Nat)
  deriving DecidableEq, Repr

/-- A term: an atom with its quantifier. -/
structure Term where
  set : CharSet
  quant : Quantifier
  deriving DecidableEq, Repr

/-- Value of a run of decimal digits. -/
def decimalValue (ds : List Char) : Nat :=
  ds.foldl (fun acc d => 10 * acc + (d.toNat - '0'.toNat)) 0

/-- Reads what follows an opening brace.  `none`: the text is not a braced
quantifier, so the brace is an ordinary character (Annex B).  `some (some n, r)`:
the quantifier `{n}`, followed by `r`.  `some (none, r)`: one of the range
forms `{n,}` and `{n,m}`. -/
def parseBraced (s : List Char) : Option (Option Nat × List Char) :=
  let ds := s.takeWhile Char.isDigit
  if ds.isEmpty then none
  else
    match s.dropWhile Char.isDigit with
    | c :: r =>
      if c = '\x7d' then some (some (decimalValue ds), r)
      else if c = ',' then
        match r.dropWhile Char.isDigit with
        | c2 :: r2 => if c2 = '\x7d' then some (none, r2) else none
        | [] => none
      else none
    | [] => none

/-- The quantifier, if any, that follows an atom. -/
def parseQuantifier (s : List Char) : Except RegExpFault (Quantifier × List Char) :=
  match s with
  | [] => .ok (.one, [])
  | c :: r =>
    if c = '*' then
      if r.head? = some '?' then .error .unsupported else .ok (.star, r)
    else if c = '+' ∨ c = '?' then .error .unsupported
    else if c = '\x7b' then
      match parseBraced r with
      | some (some n, r2) =>
        if r2.head? = some '?' then .error .unsupported else .ok (.exactly n, r2)
      | some (none, _) => .error .unsupported
      | none => .ok (.one, s)
    else .ok (.one, s)

/-- The members of a character class body (the text between the brackets). -/
def classRanges : List Char → Except RegExpFault (List (Char × Char))
  | [] => .ok []
  | [a] => .ok [(a, a)]
  | [a, d] => .ok [(a, a), (d, d)]
  | a :: d :: b :: r =>
    if d = '-' then
      if a.toNat ≤ b.toNat then (classRanges r).map fun rs => (a, b) :: rs
      else .error .syntaxError
    else (classRanges (d :: b :: r)).map fun rs => (a, a) :: rs

/-- A character class, read after its opening bracket. -/
def parseClass (s : List Char) : Except RegExpFault (CharSet × List Char) :=
  let body := s.takeWhile fun c => c ≠ ']'
  match s.dropWhile fun c => c ≠ ']' with
  | [] => .error .syntaxError
  | _ :: r =>
    if body.contains '\\' ∨ body.head? = some '^' then .error .unsupported
    else (classRanges body).map fun rs => (CharSet.ranges rs, r)

/-- One atom at the head of a non-empty pattern text. -/
def parseAtom (s : List Char) : Except RegExpFault (CharSet × List Char) :=
  match s with
  | [] => .error .unsupported
  | c :: r =>
    if c = '\\' then
      match r with
      | [] => .error .syntaxError
      | e :: r2 =>
        if e = '.' then .ok (.lit '.', r2)
        else if e = 's' then .ok (.space, r2)
        else .error .unsupported
    else if c = '[' then parseClass r
    else if c = '(' then
      if r.contains ')' then .error .unsupported else .error .syntaxError
    else if c = ')' then .error .syntaxError
    else if c = '*' ∨ c = '+' ∨ c = '?' then .error .syntaxError
    else if c = '\x7b' then
      match parseBraced r with
      | some _ => .error .syntaxError
      | none => .ok (.lit c, r)
    else if c = '^' ∨ c = '$' ∨ c = '.' ∨ c = '|' then .error .unsupported
    else .ok (.lit c, r)

/-- A sequence of terms.  Every round consumes at least one character, so a
fuel of one more than the length of the text is never used up. -/
def parseTerms : Nat → List Char → Except RegExpFault (List Term)
  | 0, _ => .error .unsupported
  | _ + 1, [] => .ok []
  | fuel + 1, c :: s =>
    match parseAtom (c :: s) with
    | .error e => .error e
    | .ok (a, r) =>
      match parseQuantifier r with
      | .error e => .error e
      | .ok (q, r2) =>
        match parseTerms fuel r2 with
        | .error e => .error e
        | .ok ts => .ok (⟨a, q⟩ :: ts)

/-- The constructor `new RegExp(source, 'g')` on the embedded fragment. -/
def newRegExp (source : List Char) : Except RegExpFault (List Term) :=
  parseTerms (source.length + 1) source

/-- Tries `f k`, `f (k-1)`, ..., `f 0` and returns the first success: the
order in which a greedy quantifier gives characters back. -/
def firstDown {α : Type} (f : Nat → Option α) : Nat → Option α
  | 0 => f 0
  | k + 1 =>
    match f (k + 1) with
    | some a => some a
    | none => firstDown f k

/-- Backtracking match of a sequence of terms at the head of the input; the
result is the input left after the match. -/
def matchTerms : List Term → List Char → Option (List Char)
  | [], s => some s
  | ⟨cs, .one⟩ :: ts, s =>
    match s with
    | [] => none
    | c :: r => if cs.test c then matchTerms ts r else none
  | ⟨cs, .exactly n⟩ :: ts, s =>
    if n ≤ s.length ∧ (s.take n).all cs.test then matchTerms ts (s.drop n) else none
  | ⟨cs, .star⟩ :: ts, s =>
    firstDown (fun k => matchTerms ts (s.drop k)) (s.takeWhile cs.test).length

/-- A match attempt at the head of `s`: the matched text and what follows. -/
def regExpExec (re : List Term) (s : List Char) : Option (List Char × List Char) :=
  (matchTerms re s).map fun rest => (s.take (s.length - rest.length), rest)

/-- The operation GetSubstitution for a pattern without capture groups: `$$`,
`$&`, the dollar-backtick and the dollar-apostrophe forms are expanded, every
other character (a dollar followed by a digit included) stands for itself. -/
def getSubstitution (matched before after : List Char) : List Char → List Char
  | [] => []
  | [c] => [c]
  | c :: d :: t =>
    if c = '$' then
      if d = '$' then '$' :: getSubstitution matched before after t
      else if d = '&' then matched ++ getSubstitution matched before after t
      else if d = Char.ofNat 96 then before ++ getSubstitution matched before after t
      else if d = Char.ofNat 39 then after ++ getSubstitution matched before after t
      else c :: getSubstitution matched before after (d :: t)
    else c :: getSubstitution matched before after (d :: t)

/-- The loop of `String.prototype.replace` with a global pattern: `before` is
the text already scanned, `s` the text from the current index on.  An empty
match is followed by a one-character advance. -/
def replaceLoop (re : List Term) (template : List Char) :
    Nat → List Char → List Char → List Char
  | 0, _, s => s
  | fuel + 1, before, s =>
    match regExpExec re s with
    | some (matched, rest) =>
      let out := getSubstitution matched before rest template
      if matched.isEmpty then
        match s with
        | [] => out
        | c :: r => out ++ c :: replaceLoop re template fuel (before ++ [c]) r
      else out ++ replaceLoop re template fuel (before ++ matched) rest
    | none =>
      match s with
      | [] => []
      | c :: r => c :: replaceLoop re template fuel (before ++ [c]) r

/-- The scan of `String.prototype.replace` resumed at an index: `before` is the
text in front of the index, `s` the text from the index on. -/
def replaceFrom (re : List Term) (template before s : List Char) : List Char :=
  replaceLoop re template (s.length + 1) before s

/-- The call `s.replace(regex, template)` for a global `regex`. -/
def replaceAll (re : List Term) (template s : List Char) : List Char :=
  replaceFrom re template [] s

/-! ## `replaceColors` -/

/-- The pattern source built for a class name (the template literal of
`replaceColors`). -/
def ruleSource (className : List Char) : List Char :=
  "\\.".toList ++ className ++ "\\s*\x7b\\s*fill:\\s*#[0-9a-fA-F]\x7b6\x7d;".toList

/-- The replacement text built for a class name and a colour. -/
def ruleTemplate (className : List Char) (color : JSValue) : List Char :=
  ".".toList ++ className ++ " \x7b fill: ".toList ++ color.toJSString ++ ";".toList

/-- A colour map, as enumerated by `Object.entries`. -/
abbrev ColorMap := List (List Char × JSValue)

/-- One round of the `forEach` of `replaceColors`. -/
def replaceColorsStep (result : List Char) (entry : List Char × JSValue) :
    Except RegExpFault (List Char) :=
  if entry.2.truthy then
    match newRegExp (ruleSource entry.1) with
    | .error e => .error e
    | .ok regex => .ok (replaceAll regex (ruleTemplate entry.1 entry.2) result)
  else .ok result

/-- The function `replaceColors(svgContent, colorMap)`; an error is a thrown
exception. -/
def replaceColors (svgContent : List Char) : ColorMap → Except RegExpFault (List Char)
  | [] => .ok svgContent
  | entry :: rest =>
    match replaceColorsStep svgContent entry with
    | .error e => .error e
    | .ok result => replaceColors result rest

/-! ## The theme catalog -/

/-- A theme of `COLOR_THEMES`. -/
structure Theme where
  name : String
  description : String
  colors : ColorMap
  deriving DecidableEq, Repr

/-- The colour object of a theme, in declaration order. -/
def mkColors (shield ghost eyes text slogan : String) : ColorMap :=
  [("shield".toList, .str shield.toList), ("ghost".toList, .str ghost.toList),
   ("eyes".toList, .str eyes.toList), ("text".toList, .str text.toList),
   ("slogan".toList, .str slogan.toList)]

/-- The constant `COLOR_THEMES`, as enumerated by `Object.entries`. -/
def COLOR_THEMES : List (String × Theme) :=
  [("midnight-phantom", ⟨"Midnight Phantom", "Default deep space purple",
      mkColors "#24245a" "#ffffff" "#24245a" "#24245a" "#5c5981"⟩),
   ("quantum-blue", ⟨"Quantum Blue", "Deep space blue for tech community",
      mkColors "#0A1628" "#ffffff" "#1E3A8A" "#0A1628" "#60A5FA"⟩),
   ("forest-stealth", ⟨"Forest Stealth", "Eco-tech, green computing",
      mkColors "#14532D" "#ffffff" "#166534" "#14532D" "#4ADE80"⟩),
   ("dark-matter", ⟨"Dark Matter", "Near black minimalist design",
      mkColors "#0F0F0F" "#ffffff" "#1A1A1A" "#0F0F0F" "#707070"⟩),
   ("void-black", ⟨"Void Black", "Absolute black monochrome",
      mkColors "#000000" "#ffffff" "#000000" "#000000" "#666666"⟩),
   ("crimson-phantom", ⟨"Crimson Phantom", "Warning red for security alerts",
      mkColors "#1A0A0A" "#ffffff" "#DC2626" "#1A0A0A" "#EF4444"⟩),
   ("mystic-purple", ⟨"Mystic Purple", "Deep cosmic purple energy",
      mkColors "#3B0764" "#ffffff" "#7C3AED" "#3B0764" "#A78BFA"⟩),
   ("stellar-silver", ⟨"Stellar Silver", "Light mode inverted design",
      mkColors "#E5E7EB" "#1F2937" "#E5E7EB" "#E5E7EB" "#9CA3AF"⟩)]

/-- The theme data of a catalog theme, `COLOR_THEMES[themeName]`. -/
def themeNamed (themeName : String) : Theme :=
  (COLOR_THEMES.lookup themeName).getD ⟨"", "", []⟩

/-- The colour object of a catalog theme, `COLOR_THEMES[themeName].colors`. -/
def themeColors (themeName : String) : ColorMap :=
  ((COLOR_THEMES.lookup themeName).map Theme.colors).getD []

/-! ## The generator: configuration -/

/-- A path below the output directory, as its list of components.  The
components joined by the generator hold no separator and are never `.` or `..`,
so `path.join` keeps them apart. -/
abbrev Path := List String

/-- An entry of `CONFIG.iconSizes`. -/
structure IconSize where
  size : Nat
  name : String
  deriving DecidableEq, Repr

/-- An entry of `CONFIG.logoSizes`: an object with a `width` or a `height`. -/
structure LogoSize where
  width : Option Nat
  height : Option Nat
  name : String
  deriving DecidableEq, Repr

namespace CONFIG

def inputDir : String := "./masters"

def masterFiles : List String :=
  ["phantom-horizontal-master.svg", "phantom-vertical-master.svg", "phantom-icon-master.svg"]

def iconMasterFile : String := "phantom-icon-master.svg"

def iconFormats : List String := ["png", "webp", "avif"]

def icoSizes : List Nat := [16, 32, 48]

def logoFiles.horizontal : String := "phantom-horizontal-master.svg"

def logoFiles.vertical : String := "phantom-vertical-master.svg"

def logoFormats : List String := ["png", "webp", "avif"]

def logoSizes.horizontal : List LogoSize :=
  [⟨some 200, none, "logo-h-small"⟩, ⟨some 300, none, "logo-h-medium"⟩,
   ⟨some 400, none, "logo-h-large"⟩, ⟨some 600, none, "logo-h-xlarge"⟩]

def logoSizes.vertical : List LogoSize :=
  [⟨none, some 150, "logo-v-small"⟩, ⟨none, some 200, "logo-v-medium"⟩,
   ⟨none, some 300, "logo-v-large"⟩, ⟨none, some 400, "logo-v-xlarge"⟩]

/-- The keys of `CONFIG.logoSizes`. -/
def logoTypes : List String := ["horizontal", "vertical"]

/-- The object `CONFIG.iconSizes`, as enumerated by `Object.entries`. -/
def iconSizes : List (String × List IconSize) :=
  [("favicons", [⟨16, "favicon-16"⟩, ⟨32, "favicon-32"⟩, ⟨48, "favicon-48"⟩,
      ⟨96, "favicon-96"⟩, ⟨192, "favicon-192"⟩]),
   ("ios", [⟨180, "apple-touch-icon-180"⟩, ⟨152, "apple-touch-icon-152"⟩,
      ⟨120, "apple-touch-icon-120"⟩, ⟨76, "apple-touch-icon-76"⟩,
      ⟨60, "apple-touch-icon-60"⟩]),
   ("android", [⟨512, "android-chrome-512"⟩, ⟨192, "android-chrome-192"⟩,
      ⟨144, "android-chrome-144"⟩, ⟨96, "android-chrome-96"⟩, ⟨72, "android-chrome-72"⟩,
      ⟨48, "android-chrome-48"⟩])]

end CONFIG

/-! ## The generator: environment and state -/

/-- A call into the image libraries (`sharp`, `png-to-ico`). -/
inductive Call where
  /-- The pipeline `sharp(input).resize(...).<format>(...).toFile(target)`. -/
  | toFile (input : List Char) (target : Path) (width height : Option Nat) (format : String)
  /-- The pipeline `sharp(input).resize(size, size, ...).png(...).toBuffer()`. -/
  | toBuffer (input : List Char) (size : Nat)
  /-- The call `pngToIco(buffers)` on the buffers of the given sizes. -/
  | pngToIco (sizes : List Nat)
  deriving DecidableEq, Repr

/-- What the run does not control: the command line, the input files, and which
file-system and image-library operations fail.  An image-library call may fail
depending on its position in the run and on its arguments. -/
structure Env where
  args : List String
  inputDirExists : Bool
  masterExists : String → Bool
  masterContent : String → List Char
  readFails : String → Bool
  dirExists : Path → Bool
  mkdirFails : Path → Bool
  writeFails : Path → Bool
  callFails : Nat → Call → Bool

/-- What the run has done so far below the output directory. -/
structure Sys where
  /-- Directories created, latest first. -/
  dirs : List Path
  /-- Files written, latest first. -/
  files : List Path
  /-- Image-library calls made, latest first. -/
  calls : List Call
  deriving DecidableEq, Repr

/-- The state before the run. -/
def Sys.initial : Sys := ⟨[], [], []⟩

/-- An exception that leaves the function. -/
inductive Thrown where
  | error
  deriving DecidableEq, Repr

/-- The file `outputPath.format` for an `outputPath` given without extension. -/
def addExt : Path → String → Path
  | [], ext => ["." ++ ext]
  | [name], ext => [name ++ "." ++ ext]
  | d :: rest, ext => d :: addExt rest ext

/-- The function `ensureDirectoryExists(dirPath)`: `mkdirSync` is recursive, so
a directory exists once a directory below it has been created. -/
def ensureDirectoryExists (env : Env) (st : Sys) (dirPath : Path) : Except Thrown Sys :=
  if env.dirExists dirPath || st.dirs.any (fun d => dirPath.isPrefixOf d) then .ok st
  else if env.mkdirFails dirPath then .error .error
  else .ok { st with dirs := dirPath :: st.dirs }

/-- One image-library call: it is recorded, and fails or not as the environment
says. -/
def libraryCall (env : Env) (st : Sys) (call : Call) : Bool × Sys :=
  (!env.callFails st.calls.length call, { st with calls := call :: st.calls })

/-- The switch over the format shared by `generateIcon` and `generateLogo`:
every failure inside the `try` gives `false`. -/
def encodeToFile (env : Env) (st : Sys) (inputBuffer : List Char) (outputPath : Path)
    (width height : Option Nat) (format : String) : Bool × Sys :=
  if format = "png" ∨ format = "webp" ∨ format = "avif" then
    let target := addExt outputPath format
    let (ok, st1) := libraryCall env st (.toFile inputBuffer target width height format)
    if ok then (true, { st1 with files := target :: st1.files }) else (false, st1)
  else (false, st)

/-- The function `generateIcon(inputBuffer, outputPath, size, format)`. -/
def generateIcon (env : Env) (st : Sys) (inputBuffer : List Char) (outputPath : Path)
    (size : Nat) (format : String) : Bool × Sys :=
  encodeToFile env st inputBuffer outputPath (some size) (some size) format

/-- Truthiness of `dimensions.width`. -/
def LogoSize.hasWidth (d : LogoSize) : Bool :=
  match d.width with
  | some w => w != 0
  | none => false

/-- The function `generateLogo(inputBuffer, outputPath, dimensions, format)`. -/
def generateLogo (env : Env) (st : Sys) (inputBuffer : List Char) (outputPath : Path)
    (dimensions : LogoSize) (format : String) : Bool × Sys :=
  if dimensions.hasWidth then encodeToFile env st inputBuffer outputPath dimensions.width none format
  else encodeToFile env st inputBuffer outputPath none dimensions.height format

/-- The loop of `generateIcoFile` over the sizes: the buffers made, or `none`
once a call has failed (the sizes that follow are not attempted). -/
def icoBuffers (env : Env) (inputBuffer : List Char) : List Nat → Sys → Option (List Nat) × Sys
  | [], st => (some [], st)
  | size :: rest, st =>
    let (ok, st1) := libraryCall env st (.toBuffer inputBuffer size)
    if ok then
      match icoBuffers env inputBuffer rest st1 with
      | (some bs, st2) => (some (size :: bs), st2)
      | (none, st2) => (none, st2)
    else (none, st1)

/-- The function `generateIcoFile(inputBuffer, outputPath)`. -/
def generateIcoFile (env : Env) (st : Sys) (inputBuffer : List Char) (outputPath : Path) :
    Bool × Sys :=
  match icoBuffers env inputBuffer CONFIG.icoSizes st with
  | (none, st1) => (false, st1)
  | (some buffers, st1) =>
    let (ok, st2) := libraryCall env st1 (.pngToIco buffers)
    if ok then
      if env.writeFails outputPath then (false, st2)
      else (true, { st2 with files := outputPath :: st2.files })
    else (false, st2)

/-- The counters `generated` and `failed` with the state. -/
structure Tally where
  generated : Nat
  failed : Nat
  sys : Sys
  deriving DecidableEq, Repr

/-- One round of a counting loop. -/
def Tally.count (result : Bool × Sys) (t : Tally) : Tally :=
  if result.1 then ⟨t.generated + 1, t.failed, result.2⟩ else ⟨t.generated, t.failed + 1, result.2⟩

/-- The two nested loops of `generateCategoryIcons`. -/
def categoryLoop (env : Env) (svgBuffer : List Char) (categoryDir : Path)
    (sizes : List IconSize) (formats : List String) (t : Tally) : Tally :=
  sizes.foldl (fun t1 entry =>
    formats.foldl (fun t2 format =>
      t2.count (generateIcon env t2.sys svgBuffer (categoryDir ++ [entry.name]) entry.size format))
      t1) t

/-- The function `generateCategoryIcons(svgBuffer, category, sizes, formats,
outputDir)`. -/
def generateCategoryIcons (env : Env) (st : Sys) (svgBuffer : List Char) (category : String)
    (sizes : List IconSize) (formats : List String) (outputDir : Path) : Except Thrown Tally :=
  match ensureDirectoryExists env st (outputDir ++ [category]) with
  | .error e => .error e
  | .ok st1 => .ok (categoryLoop env svgBuffer (outputDir ++ [category]) sizes formats ⟨0, 0, st1⟩)

/-- The loop of `generateThemeIcons` over the categories. -/
def categoriesLoop (env : Env) (svgBuffer : List Char) (iconsDir : Path) :
    List (String × List IconSize) → Tally → Except Thrown Tally
  | [], t => .ok t
  | (category, sizes) :: rest, t =>
    match generateCategoryIcons env t.sys svgBuffer category sizes CONFIG.iconFormats iconsDir with
    | .error e => .error e
    | .ok r => categoriesLoop env svgBuffer iconsDir rest
        ⟨t.generated + r.generated, t.failed + r.failed, r.sys⟩

/-- The function `generateThemeIcons(svgContent, themeName)`. -/
def generateThemeIcons (env : Env) (st : Sys) (svgContent : List Char) (themeName : String) :
    Except Thrown Tally :=
  match ensureDirectoryExists env st [themeName, "icons"] with
  | .error e => .error e
  | .ok st1 =>
    match categoriesLoop env svgContent [themeName, "icons"] CONFIG.iconSizes ⟨0, 0, st1⟩ with
    | .error e => .error e
    | .ok t =>
      .ok (t.count (generateIcoFile env t.sys svgContent
        [themeName, "icons", "favicons", "favicon.ico"]))

/-- Truthiness of a value that is `null` or a string. -/
def truthyContent : Option (List Char) → Bool
  | some s => !s.isEmpty
  | none => false

/-- The two nested loops of `generateThemeLogos` for one orientation. -/
def logoLoop (env : Env) (buffer : List Char) (dir : Path) (sizes : List LogoSize)
    (formats : List String) (t : Tally) : Tally :=
  sizes.foldl (fun t1 logoSize =>
    formats.foldl (fun t2 format =>
      t2.count (generateLogo env t2.sys buffer (dir ++ [logoSize.name]) logoSize format)) t1) t

/-- One orientation of `generateThemeLogos`: nothing happens for a content that
is not truthy. -/
def logoOrientation (env : Env) (content : Option (List Char)) (dir : Path)
    (sizes : List LogoSize) (t : Tally) : Except Thrown Tally :=
  if truthyContent content then
    match ensureDirectoryExists env t.sys dir with
    | .error e => .error e
    | .ok st1 =>
      .ok (logoLoop env (content.getD []) dir sizes CONFIG.logoFormats
        ⟨t.generated, t.failed, st1⟩)
  else .ok t

/-- The function `generateThemeLogos(horizontalSvgContent, verticalSvgContent,
themeName)`. -/
def generateThemeLogos (env : Env) (st : Sys) (horizontalSvgContent verticalSvgContent :
    Option (List Char)) (themeName : String) : Except Thrown Tally :=
  match ensureDirectoryExists env st [themeName, "logos"] with
  | .error e => .error e
  | .ok st1 =>
    match logoOrientation env horizontalSvgContent [themeName, "logos", "horizontal"]
        CONFIG.logoSizes.horizontal ⟨0, 0, st1⟩ with
    | .error e => .error e
    | .ok t =>
      logoOrientation env verticalSvgContent [themeName, "logos", "vertical"]
        CONFIG.logoSizes.vertical t

/-! ## The generator: `main` -/

/-- The six counters of `main`. -/
structure Totals where
  svgGenerated : Nat
  svgSkipped : Nat
  iconsGenerated : Nat
  iconsFailed : Nat
  logosGenerated : Nat
  logosFailed : Nat
  deriving DecidableEq, Repr

/-- The function `generateColorVariation(masterFile, themeName, themeData)`: the
pair `success`, `svgContent`, with the new state. -/
def generateColorVariation (env : Env) (st : Sys) (masterFile themeName : String)
    (themeData : Theme) : Except Thrown ((Bool × Option (List Char)) × Sys) :=
  if !env.masterExists masterFile then .ok ((false, none), st)
  else if env.readFails masterFile then .error .error
  else
    match replaceColors (env.masterContent masterFile) themeData.colors with
    | .error _ => .error .error
    | .ok svgContent =>
      match ensureDirectoryExists env st [themeName] with
      | .error e => .error e
      | .ok st1 =>
        if env.writeFails [themeName, masterFile] then .error .error
        else .ok ((true, some svgContent),
          { st1 with files := [themeName, masterFile] :: st1.files })

/-- The three variables `themeIconSvgContent`, `themeHorizontalSvgContent` and
`themeVerticalSvgContent`. -/
structure ThemeContents where
  icon : Option (List Char)
  horizontal : Option (List Char)
  vertical : Option (List Char)
  deriving DecidableEq, Repr

/-- The assignment made after a successful recolouring. -/
def ThemeContents.store (c : ThemeContents) (masterFile : String)
    (svgContent : Option (List Char)) : ThemeContents :=
  if masterFile = CONFIG.iconMasterFile then { c with icon := svgContent }
  else if masterFile = CONFIG.logoFiles.horizontal then { c with horizontal := svgContent }
  else if masterFile = CONFIG.logoFiles.vertical then { c with vertical := svgContent }
  else c

/-- The loop of `main` over `CONFIG.masterFiles` for one theme. -/
def svgLoop (env : Env) (themeName : String) (themeData : Theme) :
    List String → Totals × ThemeContents × Sys → Except Thrown (Totals × ThemeContents × Sys)
  | [], acc => .ok acc
  | masterFile :: rest, (tot, c, st) =>
    match generateColorVariation env st masterFile themeName themeData with
    | .error e => .error e
    | .ok ((success, svgContent), st1) =>
      if success then
        svgLoop env themeName themeData rest
          ({ tot with svgGenerated := tot.svgGenerated + 1 }, c.store masterFile svgContent, st1)
      else
        svgLoop env themeName themeData rest
          ({ tot with svgSkipped := tot.svgSkipped + 1 }, c, st1)

/-- The icon step of one theme iteration. -/
def iconStep (env : Env) (themeName : String) (c : ThemeContents) (tot : Totals) (st : Sys) :
    Except Thrown (Totals × Sys) :=
  if truthyContent c.icon then
    match generateThemeIcons env st (c.icon.getD []) themeName with
    | .error e => .error e
    | .ok t => .ok ({ tot with iconsGenerated := tot.iconsGenerated + t.generated,
                               iconsFailed := tot.iconsFailed + t.failed }, t.sys)
  else .ok (tot, st)

/-- The logo step of one theme iteration. -/
def logoStep (env : Env) (themeName : String) (c : ThemeContents) (tot : Totals) (st : Sys) :
    Except Thrown (Totals × Sys) :=
  if truthyContent c.horizontal || truthyContent c.vertical then
    match generateThemeLogos env st c.horizontal c.vertical themeName with
    | .error e => .error e
    | .ok t => .ok ({ tot with logosGenerated := tot.logosGenerated + t.generated,
                               logosFailed := tot.logosFailed + t.failed }, t.sys)
  else .ok (tot, st)

/-- One iteration of the loop of `main` over the themes. -/
def themeIteration (env : Env) (tot : Totals) (st : Sys) (themeName : String)
    (themeData : Theme) : Except Thrown (Totals × Sys) :=
  match svgLoop env themeName themeData CONFIG.masterFiles (tot, ⟨none, none, none⟩, st) with
  | .error e => .error e
  | .ok (tot1, c, st1) =>
    match iconStep env themeName c tot1 st1 with
    | .error e => .error e
    | .ok (tot2, st2) => logoStep env themeName c tot2 st2

/-- The loop of `main` over the themes. -/
def themesLoop (env : Env) : List (String × Theme) → Totals × Sys → Except Thrown (Totals × Sys)
  | [], acc => .ok acc
  | (themeName, themeData) :: rest, (tot, st) =>
    match themeIteration env tot st themeName themeData with
    | .error e => .error e
    | .ok acc => themesLoop env rest acc

/-- The value of `createSummary`. -/
structure Manifest where
  generated : String
  svgFilesGenerated : Nat
  svgFilesSkipped : Nat
  iconsGenerated : Nat
  iconsFailed : Nat
  iconsFormats : List String
  iconsCategories : List String
  logosGenerated : Nat
  logosFailed : Nat
  logosFormats : List String
  logosTypes : List String
  themes : List String
  outputDirectory : String
  deriving DecidableEq, Repr

/-- The function `createSummary`; `now` is `new Date().toISOString()` and
`outputDir` is `CONFIG.outputDir`. -/
def createSummary (now outputDir : String) (svgGenerated svgSkipped iconsGenerated iconsFailed
    logosGenerated logosFailed : Nat) : Manifest :=
  { generated := now
    svgFilesGenerated := svgGenerated
    svgFilesSkipped := svgSkipped
    iconsGenerated := iconsGenerated
    iconsFailed := iconsFailed
    iconsFormats := CONFIG.iconFormats
    iconsCategories := CONFIG.iconSizes.map Prod.fst
    logosGenerated := logosGenerated
    logosFailed := logosFailed
    logosFormats := CONFIG.logoFormats
    logosTypes := CONFIG.logoTypes
    themes := COLOR_THEMES.map Prod.fst
    outputDirectory := outputDir }

/-- The value `args[0] || './output'`. -/
def outputDirArg (args : List String) : String :=
  match args.head? with
  | some a => if a = "" then "./output" else a
  | none => "./output"

/-- How the script ends. -/
inductive RunResult where
  /-- The call `process.exit(code)` inside `main`. -/
  | exited (code : Nat) (sys : Sys)
  /-- An error left `main`: the handler of the script calls `process.exit(1)`. -/
  | fatal
  /-- The function `main` ran to its end and displayed the summary. -/
  | completed (totals : Totals) (summary : Manifest) (sys : Sys)
  deriving DecidableEq, Repr

/-- The exit code of the process. -/
def RunResult.exitCode : RunResult → Nat
  | .exited code _ => code
  | .fatal => 1
  | .completed _ _ _ => 0

/-- The script: `main()` with its `catch` handler. -/
def main (env : Env) (now : String) : RunResult :=
  if env.args.head? = some "--help" ∨ env.args.head? = some "-h" then .exited 0 Sys.initial
  else if !env.inputDirExists then .exited 1 Sys.initial
  else
    match ensureDirectoryExists env Sys.initial [] with
    | .error _ => .fatal
    | .ok st0 =>
      match themesLoop env COLOR_THEMES (⟨0, 0, 0, 0, 0, 0⟩, st0) with
      | .error _ => .fatal
      | .ok (tot, st) =>
        let summary := createSummary now (outputDirArg env.args) tot.svgGenerated tot.svgSkipped
          tot.iconsGenerated tot.iconsFailed tot.logosGenerated tot.logosFailed
        let st1 := if env.writeFails ["asset-summary.json"] then st
          else { st with files := ["asset-summary.json"] :: st.files }
        .completed tot summary st1

/-! ## Vocabulary of the specification -/

/-- The (size, format) pairs in the order of the two nested loops. -/
def sizeFormatPairs {α : Type} (sizes : List α) (formats : List String) : List (α × String) :=
  sizes.foldr (fun entry acc => formats.map (fun format => (entry, format)) ++ acc) []

/-- The image-library call of `generateIcon` for a pair. -/
def iconCall (input : List Char) (dir : Path) (p : IconSize × String) : Call :=
  .toFile input (addExt (dir ++ [p.1.name]) p.2) (some p.1.size) (some p.1.size) p.2

/-- The number of failing calls among `calls`, the first of which is made at
position `i` of the run. -/
def failingCalls (env : Env) : Nat → List Call → Nat
  | _, [] => 0
  | i, c :: cs => (if env.callFails i c then 1 else 0) + failingCalls env (i + 1) cs

/-- A format for which `generateIcon` and `generateLogo` have a case. -/
def knownFormat (format : String) : Bool :=
  format = "png" ∨ format = "webp" ∨ format = "avif"



/-- Characters of a plain CSS class name: ASCII letters, digits, hyphen and
underscore. -/
def isNameChar (c : Char) : Bool :=
  let n := c.toNat
  (48 ≤ n && n ≤ 57) || (65 ≤ n && n ≤ 90) || (97 ≤ n && n ≤ 122) || n == 45 || n == 95

/-- A hexadecimal digit, `[0-9a-fA-F]`. -/
def isHexDigit (c : Char) : Bool :=
  let n := c.toNat
  (48 ≤ n && n ≤ 57) || (97 ≤ n && n ≤ 102) || (65 ≤ n && n ≤ 70)

/-- A class name made of name characters only. -/
def IsClassName (C : List Char) : Prop := ∀ c ∈ C, isNameChar c = true

/-- A text without regular-expression syntax characters. -/
def IsPlain (C : List Char) : Prop := ∀ c ∈ C, isSyntaxCharacter c = false

/-- A run of white space (possibly empty, possibly spanning lines). -/
def IsSpace (w : List Char) : Prop := ∀ c ∈ w, isWhiteSpace c = true

/-- Six hexadecimal digits. -/
def IsHex6 (h : List Char) : Prop := h.length = 6 ∧ ∀ c ∈ h, isHexDigit c = true

/-- The text of a fill rule for class `C`: `.C`, `{`, `fill:`, `#hhhhhh;`, with
the white space `w1`, `w2`, `w3` after the first three of them. -/
def ruleText (C w1 w2 w3 h : List Char) : List Char :=
  '.' :: C ++ w1 ++ '\x7b' :: w2 ++ "fill:".toList ++ w3 ++ '#' :: h ++ [';']

/-- The text `x` is a fill rule for class `C`. -/
def IsRule (C x : List Char) : Prop :=
  ∃ w1 w2 w3 h, IsSpace w1 ∧ IsSpace w2 ∧ IsSpace w3 ∧ IsHex6 h ∧ x = ruleText C w1 w2 w3 h

/-- A fill rule for class `C` stands at the head of `s`. -/
def MatchAt (C s : List Char) : Prop := ∃ x r, IsRule C x ∧ s = x ++ r

/-- The master contains a fill rule for class `C`. -/
def ContainsRule (C master : List Char) : Prop :=
  ∃ p x t, IsRule C x ∧ master = p ++ x ++ t

/-- Removes the prefix `p` from `s`, if `s` starts with it. -/
def dropPrefix? : List Char → List Char → Option (List Char)
  | [], s => some s
  | _ :: _, [] => none
  | p :: ps, c :: s => if c = p then dropPrefix? ps s else none

/-- Reads a fill rule for class `C` at the head of `s` and returns the text
that follows it: the selector `.C`, white space, a brace, white space, `fill:`,
white space, `#` with six hexadecimal digits, and a semicolon. -/
def readRule (C s : List Char) : Option (List Char) :=
  (dropPrefix? ('.' :: C) s).bind fun s1 =>
  (dropPrefix? ['\x7b'] (s1.dropWhile isWhiteSpace)).bind fun s2 =>
  (dropPrefix? "fill:".toList (s2.dropWhile isWhiteSpace)).bind fun s3 =>
  (dropPrefix? ['#'] (s3.dropWhile isWhiteSpace)).bind fun s4 =>
  if 6 ≤ s4.length ∧ (s4.take 6).all isHexDigit then dropPrefix? [';'] (s4.drop 6) else none

/-- The class name of the selector that starts at a dot: the name characters
that follow the dot. -/
def selectorClass (afterDot : List Char) : List Char := afterDot.takeWhile isNameChar

/-- The text `.C { fill: #hhhhhh;`. -/
def canonicalRule (C h : List Char) : List Char :=
  ".".toList ++ C ++ " \x7b fill: #".toList ++ h ++ ";".toList

/-- A text that starts with a dot and has no other dot. -/
def DotBlock (B : List Char) : Prop := ∃ t, B = '.' :: t ∧ '.' ∉ t

/-- A dot block that starts with the selector `.C`, the class name being
delimited by a character that is not a name character. -/
def HeadedBy (C B : List Char) : Prop :=
  ∃ e t, B = '.' :: C ++ e :: t ∧ isNameChar e = false ∧ '.' ∉ C ++ e :: t

/-- A colour map whose classes are plain class names, pairwise distinct, and
whose colours contain neither a dollar sign nor a dot. -/
def WellFormed (m : ColorMap) : Prop :=
  (∀ e ∈ m, IsClassName e.1) ∧ (m.map Prod.fst).Nodup ∧
  ∀ e ∈ m, '$' ∉ e.2.toJSString ∧ '.' ∉ e.2.toJSString

/-- The compiled form of the pattern of `replaceColors` for a plain class
name. -/
def ruleTerms (C : List Char) : List Term :=
  ⟨.lit '.', .one⟩ :: C.map (fun c => ⟨.lit c, .one⟩) ++
  [⟨.space, .star⟩, ⟨.lit '\x7b', .one⟩, ⟨.space, .star⟩,
   ⟨.lit 'f', .one⟩, ⟨.lit 'i', .one⟩, ⟨.lit 'l', .one⟩, ⟨.lit 'l', .one⟩, ⟨.lit ':', .one⟩,
   ⟨.space, .star⟩, ⟨.lit '#', .one⟩,
   ⟨.ranges [('0', '9'), ('a', 'f'), ('A', 'F')], .exactly 6⟩, ⟨.lit ';', .one⟩]

instance (C : List Char) : Decidable (IsClassName C) := by unfold IsClassName; infer_instance

instance (C : List Char) : Decidable (IsPlain C) := by unfold IsPlain; infer_instance

instance (w : List Char) : Decidable (IsSpace w) := by unfold IsSpace; infer_instance

instance (h : List Char) : Decidable (IsHex6 h) := by unfold IsHex6; infer_instance

instance (m : ColorMap) : Decidable (WellFormed m) := by unfold WellFormed; infer_instance

/-- A piece of a master: text that is kept as it is, or a fill rule `x` for
class `C` that is rewritten with the colour `v`. -/
inductive Segment where
  | keep (u : List Char)
  | rule (C : List Char) (v : JSValue) (x : List Char)

/-- The text of a piece in the master. -/
def Segment.source : Segment → List Char
  | .keep u => u
  | .rule _ _ x => x

/-- The text of a piece in the result. -/
def Segment.target : Segment → List Char
  | .keep u => u
  | .rule C v _ => ruleTemplate C v

/-- A rewritten piece is a fill rule for a class that the map colours. -/
def Segment.ValidFor (m : ColorMap) : Segment → Prop
  | .keep _ => True
  | .rule C v x => (C, v) ∈ m ∧ v.truthy = true ∧ IsRule C x

/-- The master made of the pieces, in order. -/
def sourceText : List Segment → List Char
  | [] => []
  | g :: gs => g.source ++ sourceText gs

/-- The result made of the pieces, in order. -/
def targetText : List Segment → List Char
  | [] => []
  | g :: gs => g.target ++ targetText gs

/-- The files that the loops write for the pairs, when every call succeeds. -/
def targetFiles {α : Type} (name : α → String) (dir : Path) (sizes : List α)
    (formats : List String) : List Path :=
  (sizeFormatPairs sizes formats).map fun p => addExt (dir ++ [name p.1]) p.2

/-- No image-library call fails. -/
def Env.NoCallFails (env : Env) : Prop := ∀ i c, env.callFails i c = false

/-- No directory creation fails. -/
def Env.NoMkdirFails (env : Env) : Prop := ∀ p, env.mkdirFails p = false

/-- The target of a call that writes a file. -/
def Call.target? : Call → Option Path
  | .toFile _ target _ _ _ => some target
  | .toBuffer _ _ => none
  | .pngToIco _ => none

/-- Nothing was written to, and no call was aimed at, a path below `dir`. -/
def Sys.Avoids (dir : Path) (st : Sys) : Prop :=
  (∀ p ∈ st.files, dir.isPrefixOf p = false) ∧
  ∀ c ∈ st.calls, ∀ target, c.target? = some target → dir.isPrefixOf target = false

/-- A sample environment: every input is present and nothing fails. -/
def Env.quiet : Env where
  args := []
  inputDirExists := true
  masterExists := fun _ => true
  masterContent := fun _ => "<svg><style>.text \x7b fill: #000000; \x7d</style></svg>".toList
  readFails := fun _ => false
  dirExists := fun _ => false
  mkdirFails := fun _ => false
  writeFails := fun _ => false
  callFails := fun _ _ => false

/-- A sample environment in which the encoder fails for `webp` at size 32 and
nothing else fails. -/
def Env.webp32Fails : Env :=
  { Env.quiet with
    callFails := fun _ call =>
      match call with
      | .toFile _ _ (some 32) _ format => format = "webp"
      | _ => false }

/-- One round of `replaceColors` once the pattern has been compiled. -/
def recolorPass (e : List Char × JSValue) (s : List Char) : List Char :=
  if e.2.truthy then replaceAll (ruleTerms e.1) (ruleTemplate e.1 e.2) s else s

/-- The rounds of `replaceColors`, in the order of the entries. -/
def recolorPasses : ColorMap → List Char → List Char
  | [], s => s
  | e :: m, s => recolorPasses m (recolorPass e s)

/-- The recoloured content that `main` holds for a master file of a theme:
`null` when the file is absent. -/
def recolored (env : Env) (themeData : Theme) (masterFile : String) : Option (List Char) :=
  if env.masterExists masterFile then
    some (recolorPasses themeData.colors (env.masterContent masterFile))
  else none

/-- No read of a master file, no directory creation and no write of a recoloured
master of the theme fails. -/
def Env.SvgStepsWork (env : Env) (themeName : String) : Prop :=
  (∀ f, env.readFails f = false) ∧ env.NoMkdirFails ∧ ∀ f, env.writeFails [themeName, f] = false

/-- The number of master files that exist. -/
def presentMasters (env : Env) : Nat :=
  (CONFIG.masterFiles.filter env.masterExists).length

/-- The directory of the vertical logos of a theme. -/
def verticalDir (themeName : String) : Path := [themeName, "logos", "vertical"]

/-- A master file exists and is not empty. -/
def masterUsable (env : Env) (masterFile : String) : Bool :=
  env.masterExists masterFile && !(env.masterContent masterFile).isEmpty

/-- A sample environment without the vertical master; nothing fails. -/
def Env.noVertical : Env :=
  { Env.quiet with masterExists := fun f => f != "phantom-vertical-master.svg" }

/-- A sample environment whose icon master is an empty file; nothing fails. -/
def Env.emptyIcon : Env :=
  { Env.quiet with
    masterContent := fun f =>
      if f = "phantom-icon-master.svg" then [] else Env.quiet.masterContent f }

/-- No read of a master file, no directory creation and no write of a recoloured
master fails. -/
def Env.FileSystemWorks (env : Env) : Prop :=
  (∀ f, env.readFails f = false) ∧ env.NoMkdirFails ∧
  ∀ themeName f, env.writeFails [themeName, f] = false

/-- The first argument asks for the usage text. -/
def Env.helpRequested (env : Env) : Prop :=
  env.args.head? = some "--help" ∨ env.args.head? = some "-h"

/-- A sample environment in which the input directory is missing. -/
def Env.noInput : Env :=
  { Env.quiet with inputDirExists := false }

/-- A sample environment in which every image-library call fails and no file
can be written directly below the output directory, where the manifest goes. -/
def Env.encoderDown : Env :=
  { Env.quiet with
    callFails := fun _ _ => true
    writeFails := fun p => p.length == 1 }

/-- The icon files of a theme in the order in which they are written. -/
def iconTargets (iconsDir : Path) (cats : List (String × List IconSize)) : List Path :=
  cats.foldr (fun c acc =>
    targetFiles IconSize.name (iconsDir ++ [c.1]) c.2 CONFIG.iconFormats ++ acc) []

/-- The output files of a theme below the output directory, the recoloured
masters apart: the icons, the icon container, the horizontal and the vertical
logos. -/
def themeOutputs (themeName : String) : List Path :=
  iconTargets [themeName, "icons"] CONFIG.iconSizes ++
  [[themeName, "icons", "favicons", "favicon.ico"]] ++
  targetFiles LogoSize.name [themeName, "logos", "horizontal"] CONFIG.logoSizes.horizontal
    CONFIG.logoFormats ++
  targetFiles LogoSize.name [themeName, "logos", "vertical"] CONFIG.logoSizes.vertical
    CONFIG.logoFormats

/-- The output files of a theme relative to the theme directory. -/
def relativeOutputs : List Path := (themeOutputs "").map List.tail

/-- The output files of a run over the whole catalog. -/
def catalogOutputs : List Path :=
  (COLOR_THEMES.map Prod.fst).flatMap themeOutputs

/-- A sample environment in which no directory can be created. -/
def Env.readOnly : Env :=
  { Env.quiet with mkdirFails := fun _ => true }

/-- A sample environment in which the third image-library call of a run
fails. -/
def Env.thirdCallFails : Env :=
  { Env.quiet with callFails := fun i _ => i == 2 }

/-! ## The install-script responder (`phantom-install/src/index.ts`) -/

/-- The value of `new URL(request.url)`: the components of the request URL as
the platform parses them. -/
structure URL where
  protocol : String
  host : String
  pathname : String
  search : String
  hash : String
  deriving DecidableEq, Repr

/-- A `Request`: method, URL, header list and body. -/
structure Request where
  method : String
  url : URL
  headers : List (String × String)
  body : Option String
  deriving DecidableEq, Repr

/-- A `Response`: body, status and the headers given to the constructor. -/
structure Response where
  body : String
  status : Nat
  headers : List (String × String)
  deriving DecidableEq, Repr

/-- A header name in lower case. -/
def lowerCase (name : String) : String :=
  ⟨name.data.map Char.toLower⟩

/-- The method `Headers.get(name)`: names are compared without regard to case,
the values of a repeated header are joined by a comma and a space, and an
absent header gives `null`. -/
def Headers.get (headers : List (String × String)) (name : String) : Option String :=
  match (headers.filter fun h => lowerCase h.1 == lowerCase name).map Prod.snd with
  | [] => none
  | vs => some (", ".intercalate vs)

/-- The expression `value || fallback` for a `value` that is a string or
`null`. -/
def orDefault (value : Option String) (fallback : String) : String :=
  match value with
  | some s => if s = "" then fallback else s
  | none => fallback

/-- The handler `fetch(request)`; `installScript` is the imported text of
`install.sh.txt`. -/
def fetch (installScript : String) (request : Request) : Response :=
  let url := request.url
  if url.pathname = "/health" then
    ⟨"OK", 200, [("Content-Type", "text/plain")]⟩
  else if url.pathname = "/ip" then
    let clientIP := orDefault (Headers.get request.headers "CF-Connecting-IP") "unknown"
    ⟨clientIP, 200,
      [("Content-Type", "text/plain"), ("Cache-Control", "no-cache, no-store, must-revalidate")]⟩
  else if url.pathname = "/" ∨ url.pathname = "/install" then
    ⟨installScript, 200,
      [("Content-Type", "text/x-shellscript; charset=utf-8"),
       ("Content-Disposition", "inline; filename=\"install.sh\""),
       ("Cache-Control", "no-cache, no-store, must-revalidate"),
       ("X-Content-Type-Options", "nosniff")]⟩
  else
    ⟨"Not Found", 404, [("Content-Type", "text/plain")]⟩

/-- A sample request for the client address. -/
def Request.sampleIp : Request :=
  ⟨"GET", ⟨"https:", "install.phantom.tc", "/ip", "", ""⟩,
    [("accept", "*/*"), ("cf-connecting-ip", "203.0.113.7")], none⟩

/-- A request for the same path with another method, a query string, a body
and other headers. -/
def Request.samplePost : Request :=
  ⟨"POST", ⟨"https:", "install.phantom.tc", "/ip", "?x=1", ""⟩,
    [("CF-Connecting-IP", "203.0.113.7"), ("user-agent", "curl/8.0")], some "payload"⟩

/-- A sample request for the script. -/
def Request.sampleInstall : Request :=
  ⟨"GET", ⟨"https:", "install.phantom.tc", "/install", "", ""⟩, [], none⟩

/-! ## Auto-reload (`phantom-www/src/assets/js/auto-reload.js`) -/

/-- The constant `INITIAL_RECONNECT_DELAY`, in milliseconds. -/
def INITIAL_RECONNECT_DELAY : ℚ := 500

/-- The constant `MAX_RECONNECT_DELAY`, in milliseconds. -/
def MAX_RECONNECT_DELAY : ℚ := 5000

/-- The variable `reconnectAttempts` of the script. -/
structure AutoReload where
  reconnectAttempts : Nat
  deriving DecidableEq, Repr

/-- The state when the script is loaded. -/
def AutoReload.initial : AutoReload := ⟨0⟩

/-- The handler of the `open` event. -/
def AutoReload.onOpen (_s : AutoReload) : AutoReload := ⟨0⟩

/-- The handler of the `error` event: the new state and the delay given to
`setTimeout`.  Numbers are exact rationals here: `1.5` is `3/2`, and the
products below the cap, 500, 750, 1125, 1687.5, 2531.25 and 3796.875, are
binary fractions. -/
def AutoReload.onError (s : AutoReload) : AutoReload × ℚ :=
  let reconnectAttempts := s.reconnectAttempts + 1
  let delay := min (INITIAL_RECONNECT_DELAY * (3 / 2 : ℚ) ^ (reconnectAttempts - 1))
    MAX_RECONNECT_DELAY
  (⟨reconnectAttempts⟩, delay)

/-- The state and the last delay after `k` `error` events in a row (delay 0
when there was none). -/
def AutoReload.errors : Nat → AutoReload → AutoReload × ℚ
  | 0, s => (s, 0)
  | k + 1, s => (AutoReload.errors k s).1.onError

/-! ## The feature slider (`phantom-www/src/assets/js/phantom.js`) -/

/-- The operator `%` on integers: the remainder has the sign of the dividend,
and a zero divisor gives `NaN` (here `none`). -/
def jsRem (a b : Int) : Option Int :=
  if b = 0 then none else some (a.tmod b)

/-- The fields `currentSlide` and `slideCount` of `PhantomFeatureSlider`;
`none` stands for `NaN`. -/
structure PhantomFeatureSlider where
  currentSlide : Option Int
  slideCount : Nat
  deriving DecidableEq, Repr

/-- The fields after the constructor, for `slideCount` slides in the page. -/
def PhantomFeatureSlider.new (slideCount : Nat) : PhantomFeatureSlider :=
  ⟨some 0, slideCount⟩

/-- The method `goToPhantomSlide(slideIndex)`. -/
def PhantomFeatureSlider.goToPhantomSlide (s : PhantomFeatureSlider) (slideIndex : Option Int) :
    PhantomFeatureSlider :=
  { s with currentSlide := slideIndex }

/-- The method `nextPhantomSlide()`. -/
def PhantomFeatureSlider.nextPhantomSlide (s : PhantomFeatureSlider) : PhantomFeatureSlider :=
  let s1 := { s with currentSlide := s.currentSlide.bind fun c => jsRem (c + 1) s.slideCount }
  s1.goToPhantomSlide s1.currentSlide

/-- The method `prevPhantomSlide()`. -/
def PhantomFeatureSlider.prevPhantomSlide (s : PhantomFeatureSlider) : PhantomFeatureSlider :=
  let s1 := { s with
    currentSlide := s.currentSlide.bind fun c => jsRem (c - 1 + s.slideCount) s.slideCount }
  s1.goToPhantomSlide s1.currentSlide

/-- A call of one of the three methods. -/
inductive SliderCall where
  | next
  | prev
  | goTo (slideIndex : Int)
  deriving DecidableEq, Repr

/-- The slider after a call. -/
def PhantomFeatureSlider.call (s : PhantomFeatureSlider) : SliderCall → PhantomFeatureSlider
  | .next => s.nextPhantomSlide
  | .prev => s.prevPhantomSlide
  | .goTo i => s.goToPhantomSlide (some i)

/-- The slider after a sequence of calls. -/
def PhantomFeatureSlider.run (s : PhantomFeatureSlider) (calls : List SliderCall) :
    PhantomFeatureSlider :=
  calls.foldl PhantomFeatureSlider.call s

/-- A call whose argument, if it has one, is the index of a slide. -/
def SliderCall.InRange (n : Nat) : SliderCall → Prop
  | .next => True
  | .prev => True
  | .goTo i => 0 ≤ i ∧ i < n

/-! ## Cast file paths (`overrides/assets/javascripts/asciinema-player.js`) -/

/-- The exception `TypeError`, thrown on a property access on `undefined`. -/
inductive TypeError where
  | undefinedProperty
  deriving DecidableEq, Repr

/-- The method `s.startsWith(searchString)`. -/
def startsWith (s searchString : List Char) : Bool :=
  searchString.isPrefixOf s

/-- The method `s.includes(searchString)`. -/
def includes (s searchString : List Char) : Bool :=
  s.tails.any fun t => searchString.isPrefixOf t

/-- The call `s.split('/')`: the empty string gives one empty part. -/
def splitSlash : List Char → List (List Char)
  | [] => [[]]
  | c :: cs =>
    if c = '/' then [] :: splitSlash cs
    else
      match splitSlash cs with
      | [] => [[c]]
      | p :: ps => (c :: p) :: ps

/-- The call `parts.join('/')`. -/
def joinSlash (parts : List (List Char)) : List Char :=
  List.intercalate ['/'] parts

/-- The loop of `resolveCastFilePath` over the parts of the cast path: `..`
removes the last part (nothing from an empty array), `.` is skipped, every
other part is pushed. -/
def applyRelative (pathParts castPathParts : List (List Char)) : List (List Char) :=
  castPathParts.foldl (fun parts part =>
    if part = ['.', '.'] then parts.dropLast
    else if part ≠ ['.'] then parts ++ [part]
    else parts) pathParts

/-- The function `resolveCastFilePath(path)`, with the value of
`window.location.pathname` as `currentPath`. -/
def resolveCastFilePath (currentPath path : List Char) : Except TypeError (List Char) :=
  if startsWith path "/".toList || startsWith path "http://".toList ||
      startsWith path "https://".toList then .ok path
  else if !includes path "../".toList then .ok ("/assets/static/".toList ++ path)
  else
    let pathParts := (splitSlash currentPath).filter fun p => !p.isEmpty
    match pathParts.getLast? with
    | none => .error .undefinedProperty
    | some last =>
      let pathParts := if includes last ".".toList then pathParts.dropLast else pathParts
      .ok ('/' :: joinSlash (applyRelative pathParts (splitSlash path)))

/-- A cast path is absolute when it starts with a slash or is a URL. -/
def isAbsolute (path : List Char) : Bool :=
  startsWith path "/".toList || startsWith path "http://".toList ||
    startsWith path "https://".toList

/-! ## The language switcher (`phantom-www/src/assets/js/language-switcher.js`) -/

/-- The own properties of the object `LANG_CONFIG`. -/
def LANG_CONFIG : List (String × String) :=
  [("en", "index.html"), ("tr", "index-tr.html")]

/-- The property names that an object literal inherits from
`Object.prototype`. -/
def objectPrototypeKeys : List String :=
  ["constructor", "__defineGetter__", "__defineSetter__", "hasOwnProperty",
   "__lookupGetter__", "__lookupSetter__", "isPrototypeOf", "propertyIsEnumerable",
   "toString", "valueOf", "__proto__", "toLocaleString"]

/-- The value of a lookup `LANG_CONFIG[key]`: the file of an own key, the
member inherited under that name (a function or an object), or `undefined`. -/
inductive LangLookup where
  | file (name : String)
  | inherited (key : String)
  | undefined
  deriving DecidableEq, Repr

/-- The lookup `LANG_CONFIG[key]`. -/
def LANG_CONFIG.get (key : String) : LangLookup :=
  match LANG_CONFIG.lookup key with
  | some name => .file name
  | none => if key ∈ objectPrototypeKeys then .inherited key else .undefined

/-- Truthiness of the value of a lookup. -/
def LangLookup.truthy : LangLookup → Bool
  | .file name => name ≠ ""
  | .inherited _ => true
  | .undefined => false

/-- What `switchLanguage` can change: the stored preference
(`phantomPreferredLanguage` in `localStorage`) and the value assigned to
`window.location.href`, if any; `storageFails` tells whether
`localStorage.setItem` throws. -/
structure Browser where
  storageFails : Bool
  preferredLanguage : Option String
  href : Option LangLookup
  deriving DecidableEq, Repr

/-- The function `switchLanguage(targetLang)` on a page whose language is
`currentLang`; the class added to the clicked button is left out. -/
def switchLanguage (currentLang targetLang : String) (b : Browser) : Browser :=
  if targetLang = currentLang then b
  else
    let targetFile := LANG_CONFIG.get targetLang
    if !targetFile.truthy then b
    else
      let b1 := if b.storageFails then b else { b with preferredLanguage := some targetLang }
      { b1 with href := some targetFile }

/-! ## Theorems -/

/-! ### Characters -/

theorem ne_of_isNameChar {c : Char} (x : Char) (hx : isNameChar x = false)
    (h : isNameChar c = true) : c ≠ x := by
  intro e; subst e; simp [h] at hx

theorem isWhiteSpace_of_isNameChar {c : Char} (h : isNameChar c = true) :
    isWhiteSpace c = false := by
  simp only [isNameChar, isWhiteSpace, Bool.or_eq_true, Bool.and_eq_true, decide_eq_true_eq,
    beq_iff_eq, Bool.or_eq_false_iff, Bool.and_eq_false_imp, beq_eq_false_iff_ne] at h ⊢
  omega

theorem isSyntaxCharacter_of_isNameChar {c : Char} (h : isNameChar c = true) :
    isSyntaxCharacter c = false := by
  have h1 := ne_of_isNameChar '^' (by decide) h
  have h2 := ne_of_isNameChar '$' (by decide) h
  have h3 := ne_of_isNameChar '\\' (by decide) h
  have h4 := ne_of_isNameChar '.' (by decide) h
  have h5 := ne_of_isNameChar '*' (by decide) h
  have h6 := ne_of_isNameChar '+' (by decide) h
  have h7 := ne_of_isNameChar '?' (by decide) h
  have h8 := ne_of_isNameChar '(' (by decide) h
  have h9 := ne_of_isNameChar ')' (by decide) h
  have h10 := ne_of_isNameChar '[' (by decide) h
  have h11 := ne_of_isNameChar ']' (by decide) h
  have h12 := ne_of_isNameChar '\x7b' (by decide) h
  have h13 := ne_of_isNameChar '\x7d' (by decide) h
  have h14 := ne_of_isNameChar '|' (by decide) h
  simp [isSyntaxCharacter, *]

theorem IsClassName.isPlain {C : List Char} (h : IsClassName C) : IsPlain C :=
  fun c hc => isSyntaxCharacter_of_isNameChar (h c hc)

/-! ### The compiled pattern -/

theorem parseAtom_plain {c : Char} (r : List Char) (h : isSyntaxCharacter c = false) :
    parseAtom (c :: r) = .ok (.lit c, r) := by
  simp only [isSyntaxCharacter, Bool.or_eq_false_iff, beq_eq_false_iff_ne] at h
  simp [parseAtom, h]

theorem parseQuantifier_plain {c : Char} (r : List Char) (h : isSyntaxCharacter c = false) :
    parseQuantifier (c :: r) = .ok (.one, c :: r) := by
  simp only [isSyntaxCharacter, Bool.or_eq_false_iff, beq_eq_false_iff_ne] at h
  simp [parseQuantifier, h]

theorem parseQuantifier_backslash (r : List Char) :
    parseQuantifier ('\\' :: r) = .ok (.one, '\\' :: r) := by
  simp [parseQuantifier]

theorem parseQuantifier_plain_append (C : List Char) (hC : IsPlain C) (r : List Char) :
    parseQuantifier (C ++ '\\' :: r) = .ok (.one, C ++ '\\' :: r) := by
  cases C with
  | nil => exact parseQuantifier_backslash r
  | cons d D => exact parseQuantifier_plain _ (hC d (List.mem_cons_self _ _))

theorem parseTerms_plain (C : List Char) (hC : IsPlain C) (n : Nat) (r : List Char) :
    parseTerms (C.length + n) (C ++ '\\' :: r) =
      match parseTerms n ('\\' :: r) with
      | .error e => .error e
      | .ok ts => .ok (C.map (fun c => ⟨.lit c, .one⟩) ++ ts) := by
  induction C with
  | nil => simp; cases parseTerms n ('\\' :: r) <;> rfl
  | cons c C ih =>
    have hc : isSyntaxCharacter c = false := hC c (List.mem_cons_self _ _)
    have hC2 : IsPlain C := fun d hd => hC d (List.mem_cons_of_mem _ hd)
    have hq := parseQuantifier_plain_append C hC2 r
    have hlen : (c :: C).length + n = (C.length + n) + 1 := by simp; omega
    rw [hlen, List.cons_append, parseTerms, parseAtom_plain _ hc]
    simp only [hq, ih hC2]
    cases parseTerms n ('\\' :: r) <;> rfl

/-- For a plain class name the constructor returns the expected pattern. -/
theorem newRegExp_ruleSource (C : List Char) (hC : IsPlain C) :
    newRegExp (ruleSource C) = .ok (ruleTerms C) := by
  have hlen : (ruleSource C).length + 1 = (C.length + 33) + 1 := by
    simp [ruleSource]
  have htail : parseTerms 33 ('\\' :: "s*\x7b\\s*fill:\\s*#[0-9a-fA-F]\x7b6\x7d;".toList) =
      .ok [⟨.space, .star⟩, ⟨.lit '\x7b', .one⟩, ⟨.space, .star⟩,
        ⟨.lit 'f', .one⟩, ⟨.lit 'i', .one⟩, ⟨.lit 'l', .one⟩, ⟨.lit 'l', .one⟩,
        ⟨.lit ':', .one⟩, ⟨.space, .star⟩, ⟨.lit '#', .one⟩,
        ⟨.ranges [('0', '9'), ('a', 'f'), ('A', 'F')], .exactly 6⟩, ⟨.lit ';', .one⟩] := by
    rfl
  have h := parseTerms_plain C hC 33 "s*\x7b\\s*fill:\\s*#[0-9a-fA-F]\x7b6\x7d;".toList
  have e1 : ruleSource C = '\\' :: '.' :: (C ++ '\\' :: "s*\x7b\\s*fill:\\s*#[0-9a-fA-F]\x7b6\x7d;".toList) := by
    simp [ruleSource]
  rw [newRegExp, hlen, e1, parseTerms]
  simp only [parseAtom]
  have hq := parseQuantifier_plain_append C hC "s*\x7b\\s*fill:\\s*#[0-9a-fA-F]\x7b6\x7d;".toList
  rw [htail] at h
  simp only [if_true, hq, h]
  rfl

/-! ### Matching the rule pattern -/

theorem firstDown_eq_some {α : Type} (f : Nat → Option α) (n : Nat) (a : α)
    (h : firstDown f n = some a) : ∃ k, k ≤ n ∧ f k = some a := by
  induction n with
  | zero => exact ⟨0, le_refl _, h⟩
  | succ n ih =>
    unfold firstDown at h
    cases hf : f (n + 1) with
    | some b =>
      rw [hf] at h
      exact ⟨n + 1, le_refl _, by rw [hf]; exact h⟩
    | none =>
      rw [hf] at h
      obtain ⟨k, hk, hfk⟩ := ih h
      exact ⟨k, Nat.le_succ_of_le hk, hfk⟩

theorem firstDown_top {α : Type} (f : Nat → Option α) (n : Nat) (a : α)
    (h : f n = some a) : firstDown f n = some a := by
  cases n with
  | zero => exact h
  | succ n => unfold firstDown; rw [h]

theorem matchTerms_nil (s r : List Char) : matchTerms [] s = some r ↔ s = r := by
  simp [matchTerms]

theorem matchTerms_one (cs : CharSet) (ts : List Term) (s r : List Char) :
    matchTerms (⟨cs, .one⟩ :: ts) s = some r ↔
      ∃ c s2, s = c :: s2 ∧ cs.test c = true ∧ matchTerms ts s2 = some r := by
  cases s with
  | nil => simp [matchTerms]
  | cons c s2 =>
    by_cases hc : cs.test c = true
    · simp only [matchTerms, hc, if_true]
      constructor
      · intro h; exact ⟨c, s2, rfl, hc, h⟩
      · rintro ⟨d, s3, he, -, hm⟩
        cases he; exact hm
    · simp only [matchTerms, hc]
      constructor
      · intro h; simp at h
      · rintro ⟨d, s3, he, hd, -⟩
        cases he; exact absurd hd hc

theorem matchTerms_lit (c : Char) (ts : List Term) (s r : List Char) :
    matchTerms (⟨.lit c, .one⟩ :: ts) s = some r ↔
      ∃ s2, s = c :: s2 ∧ matchTerms ts s2 = some r := by
  rw [matchTerms_one]
  constructor
  · rintro ⟨d, s2, rfl, hd, hm⟩
    have : d = c := by simpa [CharSet.test] using hd
    exact ⟨s2, by rw [this], hm⟩
  · rintro ⟨s2, rfl, hm⟩
    exact ⟨c, s2, rfl, by simp [CharSet.test], hm⟩

theorem matchTerms_lits (C : List Char) (ts : List Term) (s r : List Char) :
    matchTerms (C.map (fun c => ⟨.lit c, .one⟩) ++ ts) s = some r ↔
      ∃ s2, s = C ++ s2 ∧ matchTerms ts s2 = some r := by
  induction C generalizing s with
  | nil => simp
  | cons c C ih =>
    simp only [List.map_cons, List.cons_append, matchTerms_lit, ih]
    constructor
    · rintro ⟨s2, rfl, s3, rfl, hm⟩
      exact ⟨s3, rfl, hm⟩
    · rintro ⟨s2, rfl, hm⟩
      exact ⟨C ++ s2, rfl, s2, rfl, hm⟩

theorem take_all_of_le_takeWhile (p : Char → Bool) (s : List Char) (k : Nat)
    (hk : k ≤ (s.takeWhile p).length) : ∀ c ∈ s.take k, p c = true := by
  induction s generalizing k with
  | nil => simp
  | cons a s ih =>
    cases k with
    | zero => simp
    | succ k =>
      by_cases ha : p a = true
      · simp only [List.takeWhile_cons, ha, if_true, List.length_cons] at hk
        intro c hc
        simp only [List.take_succ_cons, List.mem_cons] at hc
        rcases hc with rfl | hc
        · exact ha
        · exact ih k (by omega) c hc
      · simp [List.takeWhile_cons, ha] at hk

theorem takeWhile_append_stop (p : Char → Bool) (w : List Char) (c : Char) (s : List Char)
    (hw : ∀ d ∈ w, p d = true) (hc : p c = false) :
    (w ++ c :: s).takeWhile p = w := by
  induction w with
  | nil => simp [List.takeWhile_cons, hc]
  | cons a w ih =>
    have ha : p a = true := hw a (List.mem_cons_self _ _)
    simp [List.takeWhile_cons, ha, ih (fun d hd => hw d (List.mem_cons_of_mem _ hd))]

theorem matchTerms_space_star_lit (c : Char) (hc : isWhiteSpace c = false) (ts : List Term)
    (s r : List Char) :
    matchTerms (⟨.space, .star⟩ :: ⟨.lit c, .one⟩ :: ts) s = some r ↔
      ∃ w s2, IsSpace w ∧ s = w ++ c :: s2 ∧ matchTerms ts s2 = some r := by
  constructor
  · intro h
    simp only [matchTerms] at h
    obtain ⟨k, hk, hfk⟩ := firstDown_eq_some _ _ _ h
    have hfk2 : matchTerms (⟨.lit c, .one⟩ :: ts) (s.drop k) = some r := hfk
    rw [matchTerms_lit] at hfk2
    obtain ⟨s2, hs2, hm⟩ := hfk2
    refine ⟨s.take k, s2, ?_, ?_, hm⟩
    · exact take_all_of_le_takeWhile _ s k hk
    · rw [← hs2, List.take_append_drop]
  · rintro ⟨w, s2, hw, rfl, hm⟩
    simp only [matchTerms]
    apply firstDown_top
    have e : (CharSet.test CharSet.space) = isWhiteSpace := by
      funext d; rfl
    rw [e, takeWhile_append_stop isWhiteSpace w c s2 hw hc]
    show matchTerms (⟨.lit c, .one⟩ :: ts) (List.drop w.length (w ++ c :: s2)) = some r
    rw [List.drop_left, matchTerms_lit]
    exact ⟨s2, rfl, hm⟩

theorem hexClass_test (d : Char) :
    (CharSet.ranges [('0', '9'), ('a', 'f'), ('A', 'F')]).test d = isHexDigit d := by
  simp only [CharSet.test, List.any_cons, List.any_nil, isHexDigit, Bool.or_false,
    show '0'.toNat = 48 from rfl, show '9'.toNat = 57 from rfl, show 'a'.toNat = 97 from rfl,
    show 'f'.toNat = 102 from rfl, show 'A'.toNat = 65 from rfl, show 'F'.toNat = 70 from rfl,
    Bool.or_assoc]

theorem matchTerms_hex6 (ts : List Term) (s r : List Char) :
    matchTerms (⟨.ranges [('0', '9'), ('a', 'f'), ('A', 'F')], .exactly 6⟩ :: ts) s = some r ↔
      ∃ h s2, IsHex6 h ∧ s = h ++ s2 ∧ matchTerms ts s2 = some r := by
  have e : (CharSet.ranges [('0', '9'), ('a', 'f'), ('A', 'F')]).test = isHexDigit := by
    funext d; exact hexClass_test d
  simp only [matchTerms, e]
  constructor
  · intro h
    split at h
    · rename_i hcond
      refine ⟨s.take 6, s.drop 6, ⟨?_, ?_⟩, (List.take_append_drop 6 s).symm, h⟩
      · simp [List.length_take]; exact hcond.1
      · intro c hc
        have := hcond.2
        rw [List.all_eq_true] at this
        exact this c hc
    · cases h
  · rintro ⟨h, s2, ⟨hlen, hall⟩, rfl, hm⟩
    have h1 : 6 ≤ (h ++ s2).length := by simp [hlen]
    have h2 : (h ++ s2).take 6 = h := List.take_left' hlen
    have h3 : (h ++ s2).drop 6 = s2 := List.drop_left' hlen
    rw [if_pos ⟨h1, by rw [h2, List.all_eq_true]; exact hall⟩, h3]
    exact hm

/-- The compiled pattern matches at the head of `s`, leaving `r`, exactly when
`s` is a fill rule for the class followed by `r`. -/
theorem matchTerms_ruleTerms (C s r : List Char) :
    matchTerms (ruleTerms C) s = some r ↔ ∃ x, IsRule C x ∧ s = x ++ r := by
  unfold ruleTerms
  rw [List.cons_append, matchTerms_lit]
  simp only [matchTerms_lits, matchTerms_space_star_lit _ (by decide : isWhiteSpace '\x7b' = false),
    matchTerms_space_star_lit _ (by decide : isWhiteSpace 'f' = false),
    matchTerms_space_star_lit _ (by decide : isWhiteSpace '#' = false),
    matchTerms_lit, matchTerms_hex6, matchTerms_nil]
  constructor
  · rintro ⟨s1, rfl, s2, rfl, w1, s3, hw1, rfl, w2, s4, hw2, rfl, s5, rfl, s6, rfl, s7, rfl, s8, rfl,
      w3, s9, hw3, rfl, h, s10, hh, rfl, s11, rfl, hr⟩
    refine ⟨ruleText C w1 w2 w3 h, ⟨w1, w2, w3, h, hw1, hw2, hw3, hh, rfl⟩, ?_⟩
    subst hr
    simp [ruleText]
  · rintro ⟨x, ⟨w1, w2, w3, h, hw1, hw2, hw3, hh, rfl⟩, rfl⟩
    refine ⟨C ++ w1 ++ '\x7b' :: w2 ++ "fill:".toList ++ w3 ++ '#' :: h ++ [';'] ++ r, by simp [ruleText],
      w1 ++ '\x7b' :: w2 ++ "fill:".toList ++ w3 ++ '#' :: h ++ [';'] ++ r, by simp,
      w1, w2 ++ "fill:".toList ++ w3 ++ '#' :: h ++ [';'] ++ r, hw1, by simp,
      w2, "ill:".toList ++ w3 ++ '#' :: h ++ [';'] ++ r, hw2, by simp,
      "ll:".toList ++ w3 ++ '#' :: h ++ [';'] ++ r, by simp,
      "l:".toList ++ w3 ++ '#' :: h ++ [';'] ++ r, by simp,
      ":".toList ++ w3 ++ '#' :: h ++ [';'] ++ r, by simp,
      w3 ++ '#' :: h ++ [';'] ++ r, by simp,
      w3, h ++ [';'] ++ r, hw3, by simp,
      h, [';'] ++ r, hh, by simp, r, by simp, by simp⟩

/-! ### The replace loop on the rule pattern -/

theorem IsRule.ne_nil {C x : List Char} (h : IsRule C x) : x ≠ [] := by
  obtain ⟨w1, w2, w3, h6, -, -, -, -, rfl⟩ := h
  simp [ruleText]

theorem IsRule.length_pos {C x : List Char} (h : IsRule C x) : 0 < x.length :=
  List.length_pos.mpr h.ne_nil

theorem regExpExec_rule {C x : List Char} (r : List Char) (h : IsRule C x) :
    regExpExec (ruleTerms C) (x ++ r) = some (x, r) := by
  have hm : matchTerms (ruleTerms C) (x ++ r) = some r :=
    (matchTerms_ruleTerms C (x ++ r) r).mpr ⟨x, h, rfl⟩
  simp [regExpExec, hm]

theorem regExpExec_none {C s : List Char} (h : ¬ MatchAt C s) :
    regExpExec (ruleTerms C) s = none := by
  cases hm : matchTerms (ruleTerms C) s with
  | none => simp [regExpExec, hm]
  | some r =>
    obtain ⟨x, hx, hs⟩ := (matchTerms_ruleTerms C s r).mp hm
    exact absurd ⟨x, r, hx, hs⟩ h

theorem not_matchAt_nil (C : List Char) : ¬ MatchAt C [] := by
  rintro ⟨x, r, hx, hs⟩
  have := hx.ne_nil
  cases x with
  | nil => exact this rfl
  | cons a x => simp at hs

theorem replaceLoop_nil (C T b : List Char) (f : Nat) :
    replaceLoop (ruleTerms C) T (f + 1) b [] = [] := by
  simp [replaceLoop, regExpExec_none (not_matchAt_nil C)]

theorem replaceLoop_skip (C T b : List Char) (f : Nat) (c : Char) (s : List Char)
    (h : ¬ MatchAt C (c :: s)) :
    replaceLoop (ruleTerms C) T (f + 1) b (c :: s) =
      c :: replaceLoop (ruleTerms C) T f (b ++ [c]) s := by
  simp [replaceLoop, regExpExec_none h]

theorem replaceLoop_hit (C T b : List Char) (f : Nat) (x r : List Char) (h : IsRule C x) :
    replaceLoop (ruleTerms C) T (f + 1) b (x ++ r) =
      getSubstitution x b r T ++ replaceLoop (ruleTerms C) T f (b ++ x) r := by
  have hx : x.isEmpty = false := by
    cases x with
    | nil => exact absurd rfl h.ne_nil
    | cons a x => rfl
  simp [replaceLoop, regExpExec_rule r h, hx]

theorem replaceLoop_fuel (C T : List Char) (f g : Nat) (b s : List Char)
    (hf : s.length < f) (hg : s.length < g) :
    replaceLoop (ruleTerms C) T f b s = replaceLoop (ruleTerms C) T g b s := by
  induction f generalizing g b s with
  | zero => omega
  | succ f ih =>
    cases g with
    | zero => omega
    | succ g =>
      by_cases hm : MatchAt C s
      · obtain ⟨x, r, hx, rfl⟩ := hm
        have hl := hx.length_pos
        rw [replaceLoop_hit _ _ _ _ _ _ hx, replaceLoop_hit _ _ _ _ _ _ hx]
        rw [ih g (b ++ x) r (by simp at hf; omega) (by simp at hg; omega)]
      · cases s with
        | nil => rw [replaceLoop_nil, replaceLoop_nil]
        | cons c s =>
          rw [replaceLoop_skip _ _ _ _ _ _ hm, replaceLoop_skip _ _ _ _ _ _ hm]
          rw [ih g (b ++ [c]) s (by simp at hf; omega) (by simp at hg; omega)]

theorem replaceFrom_nil (C T b : List Char) : replaceFrom (ruleTerms C) T b [] = [] :=
  replaceLoop_nil C T b 0

theorem replaceFrom_skip (C T b : List Char) (c : Char) (s : List Char)
    (h : ¬ MatchAt C (c :: s)) :
    replaceFrom (ruleTerms C) T b (c :: s) = c :: replaceFrom (ruleTerms C) T (b ++ [c]) s := by
  unfold replaceFrom
  rw [replaceLoop_skip _ _ _ _ _ _ h]
  rfl

theorem replaceFrom_hit (C T b x r : List Char) (h : IsRule C x) :
    replaceFrom (ruleTerms C) T b (x ++ r) =
      getSubstitution x b r T ++ replaceFrom (ruleTerms C) T (b ++ x) r := by
  unfold replaceFrom
  rw [replaceLoop_hit _ _ _ _ _ _ h]
  rw [replaceLoop_fuel C T (x ++ r).length (r.length + 1) (b ++ x) r
    (by have := h.length_pos; simp; omega) (by omega)]

theorem getSubstitution_plain (m b a : List Char) :
    ∀ T : List Char, '$' ∉ T → getSubstitution m b a T = T
  | [], _ => rfl
  | [_], _ => rfl
  | c :: d :: t, h => by
    have hc : c ≠ '$' := fun e => h (by simp [e])
    have ht : '$' ∉ d :: t := fun e => h (List.mem_cons_of_mem _ e)
    simp only [getSubstitution, hc, if_false]
    rw [getSubstitution_plain m b a (d :: t) ht]

theorem replaceLoop_before (re : List Term) (T : List Char) (hT : '$' ∉ T) (f : Nat) :
    ∀ b b2 s : List Char, replaceLoop re T f b s = replaceLoop re T f b2 s := by
  induction f with
  | zero => intro b b2 s; rfl
  | succ f ih =>
    intro b b2 s
    unfold replaceLoop
    cases regExpExec re s with
    | none =>
      cases s with
      | nil => rfl
      | cons c s => simp only; rw [ih (b ++ [c]) (b2 ++ [c]) s]
    | some p =>
      obtain ⟨m, r⟩ := p
      simp only [getSubstitution_plain _ _ _ T hT]
      cases m.isEmpty with
      | true =>
        cases s with
        | nil => rfl
        | cons c s => simp only [if_true]; rw [ih (b ++ [c]) (b2 ++ [c]) s]
      | false => simp only [Bool.false_eq_true, if_false]; rw [ih (b ++ m) (b2 ++ m) r]

theorem replaceFrom_before (re : List Term) (T : List Char) (hT : '$' ∉ T) (b s : List Char) :
    replaceFrom re T b s = replaceAll re T s :=
  replaceLoop_before re T hT _ b [] s

theorem replaceAll_nil (C T : List Char) : replaceAll (ruleTerms C) T [] = [] :=
  replaceFrom_nil C T []

theorem replaceAll_skip (C T : List Char) (hT : '$' ∉ T) (c : Char) (s : List Char)
    (h : ¬ MatchAt C (c :: s)) :
    replaceAll (ruleTerms C) T (c :: s) = c :: replaceAll (ruleTerms C) T s := by
  unfold replaceAll
  rw [replaceFrom_skip _ _ _ _ _ h, replaceFrom_before _ _ hT]
  rfl

theorem replaceAll_hit (C T : List Char) (hT : '$' ∉ T) (x r : List Char) (h : IsRule C x) :
    replaceAll (ruleTerms C) T (x ++ r) = T ++ replaceAll (ruleTerms C) T r := by
  unfold replaceAll
  rw [replaceFrom_hit _ _ _ _ _ h, replaceFrom_before _ _ hT, getSubstitution_plain _ _ _ T hT]
  rfl

/-! ### The shape of rules -/

theorem not_mem_of_forall {p : Char → Bool} {l : List Char} (x : Char) (hx : p x = false)
    (h : ∀ c ∈ l, p c = true) : x ∉ l := by
  intro hm
  have := h x hm
  simp [hx] at this

theorem isNameChar_of_isWhiteSpace {c : Char} (h : isWhiteSpace c = true) :
    isNameChar c = false := by
  cases hn : isNameChar c with
  | false => rfl
  | true => simp [isWhiteSpace_of_isNameChar hn] at h

theorem IsRule.headedBy {C x : List Char} (hC : IsClassName C) (h : IsRule C x) :
    HeadedBy C x := by
  obtain ⟨w1, w2, w3, h6, hw1, hw2, hw3, hh, rfl⟩ := h
  have dC : '.' ∉ C := not_mem_of_forall '.' (by decide) hC
  have d1 : '.' ∉ w1 := not_mem_of_forall '.' (by decide) hw1
  have d2 : '.' ∉ w2 := not_mem_of_forall '.' (by decide) hw2
  have d3 : '.' ∉ w3 := not_mem_of_forall '.' (by decide) hw3
  have d6 : '.' ∉ h6 := not_mem_of_forall '.' (by decide) hh.2
  cases w1 with
  | nil =>
    refine ⟨'\x7b', w2 ++ "fill:".toList ++ w3 ++ '#' :: h6 ++ [';'], by simp [ruleText],
      by decide, ?_⟩
    simp [dC, d2, d3, d6]
  | cons a w =>
    refine ⟨a, w ++ '\x7b' :: w2 ++ "fill:".toList ++ w3 ++ '#' :: h6 ++ [';'],
      by simp [ruleText], isNameChar_of_isWhiteSpace (hw1 a (List.mem_cons_self _ _)), ?_⟩
    simp only [List.mem_cons, not_or] at d1
    simp [dC, d1.1, d1.2, d2, d3, d6]

theorem HeadedBy.dotBlock {C B : List Char} (h : HeadedBy C B) : DotBlock B := by
  obtain ⟨e, t, rfl, -, hd⟩ := h
  exact ⟨C ++ e :: t, by simp, hd⟩

theorem ruleTemplate_headedBy (C : List Char) (v : JSValue) (hC : IsClassName C)
    (hv : '.' ∉ v.toJSString) : HeadedBy C (ruleTemplate C v) := by
  have dC : '.' ∉ C := not_mem_of_forall '.' (by decide) hC
  refine ⟨' ', "\x7b fill: ".toList ++ v.toJSString ++ ";".toList, by simp [ruleTemplate],
    by decide, ?_⟩
  simp [dC, hv]

theorem name_prefix_unique (C D : List Char) (e e2 : Char) (u u2 : List Char)
    (hC : IsClassName C) (hD : IsClassName D) (he : isNameChar e = false)
    (he2 : isNameChar e2 = false) (h : C ++ e :: u = D ++ e2 :: u2) : C = D := by
  induction C generalizing D with
  | nil =>
    cases D with
    | nil => rfl
    | cons d D =>
      simp at h
      have := hD d (List.mem_cons_self _ _)
      rw [← h.1, he] at this
      cases this
  | cons c C ih =>
    cases D with
    | nil =>
      simp at h
      have := hC c (List.mem_cons_self _ _)
      rw [h.1, he2] at this
      cases this
    | cons d D =>
      simp at h
      rw [h.1, ih D (fun x hx => hC x (List.mem_cons_of_mem _ hx))
        (fun x hx => hD x (List.mem_cons_of_mem _ hx)) h.2]

/-- Only the class that heads a block can match at its head. -/
theorem HeadedBy.matchAt_eq {C D B y : List Char} (hC : IsClassName C) (hD : IsClassName D)
    (hB : HeadedBy C B) (hm : MatchAt D (B ++ y)) : D = C := by
  obtain ⟨x, r, hx, hs⟩ := hm
  obtain ⟨e2, t2, rfl, he2, -⟩ := hx.headedBy hD
  obtain ⟨e, t, rfl, he, -⟩ := hB
  have h : C ++ e :: (t ++ y) = D ++ e2 :: (t2 ++ r) := by simpa using hs
  exact (name_prefix_unique C D e e2 _ _ hC hD he he2 h).symm

theorem MatchAt.head_dot {C : List Char} {c : Char} {s : List Char} (h : MatchAt C (c :: s)) :
    c = '.' := by
  obtain ⟨x, r, ⟨w1, w2, w3, h6, -, -, -, -, rfl⟩, hs⟩ := h
  simp [ruleText] at hs
  exact hs.1

theorem MatchAt.append {C s : List Char} (z : List Char) (h : MatchAt C s) :
    MatchAt C (s ++ z) := by
  obtain ⟨x, r, hx, rfl⟩ := h
  exact ⟨x, r ++ z, hx, by simp⟩

/-- A match that starts in front of a dot ends in front of it. -/
theorem match_inside_prefix {D x r a t : List Char} (hD : IsClassName D) (hx : IsRule D x)
    (ha : a ≠ []) (h : a ++ '.' :: t = x ++ r) : ∃ a2, a = x ++ a2 := by
  obtain ⟨x2, hxe, hxd⟩ := (hx.headedBy hD).dotBlock
  rcases List.append_eq_append_iff.mp h with ⟨a3, hxa, hr⟩ | ⟨c3, hac, -⟩
  · cases a3 with
    | nil => exact ⟨[], by simpa using hxa.symm⟩
    | cons e a3 =>
      exfalso
      simp at hr
      cases a with
      | nil => exact ha rfl
      | cons c a =>
        rw [hxa] at hxe
        simp at hxe
        apply hxd
        rw [← hxe.2, ← hr.1]
        simp
  · exact ⟨c3, hac⟩

/-! ### Frames: what a pass leaves alone -/

theorem replaceFrom_copy (C T : List Char) (t : List Char) (ht : '.' ∉ t) :
    ∀ b y : List Char,
      replaceFrom (ruleTerms C) T b (t ++ y) = t ++ replaceFrom (ruleTerms C) T (b ++ t) y := by
  induction t with
  | nil => intro b y; simp
  | cons c t ih =>
    intro b y
    have hc : c ≠ '.' := fun e => ht (by simp [e])
    have hno : ¬ MatchAt C (c :: (t ++ y)) := fun hm => hc hm.head_dot
    rw [List.cons_append, replaceFrom_skip _ _ _ _ _ hno,
      ih (fun e => ht (List.mem_cons_of_mem _ e)) (b ++ [c]) y]
    simp

/-- A pass for class `D` reproduces a dot block at whose head `D` does not
match. -/
theorem replaceFrom_block (D T B y : List Char) (hB : DotBlock B)
    (hno : ¬ MatchAt D (B ++ y)) (b : List Char) :
    replaceFrom (ruleTerms D) T b (B ++ y) = B ++ replaceFrom (ruleTerms D) T (b ++ B) y := by
  obtain ⟨t, rfl, ht⟩ := hB
  rw [List.cons_append] at hno ⊢
  rw [replaceFrom_skip _ _ _ _ _ hno, replaceFrom_copy _ _ t ht]
  simp

/-- The text in front of a block and the text behind it are rewritten
independently of each other, whatever the pass does with the block itself. -/
theorem replaceAll_frame (D T B y out : List Char) (hD : IsClassName D) (hT : '$' ∉ T)
    (hB : DotBlock B)
    (h0 : replaceAll (ruleTerms D) T (B ++ y) = out ++ replaceAll (ruleTerms D) T y) :
    ∀ (n : Nat) (a : List Char), a.length ≤ n →
      replaceAll (ruleTerms D) T (a ++ B ++ y) =
        replaceAll (ruleTerms D) T a ++ out ++ replaceAll (ruleTerms D) T y := by
  obtain ⟨t, rfl, -⟩ := hB
  intro n
  induction n with
  | zero =>
    intro a ha
    have : a = [] := List.length_eq_zero.mp (by omega)
    subst this
    simpa [replaceAll_nil] using h0
  | succ n ih =>
    intro a ha
    cases a with
    | nil => simpa [replaceAll_nil] using h0
    | cons c a =>
      by_cases hm : MatchAt D ((c :: a) ++ '.' :: t ++ y)
      · obtain ⟨x, r, hx, hs⟩ := hm
        have hs2 : (c :: a) ++ '.' :: (t ++ y) = x ++ r := by simpa using hs
        obtain ⟨a2, ha2⟩ := match_inside_prefix hD hx (by simp) hs2
        have hr : r = a2 ++ '.' :: t ++ y := by
          rw [ha2] at hs2
          simp only [List.append_assoc] at hs2
          have := List.append_cancel_left hs2
          simp [← this]
        have hlen : a2.length ≤ n := by
          have h1 := congrArg List.length ha2
          have h2 := hx.length_pos
          simp at h1 ha
          omega
        rw [hs, replaceAll_hit _ _ hT _ _ hx, hr, ih a2 hlen, ha2,
          replaceAll_hit _ _ hT _ _ hx]
        simp
      · have hm2 : ¬ MatchAt D (c :: a) := fun h => hm (by simpa using h.append ('.' :: t ++ y))
        have hm3 : ¬ MatchAt D (c :: (a ++ '.' :: t ++ y)) := by simpa using hm
        have e : (c :: a) ++ '.' :: t ++ y = c :: (a ++ '.' :: t ++ y) := by simp
        rw [e, replaceAll_skip _ _ hT _ _ hm3, replaceAll_skip _ _ hT _ _ hm2,
          ih a (by simp at ha; omega)]
        simp

theorem replaceAll_block (D T B y : List Char) (hT : '$' ∉ T) (hB : DotBlock B)
    (hno : ¬ MatchAt D (B ++ y)) :
    replaceAll (ruleTerms D) T (B ++ y) = B ++ replaceAll (ruleTerms D) T y := by
  unfold replaceAll
  rw [replaceFrom_block D T B y hB hno, replaceFrom_before _ _ hT]
  rfl

/-- A pass for class `D` leaves a block alone at whose head it does not match. -/
theorem replaceAll_frame_keep (D T B a y : List Char) (hD : IsClassName D) (hT : '$' ∉ T)
    (hB : DotBlock B) (hno : ¬ MatchAt D (B ++ y)) :
    replaceAll (ruleTerms D) T (a ++ B ++ y) =
      replaceAll (ruleTerms D) T a ++ B ++ replaceAll (ruleTerms D) T y :=
  replaceAll_frame D T B y B hD hT hB (replaceAll_block D T B y hT hB hno) a.length a (le_refl _)

/-- A pass for class `D` turns a rule for `D` into the template. -/
theorem replaceAll_frame_hit (D T x a y : List Char) (hD : IsClassName D) (hT : '$' ∉ T)
    (hx : IsRule D x) :
    replaceAll (ruleTerms D) T (a ++ x ++ y) =
      replaceAll (ruleTerms D) T a ++ T ++ replaceAll (ruleTerms D) T y :=
  replaceAll_frame D T x y T hD hT (hx.headedBy hD).dotBlock (replaceAll_hit D T hT x y hx)
    a.length a (le_refl _)

/-- Whatever the template, a pass for class `D` keeps a block at whose head it
does not match. -/
theorem replaceFrom_preserves (D T B y : List Char) (hD : IsClassName D) (hB : DotBlock B)
    (hno : ¬ MatchAt D (B ++ y)) :
    ∀ (n : Nat) (a b : List Char), a.length ≤ n →
      ∃ a2 y2, replaceFrom (ruleTerms D) T b (a ++ B ++ y) = a2 ++ B ++ y2 := by
  intro n
  induction n with
  | zero =>
    intro a b ha
    have : a = [] := List.length_eq_zero.mp (by omega)
    subst this
    exact ⟨[], _, by simpa using replaceFrom_block D T B y hB hno b⟩
  | succ n ih =>
    intro a b ha
    cases a with
    | nil => exact ⟨[], _, by simpa using replaceFrom_block D T B y hB hno b⟩
    | cons c a =>
      obtain ⟨t, hBt, -⟩ := hB
      by_cases hm : MatchAt D ((c :: a) ++ B ++ y)
      · obtain ⟨x, r, hx, hs⟩ := hm
        have hs2 : (c :: a) ++ '.' :: (t ++ y) = x ++ r := by simpa [hBt] using hs
        obtain ⟨a2, ha2⟩ := match_inside_prefix hD hx (by simp) hs2
        have hr : r = a2 ++ B ++ y := by
          rw [ha2] at hs2
          simp only [List.append_assoc] at hs2
          have := List.append_cancel_left hs2
          simp [← this, hBt]
        have hlen : a2.length ≤ n := by
          have h1 := congrArg List.length ha2
          have h2 := hx.length_pos
          simp at h1 ha
          omega
        obtain ⟨a3, y3, h3⟩ := ih a2 (b ++ x) hlen
        refine ⟨getSubstitution x b r T ++ a3, y3, ?_⟩
        rw [hs, replaceFrom_hit _ _ _ _ _ hx, hr, h3]
        simp
      · have hm3 : ¬ MatchAt D (c :: (a ++ B ++ y)) := by simpa using hm
        obtain ⟨a3, y3, h3⟩ := ih a (b ++ [c]) (by simp at ha; omega)
        refine ⟨c :: a3, y3, ?_⟩
        have e : (c :: a) ++ B ++ y = c :: (a ++ B ++ y) := by simp
        rw [e, replaceFrom_skip _ _ _ _ _ hm3, h3]
        simp

/-- A pass whose class matches nowhere in the text returns the text. -/
theorem replaceFrom_id (C T : List Char) :
    ∀ (s b : List Char), (∀ p t, s = p ++ t → ¬ MatchAt C t) →
      replaceFrom (ruleTerms C) T b s = s := by
  intro s
  induction s with
  | nil => intro b _; exact replaceFrom_nil C T b
  | cons c s ih =>
    intro b h
    rw [replaceFrom_skip _ _ _ _ _ (h [] (c :: s) rfl),
      ih (b ++ [c]) (fun p t hs => h (c :: p) t (by simp [hs]))]

/-! ### All rounds of `replaceColors` -/

theorem replaceColors_eq_passes (m : ColorMap) :
    ∀ s : List Char, (∀ e ∈ m, e.2.truthy = true → IsPlain e.1) →
      replaceColors s m = .ok (recolorPasses m s) := by
  induction m with
  | nil => intro s _; rfl
  | cons e m ih =>
    intro s h
    have hstep : replaceColorsStep s e = .ok (recolorPass e s) := by
      unfold replaceColorsStep recolorPass
      by_cases ht : e.2.truthy = true
      · simp [ht, newRegExp_ruleSource e.1 (h e (List.mem_cons_self _ _) ht)]
      · simp [ht]
    rw [replaceColors, hstep]
    exact ih _ (fun e2 he2 => h e2 (List.mem_cons_of_mem _ he2))

theorem WellFormed.tail {e : List Char × JSValue} {m : ColorMap} (h : WellFormed (e :: m)) :
    WellFormed m :=
  ⟨fun x hx => h.1 x (List.mem_cons_of_mem _ hx), (List.nodup_cons.mp h.2.1).2,
    fun x hx => h.2.2 x (List.mem_cons_of_mem _ hx)⟩

theorem WellFormed.plain {m : ColorMap} (h : WellFormed m) :
    ∀ e ∈ m, e.2.truthy = true → IsPlain e.1 :=
  fun e he _ => (h.1 e he).isPlain

theorem ruleTemplate_no_dollar (C : List Char) (v : JSValue) (hC : IsClassName C)
    (hv : '$' ∉ v.toJSString) : '$' ∉ ruleTemplate C v := by
  have dC : '$' ∉ C := not_mem_of_forall '$' (by decide) hC
  simp [ruleTemplate, dC, hv]

theorem recolorPass_nil (e : List Char × JSValue) : recolorPass e [] = [] := by
  unfold recolorPass
  split
  · exact replaceAll_nil _ _
  · rfl

theorem recolorPasses_nil (m : ColorMap) : recolorPasses m [] = [] := by
  induction m with
  | nil => rfl
  | cons e m ih => rw [recolorPasses, recolorPass_nil, ih]

/-- A block headed by a class that the map does not hold is left alone by all
rounds, and the texts around it are rewritten independently. -/
theorem recolorPasses_frame_keep (C B : List Char) (hC : IsClassName C) (hB : HeadedBy C B) :
    ∀ (m : ColorMap), WellFormed m → (∀ e ∈ m, e.2.truthy = true → e.1 ≠ C) →
      ∀ a y : List Char,
        recolorPasses m (a ++ B ++ y) = recolorPasses m a ++ B ++ recolorPasses m y := by
  intro m
  induction m with
  | nil => intro _ _ a y; rfl
  | cons e m ih =>
    intro hwf hne a y
    have hpass : recolorPass e (a ++ B ++ y) = recolorPass e a ++ B ++ recolorPass e y := by
      unfold recolorPass
      by_cases ht : e.2.truthy = true
      · simp only [ht, if_true]
        have hD := hwf.1 e (List.mem_cons_self _ _)
        have hT := ruleTemplate_no_dollar e.1 e.2 hD (hwf.2.2 e (List.mem_cons_self _ _)).1
        exact replaceAll_frame_keep e.1 _ B a y hD hT hB.dotBlock
          (fun hm => hne e (List.mem_cons_self _ _) ht (hB.matchAt_eq hC hD hm))
      · simp [ht]
    rw [recolorPasses, hpass, ih hwf.tail (fun x hx => hne x (List.mem_cons_of_mem _ hx))]
    rfl

/-- A rule for a class that the map colours is turned into the template of that
class, and the texts around it are rewritten independently. -/
theorem recolorPasses_frame_hit (C : List Char) (v : JSValue) (x : List Char)
    (hx : IsRule C x) (hv : v.truthy = true) :
    ∀ (m : ColorMap), WellFormed m → (C, v) ∈ m →
      ∀ a y : List Char,
        recolorPasses m (a ++ x ++ y) =
          recolorPasses m a ++ ruleTemplate C v ++ recolorPasses m y := by
  intro m
  induction m with
  | nil => intro _ hmem; cases hmem
  | cons e m ih =>
    intro hwf hmem a y
    have hnd := List.nodup_cons.mp hwf.2.1
    by_cases he : e = (C, v)
    · subst he
      have hC : IsClassName C := hwf.1 _ (List.mem_cons_self _ _)
      have hcol := hwf.2.2 _ (List.mem_cons_self _ _)
      have hT := ruleTemplate_no_dollar C v hC hcol.1
      have hpass : recolorPass (C, v) (a ++ x ++ y) =
          recolorPass (C, v) a ++ ruleTemplate C v ++ recolorPass (C, v) y := by
        unfold recolorPass
        simp only [hv, if_true]
        exact replaceAll_frame_hit C _ x a y hC hT hx
      rw [recolorPasses, hpass]
      have hne : ∀ e2 ∈ m, e2.2.truthy = true → e2.1 ≠ C := by
        intro e2 he2 _ heq
        exact hnd.1 (List.mem_map.mpr ⟨e2, he2, heq⟩)
      rw [recolorPasses_frame_keep C _ hC (ruleTemplate_headedBy C v hC hcol.2) m hwf.tail hne]
      rfl
    · have hmem2 : (C, v) ∈ m := by
        rcases List.mem_cons.mp hmem with h | h
        · exact absurd h.symm he
        · exact h
      have hC : IsClassName C := hwf.1 _ hmem
      have hne : e.1 ≠ C := by
        intro heq
        exact hnd.1 (List.mem_map.mpr ⟨(C, v), hmem2, heq.symm⟩)
      have hpass : recolorPass e (a ++ x ++ y) = recolorPass e a ++ x ++ recolorPass e y := by
        unfold recolorPass
        by_cases ht : e.2.truthy = true
        · simp only [ht, if_true]
          have hD := hwf.1 e (List.mem_cons_self _ _)
          have hT := ruleTemplate_no_dollar e.1 e.2 hD (hwf.2.2 e (List.mem_cons_self _ _)).1
          exact replaceAll_frame_keep e.1 _ x a y hD hT (hx.headedBy hC).dotBlock
            (fun hm => hne ((hx.headedBy hC).matchAt_eq hC hD hm))
        · simp [ht]
      rw [recolorPasses, hpass, ih hwf.tail hmem2]
      rfl

/-! ### Reading a rule -/

theorem dropPrefix?_eq_some (p s r : List Char) : dropPrefix? p s = some r ↔ s = p ++ r := by
  induction p generalizing s with
  | nil => simp [dropPrefix?, eq_comm]
  | cons a p ih =>
    cases s with
    | nil => simp [dropPrefix?]
    | cons c s =>
      by_cases hc : c = a
      · simp [dropPrefix?, hc, ih]
      · simp [dropPrefix?, hc]

theorem dropWhile_append_stop (p : Char → Bool) (w : List Char) (c : Char) (s : List Char)
    (hw : ∀ d ∈ w, p d = true) (hc : p c = false) :
    (w ++ c :: s).dropWhile p = c :: s := by
  induction w with
  | nil => simp [List.dropWhile_cons, hc]
  | cons a w ih =>
    have ha : p a = true := hw a (List.mem_cons_self _ _)
    simp [List.dropWhile_cons, ha, ih (fun d hd => hw d (List.mem_cons_of_mem _ hd))]

theorem dropPrefix?_dropWhile (c : Char) (hc : isWhiteSpace c = false) (q s r : List Char) :
    dropPrefix? (c :: q) (s.dropWhile isWhiteSpace) = some r ↔
      ∃ w, IsSpace w ∧ s = w ++ c :: q ++ r := by
  rw [dropPrefix?_eq_some]
  constructor
  · intro h
    refine ⟨s.takeWhile isWhiteSpace, fun d hd => (List.mem_takeWhile_imp hd), ?_⟩
    have := List.takeWhile_append_dropWhile isWhiteSpace s
    rw [h] at this
    simpa using this.symm
  · rintro ⟨w, hw, rfl⟩
    rw [List.append_assoc, List.cons_append, dropWhile_append_stop isWhiteSpace w c _ hw hc]

theorem readRule_eq_some (C s r : List Char) :
    readRule C s = some r ↔ ∃ x, IsRule C x ∧ s = x ++ r := by
  unfold readRule
  simp only [Option.bind_eq_some, dropPrefix?_eq_some,
    dropPrefix?_dropWhile '\x7b' (by decide), dropPrefix?_dropWhile '#' (by decide),
    show "fill:".toList = 'f' :: "ill:".toList from rfl,
    dropPrefix?_dropWhile 'f' (by decide)]
  constructor
  · rintro ⟨s1, rfl, s2, ⟨w1, hw1, rfl⟩, s3, ⟨w2, hw2, rfl⟩, s4, ⟨w3, hw3, rfl⟩, h⟩
    split at h
    · rename_i hcond
      rw [dropPrefix?_eq_some] at h
      have hhex : IsHex6 (s4.take 6) := by
        refine ⟨?_, ?_⟩
        · simp [List.length_take]; exact hcond.1
        · intro c hc
          have := hcond.2
          rw [List.all_eq_true] at this
          exact this c hc
      have e5 : s4 = s4.take 6 ++ ([';'] ++ r) := by rw [← h, List.take_append_drop]
      generalize s4.take 6 = h6 at hhex e5
      subst e5
      exact ⟨ruleText C w1 w2 w3 h6, ⟨w1, w2, w3, h6, hw1, hw2, hw3, hhex, rfl⟩,
        by simp [ruleText]⟩
    · cases h
  · rintro ⟨x, ⟨w1, w2, w3, h6, hw1, hw2, hw3, hh, rfl⟩, rfl⟩
    refine ⟨w1 ++ '\x7b' :: w2 ++ "fill:".toList ++ w3 ++ '#' :: h6 ++ [';'] ++ r,
      by simp [ruleText], w2 ++ "fill:".toList ++ w3 ++ '#' :: h6 ++ [';'] ++ r,
      ⟨w1, hw1, by simp⟩, w3 ++ '#' :: h6 ++ [';'] ++ r, ⟨w2, hw2, by simp⟩,
      h6 ++ [';'] ++ r, ⟨w3, hw3, by simp⟩, ?_⟩
    have h1 : 6 ≤ (h6 ++ [';'] ++ r).length := by simp [hh.1]
    have h2 : (h6 ++ [';'] ++ r).take 6 = h6 := by
      rw [List.append_assoc]; exact List.take_left' hh.1
    have h3 : (h6 ++ [';'] ++ r).drop 6 = [';'] ++ r := by
      rw [List.append_assoc]; exact List.drop_left' hh.1
    rw [if_pos ⟨h1, by rw [h2, List.all_eq_true]; exact hh.2⟩, h3, dropPrefix?_eq_some]

theorem matchAt_iff_readRule (C s : List Char) : MatchAt C s ↔ (readRule C s).isSome = true := by
  constructor
  · rintro ⟨x, r, hx, hs⟩
    rw [(readRule_eq_some C s r).mpr ⟨x, hx, hs⟩]
    rfl
  · intro h
    obtain ⟨r, hr⟩ := Option.isSome_iff_exists.mp h
    obtain ⟨x, hx, hs⟩ := (readRule_eq_some C s r).mp hr
    exact ⟨x, r, hx, hs⟩

theorem mem_tails_of_eq_append (p t s : List Char) (h : s = p ++ t) : t ∈ s.tails := by
  rw [List.mem_tails, h]
  exact List.suffix_append p t

/-- A test that can be evaluated: no rule for `C` is read at any position. -/
theorem not_containsRule_of_tails (C s : List Char)
    (h : ∀ t ∈ s.tails, readRule C t = none) : ¬ ContainsRule C s := by
  rintro ⟨p, x, t, hx, hs⟩
  have hmem : x ++ t ∈ s.tails := mem_tails_of_eq_append p (x ++ t) s (by simp [hs])
  have := h _ hmem
  rw [(readRule_eq_some C (x ++ t) t).mpr ⟨x, hx, rfl⟩] at this
  cases this

theorem canonicalRule_isRule (C h : List Char) (hh : IsHex6 h) : IsRule C (canonicalRule C h) :=
  ⟨[' '], [' '], [' '], h, by intro c hc; simp at hc; subst hc; decide,
    by intro c hc; simp at hc; subst hc; decide, by intro c hc; simp at hc; subst hc; decide, hh,
    by simp [canonicalRule, ruleText]⟩

/-! ### Claims about `replaceColors` -/

theorem not_matchAt_of_not_containsRule {C master : List Char} (h : ¬ ContainsRule C master) :
    ∀ p t, master = p ++ t → ¬ MatchAt C t := by
  rintro p t hs ⟨x, r, hx, rfl⟩
  exact h ⟨p, x, r, hx, by simp [hs]⟩

theorem replaceColorsStep_plain (s : List Char) (e : List Char × JSValue)
    (h : e.2.truthy = true → IsPlain e.1) :
    replaceColorsStep s e = .ok (recolorPass e s) := by
  unfold replaceColorsStep recolorPass
  by_cases ht : e.2.truthy = true
  · simp [ht, newRegExp_ruleSource e.1 (h ht)]
  · simp [ht]

theorem recolorPass_id (e : List Char × JSValue) (s : List Char)
    (h : e.2.truthy = true → ∀ p t, s = p ++ t → ¬ MatchAt e.1 t) : recolorPass e s = s := by
  unfold recolorPass
  by_cases ht : e.2.truthy = true
  · simp only [ht, if_true]
    exact replaceFrom_id e.1 _ s [] (h ht)
  · simp [ht]

theorem replaceColors_eq_self (master : List Char) (m : ColorMap)
    (hkeys : ∀ e ∈ m, e.2.truthy = true → IsPlain e.1)
    (hno : ∀ e ∈ m, e.2.truthy = true → ¬ ContainsRule e.1 master) :
    replaceColors master m = .ok master := by
  induction m with
  | nil => rfl
  | cons e m ih =>
    have h1 := replaceColorsStep_plain master e (hkeys e (List.mem_cons_self _ _))
    have h2 : recolorPass e master = master :=
      recolorPass_id e master fun ht =>
        not_matchAt_of_not_containsRule (hno e (List.mem_cons_self _ _) ht)
    rw [replaceColors, h1, h2]
    exact ih (fun x hx => hkeys x (List.mem_cons_of_mem _ hx))
      (fun x hx => hno x (List.mem_cons_of_mem _ hx))

/-- C3: identity law.  For a map whose coloured classes hold no regular-expression
syntax character and a master that contains no fill rule for any of them,
`replaceColors` returns the master unchanged. -/
theorem replaceColors_identity (master : List Char) (m : ColorMap)
    (hkeys : ∀ e ∈ m, e.2.truthy = true → IsPlain e.1)
    (hno : ∀ e ∈ m, e.2.truthy = true → ¬ ContainsRule e.1 master) :
    replaceColors master m = .ok master :=
  replaceColors_eq_self master m hkeys hno

/-- The instance of C3 at a master with a rule for another class. -/
theorem replaceColors_identity_witness :
    (∀ e ∈ [("text".toList, JSValue.str "#24245a".toList)], e.2.truthy = true → IsPlain e.1) ∧
    (∀ e ∈ [("text".toList, JSValue.str "#24245a".toList)], e.2.truthy = true →
      ¬ ContainsRule e.1 "<style>.ghost \x7b fill: #ffffff; \x7d</style>".toList) ∧
    replaceColors "<style>.ghost \x7b fill: #ffffff; \x7d</style>".toList
      [("text".toList, JSValue.str "#24245a".toList)] =
      .ok "<style>.ghost \x7b fill: #ffffff; \x7d</style>".toList :=
  have h1 : ∀ e ∈ [("text".toList, JSValue.str "#24245a".toList)],
      e.2.truthy = true → IsPlain e.1 := by decide
  have h2 : ∀ e ∈ [("text".toList, JSValue.str "#24245a".toList)], e.2.truthy = true →
      ¬ ContainsRule e.1 "<style>.ghost \x7b fill: #ffffff; \x7d</style>".toList := by
    intro e he _
    simp only [List.mem_singleton] at he
    subst he
    exact not_containsRule_of_tails _ _ (by decide)
  ⟨h1, h2, replaceColors_identity _ _ h1 h2⟩

/-- C7 fails as stated: with the class-name key `(` the pattern source is
`\.(\s*{...`, an unterminated group, and `new RegExp` throws a `SyntaxError`;
`replaceColors` returns no string. -/
theorem replaceColors_throws_on_open_paren :
    ¬ ∃ r, replaceColors "<svg/>".toList [("(".toList, JSValue.str "#000000".toList)] =
      Except.ok r := by
  rintro ⟨r, h⟩
  have e : replaceColors "<svg/>".toList [("(".toList, JSValue.str "#000000".toList)] =
      Except.error RegExpFault.syntaxError := rfl
  rw [e] at h
  cases h

/-- C7 (amended): `replaceColors` is total on every master and every colour map
whose coloured class names hold no regular-expression syntax character, whatever
the colour values: it returns a string. -/
theorem replaceColors_total_of_plain (master : List Char) (m : ColorMap)
    (hkeys : ∀ e ∈ m, e.2.truthy = true → IsPlain e.1) :
    ∃ r, replaceColors master m = Except.ok r :=
  ⟨recolorPasses m master, replaceColors_eq_passes m master hkeys⟩

/-- The instance of C7 (amended) at a map with a dollar pattern as colour and an
empty colour under a key that is not plain. -/
theorem replaceColors_total_of_plain_witness :
    (∀ e ∈ [("text".toList, JSValue.str "$&".toList), ("(".toList, JSValue.str [])],
      e.2.truthy = true → IsPlain e.1) ∧
    ∃ r, replaceColors ".text\x7bfill:#000000;".toList
      [("text".toList, JSValue.str "$&".toList), ("(".toList, JSValue.str [])] = Except.ok r :=
  ⟨by decide, replaceColors_total_of_plain _ _ (by decide)⟩

theorem matchAt_selectorClass {C s : List Char} (hC : IsClassName C) (h : MatchAt C s) :
    ∃ t, s = '.' :: t ∧ selectorClass t = C := by
  obtain ⟨x, r, hx, rfl⟩ := h
  obtain ⟨e, t, rfl, he, -⟩ := hx.headedBy hC
  refine ⟨C ++ e :: (t ++ r), by simp, ?_⟩
  exact takeWhile_append_stop isNameChar C e (t ++ r) hC he

theorem not_containsRule_of_selectors (master : List Char) (m : ColorMap)
    (hkeys : ∀ e ∈ m, e.2.truthy = true → IsClassName e.1)
    (hsel : ∀ p t, master = p ++ '.' :: t → ∀ e ∈ m, e.2.truthy = true → selectorClass t ≠ e.1) :
    ∀ e ∈ m, e.2.truthy = true → ¬ ContainsRule e.1 master := by
  rintro e he ht ⟨p, x, t, hx, hs⟩
  obtain ⟨t2, h2, hc⟩ := matchAt_selectorClass (hkeys e he ht) ⟨x, t, hx, rfl⟩
  exact hsel p t2 (by rw [hs, List.append_assoc, h2]) e he ht hc

/-- A test that can be evaluated: no selector of the master names a coloured
class of the map. -/
theorem selectors_of_tails (master : List Char) (m : ColorMap)
    (h : ∀ t ∈ master.tails, ∀ e ∈ m, e.2.truthy = true → t.head? = some '.' →
      selectorClass t.tail ≠ e.1) :
    ∀ p t, master = p ++ '.' :: t → ∀ e ∈ m, e.2.truthy = true → selectorClass t ≠ e.1 := by
  intro p t hs e he ht
  exact h ('.' :: t) (mem_tails_of_eq_append p _ master hs) e he ht rfl

/-- C4: class matching is exact.  When no selector of the master (a dot followed
by its run of name characters) names a coloured class of the map exactly, as
with `.textual`, `.slogan-text` and `.context` for the class `text`, the result
equals the master; and the pattern compiled for a class matches only at a dot
whose selector class is exactly that class. -/
theorem replaceColors_exact_class (master : List Char) (m : ColorMap)
    (hkeys : ∀ e ∈ m, e.2.truthy = true → IsClassName e.1)
    (hsel : ∀ p t, master = p ++ '.' :: t → ∀ e ∈ m, e.2.truthy = true → selectorClass t ≠ e.1) :
    replaceColors master m = Except.ok master ∧
    ∀ e ∈ m, e.2.truthy = true → ∀ re s r, newRegExp (ruleSource e.1) = Except.ok re →
      matchTerms re s = some r → ∃ t, s = '.' :: t ∧ selectorClass t = e.1 := by
  refine ⟨?_, ?_⟩
  · exact replaceColors_eq_self master m (fun e he ht => (hkeys e he ht).isPlain)
      (not_containsRule_of_selectors master m hkeys hsel)
  · intro e he ht re s r hre hm
    rw [newRegExp_ruleSource e.1 (hkeys e he ht).isPlain] at hre
    cases hre
    obtain ⟨x, hx, hs⟩ := (matchTerms_ruleTerms e.1 s r).mp hm
    exact matchAt_selectorClass (hkeys e he ht) ⟨x, r, hx, hs⟩

/-- The instance of C4 at selectors that contain the class `text` as a prefix,
a suffix and an inner part. -/
theorem replaceColors_exact_class_witness :
    (∀ e ∈ [("text".toList, JSValue.str "#24245a".toList)], e.2.truthy = true →
      IsClassName e.1) ∧
    replaceColors
      ".textual\x7bfill:#000000;\x7d .slogan-text \x7b fill: #111111; \x7d .context \x7b fill: #222222; \x7d".toList
      [("text".toList, JSValue.str "#24245a".toList)] =
      Except.ok
        ".textual\x7bfill:#000000;\x7d .slogan-text \x7b fill: #111111; \x7d .context \x7b fill: #222222; \x7d".toList :=
  ⟨by decide,
    (replaceColors_exact_class _ _ (by decide) (selectors_of_tails _ _ (by decide))).1⟩

theorem replaceColors_keeps_block (C B : List Char) (hC : IsClassName C) (hB : HeadedBy C B) :
    ∀ (m : ColorMap), (∀ e ∈ m, e.2.truthy = true → IsClassName e.1) →
      (∀ e ∈ m, e.1 = C → e.2.truthy = false) →
      ∀ a y : List Char, ∃ a2 y2, replaceColors (a ++ B ++ y) m = Except.ok (a2 ++ B ++ y2) := by
  intro m
  induction m with
  | nil => intro _ _ a y; exact ⟨a, y, rfl⟩
  | cons e m ih =>
    intro hkeys habs a y
    have h1 := replaceColorsStep_plain (a ++ B ++ y) e
      (fun ht => (hkeys e (List.mem_cons_self _ _) ht).isPlain)
    have h2 : ∃ a2 y2, recolorPass e (a ++ B ++ y) = a2 ++ B ++ y2 := by
      unfold recolorPass
      by_cases ht : e.2.truthy = true
      · simp only [ht, if_true]
        have hD := hkeys e (List.mem_cons_self _ _) ht
        have hno : ¬ MatchAt e.1 (B ++ y) := by
          intro hm
          have := habs e (List.mem_cons_self _ _) (hB.matchAt_eq hC hD hm)
          rw [ht] at this
          cases this
        exact replaceFrom_preserves e.1 _ B y hD hB.dotBlock hno a.length a [] (le_refl _)
      · exact ⟨a, y, by simp [ht]⟩
    obtain ⟨a2, y2, h3⟩ := h2
    rw [replaceColors, h1, h3]
    exact ih (fun x hx => hkeys x (List.mem_cons_of_mem _ hx))
      (fun x hx => habs x (List.mem_cons_of_mem _ hx)) a2 y2

/-- C2: for a map keyed by class names, when class `C` is absent from the map or
mapped to a falsy value (the empty string, `false`, `null`, `undefined`), every
rule `.C { fill: #hhhhhh;` of the master appears verbatim in the result of
`replaceColors`, whatever the colours of the other classes. -/
theorem replaceColors_keeps_absent_class (pre post C h : List Char) (m : ColorMap)
    (hkeys : ∀ e ∈ m, e.2.truthy = true → IsClassName e.1)
    (hC : IsClassName C) (hh : IsHex6 h)
    (habs : ∀ e ∈ m, e.1 = C → e.2.truthy = false) :
    ∃ pre2 post2, replaceColors (pre ++ canonicalRule C h ++ post) m =
      Except.ok (pre2 ++ canonicalRule C h ++ post2) :=
  replaceColors_keeps_block C _ hC ((canonicalRule_isRule C h hh).headedBy hC) m hkeys habs
    pre post

/-- The instance of C2 at a map that colours `shield`, holds `text` with an
empty colour and does not hold `ghost`. -/
theorem replaceColors_keeps_absent_class_witness :
    (∀ e ∈ [("shield".toList, JSValue.str "#0A1628".toList), ("text".toList, JSValue.str [])],
      e.2.truthy = true → IsClassName e.1) ∧
    IsClassName "text".toList ∧ IsHex6 "24245a".toList ∧
    (∀ e ∈ [("shield".toList, JSValue.str "#0A1628".toList), ("text".toList, JSValue.str [])],
      e.1 = "text".toList → e.2.truthy = false) ∧
    ∃ pre2 post2,
      replaceColors (".shield\x7bfill:#ffffff;\x7d ".toList ++ canonicalRule "text".toList
          "24245a".toList ++ " \x7d".toList)
        [("shield".toList, JSValue.str "#0A1628".toList), ("text".toList, JSValue.str [])] =
      Except.ok (pre2 ++ canonicalRule "text".toList "24245a".toList ++ post2) :=
  ⟨by decide, by decide, by decide, by decide,
    replaceColors_keeps_absent_class _ _ _ _ _ (by decide) (by decide) (by decide) (by decide)⟩

theorem replaceColors_frame_hit (m : ColorMap) (hm : WellFormed m) (C : List Char)
    (v : JSValue) (hCv : (C, v) ∈ m) (hv : v.truthy = true) (x : List Char) (hx : IsRule C x)
    (pre post : List Char) :
    ∃ pre2 post2, replaceColors pre m = Except.ok pre2 ∧ replaceColors post m = Except.ok post2 ∧
      replaceColors (pre ++ x ++ post) m = Except.ok (pre2 ++ ruleTemplate C v ++ post2) :=
  ⟨recolorPasses m pre, recolorPasses m post, replaceColors_eq_passes m pre hm.plain,
    replaceColors_eq_passes m post hm.plain, by
      rw [replaceColors_eq_passes m _ hm.plain, recolorPasses_frame_hit C v x hx hv m hm hCv]⟩

/-- C5 fails as stated: white space between `fill` and the colon, or between the
colour and the semicolon, is not tolerated; such rules are left as they are. -/
theorem replaceColors_space_before_colon :
    replaceColors ".text \x7b fill : #000000; \x7d".toList
        [("text".toList, JSValue.str "#24245a".toList)] =
      Except.ok ".text \x7b fill : #000000; \x7d".toList ∧
    replaceColors ".text \x7b fill: #000000 ; \x7d".toList
        [("text".toList, JSValue.str "#24245a".toList)] =
      Except.ok ".text \x7b fill: #000000 ; \x7d".toList :=
  ⟨rfl, rfl⟩

/-- C5 (amended): for a well-formed map (class-name keys, pairwise distinct,
colours without dollar sign or dot), a class `C` with a non-empty colour `v`, and
a rule made of `.C`, `{`, `fill:` and `#hhhhhh;` with arbitrary white space
(possibly empty, possibly spanning lines) after `.C`, after the brace and after
`fill:`, `replaceColors` recognises the rule wherever it stands and rewrites it
to `.C { fill: v;`; the texts around it are recoloured independently. -/
theorem replaceColors_whitespace_tolerant (m : ColorMap) (hm : WellFormed m) (C : List Char)
    (v : JSValue) (hCv : (C, v) ∈ m) (hv : v.truthy = true) (w1 w2 w3 h : List Char)
    (hw1 : IsSpace w1) (hw2 : IsSpace w2) (hw3 : IsSpace w3) (hh : IsHex6 h)
    (pre post : List Char) :
    ∃ pre2 post2, replaceColors pre m = Except.ok pre2 ∧ replaceColors post m = Except.ok post2 ∧
      replaceColors (pre ++ ruleText C w1 w2 w3 h ++ post) m =
        Except.ok (pre2 ++ ruleTemplate C v ++ post2) :=
  replaceColors_frame_hit m hm C v hCv hv _ ⟨w1, w2, w3, h, hw1, hw2, hw3, hh, rfl⟩ pre post

/-- The instance of C5 (amended) at a rule without white space after the class
and with a line break and a tab around the brace. -/
theorem replaceColors_whitespace_tolerant_witness :
    WellFormed [("text".toList, JSValue.str "#24245a".toList)] ∧
    IsSpace [] ∧ IsSpace "\n\t ".toList ∧ IsSpace "  ".toList ∧ IsHex6 "0A1b2C".toList ∧
    ∃ pre2 post2,
      replaceColors "<style>".toList [("text".toList, JSValue.str "#24245a".toList)] =
        Except.ok pre2 ∧
      replaceColors "\x7d</style>".toList [("text".toList, JSValue.str "#24245a".toList)] =
        Except.ok post2 ∧
      replaceColors ("<style>".toList ++
          ruleText "text".toList [] "\n\t ".toList "  ".toList "0A1b2C".toList ++
          "\x7d</style>".toList) [("text".toList, JSValue.str "#24245a".toList)] =
        Except.ok (pre2 ++ ruleTemplate "text".toList (JSValue.str "#24245a".toList) ++ post2) :=
  ⟨by decide, by decide, by decide, by decide, by decide,
    replaceColors_whitespace_tolerant _ (by decide) _ _ (by decide) (by decide) _ _ _ _
      (by decide) (by decide) (by decide) (by decide) _ _⟩

theorem catalog_wellFormed :
    ∀ T ∈ COLOR_THEMES, WellFormed T.2.colors ∧ ∀ e ∈ T.2.colors, e.2.truthy = true := by
  decide

/-! ### Pieces: kept text and rewritten rules -/

theorem sourceText_append (a b : List Segment) :
    sourceText (a ++ b) = sourceText a ++ sourceText b := by
  induction a with
  | nil => rfl
  | cons g a ih => simp [sourceText, ih]

theorem targetText_append (a b : List Segment) :
    targetText (a ++ b) = targetText a ++ targetText b := by
  induction a with
  | nil => rfl
  | cons g a ih => simp [targetText, ih]

theorem Segment.ValidFor.mono {m m2 : ColorMap} {g : Segment} (h : g.ValidFor m)
    (hsub : ∀ e ∈ m, e ∈ m2) : g.ValidFor m2 := by
  cases g with
  | keep u => trivial
  | rule C v x => exact ⟨hsub _ h.1, h.2.1, h.2.2⟩

/-- One pass cuts a text into kept characters and rewritten rules. -/
theorem replaceAll_segments (C : List Char) (v : JSValue) (hv : v.truthy = true)
    (hT : '$' ∉ ruleTemplate C v) :
    ∀ (n : Nat) (s : List Char), s.length ≤ n →
      ∃ segs : List Segment, (∀ g ∈ segs, g.ValidFor [(C, v)]) ∧ sourceText segs = s ∧
        targetText segs = replaceAll (ruleTerms C) (ruleTemplate C v) s := by
  intro n
  induction n with
  | zero =>
    intro s hs
    have : s = [] := List.length_eq_zero.mp (by omega)
    subst this
    exact ⟨[], by simp, rfl, by rw [replaceAll_nil]; rfl⟩
  | succ n ih =>
    intro s hs
    by_cases hm : MatchAt C s
    · obtain ⟨x, r, hx, rfl⟩ := hm
      have hl := hx.length_pos
      obtain ⟨segs, hval, hsrc, htgt⟩ := ih r (by simp at hs; omega)
      refine ⟨Segment.rule C v x :: segs, ?_, ?_, ?_⟩
      · intro g hg
        rcases List.mem_cons.mp hg with rfl | hg
        · exact ⟨by simp, hv, hx⟩
        · exact hval g hg
      · simp [sourceText, Segment.source, hsrc]
      · rw [replaceAll_hit _ _ hT _ _ hx]
        simp [targetText, Segment.target, htgt]
    · cases s with
      | nil => exact ⟨[], by simp, rfl, by rw [replaceAll_nil]; rfl⟩
      | cons c s =>
        obtain ⟨segs, hval, hsrc, htgt⟩ := ih s (by simp at hs; omega)
        refine ⟨Segment.keep [c] :: segs, ?_, ?_, ?_⟩
        · intro g hg
          rcases List.mem_cons.mp hg with rfl | hg
          · trivial
          · exact hval g hg
        · simp [sourceText, Segment.source, hsrc]
        · rw [replaceAll_skip _ _ hT _ _ hm]
          simp [targetText, Segment.target, htgt]

/-- A pass for class `E` over a text already cut into pieces for other classes
refines the cut: the rewritten pieces stay, the kept text is cut further. -/
theorem replaceAll_over_segments (E : List Char) (vE : JSValue) (hE : IsClassName E)
    (hvE : vE.truthy = true) (hT : '$' ∉ ruleTemplate E vE) (m : ColorMap)
    (hm : ∀ e ∈ m, IsClassName e.1 ∧ e.1 ≠ E ∧ '.' ∉ e.2.toJSString) :
    ∀ segs : List Segment, (∀ g ∈ segs, g.ValidFor m) → ∀ u : List Char,
      ∃ segs2 : List Segment, (∀ g ∈ segs2, g.ValidFor (m ++ [(E, vE)])) ∧
        sourceText segs2 = u ++ sourceText segs ∧
        targetText segs2 = replaceAll (ruleTerms E) (ruleTemplate E vE) (u ++ targetText segs) := by
  intro segs
  induction segs with
  | nil =>
    intro _ u
    obtain ⟨segs2, hval, hsrc, htgt⟩ := replaceAll_segments E vE hvE hT u.length u (le_refl _)
    exact ⟨segs2, fun g hg => (hval g hg).mono (by simp), by simp [sourceText, hsrc],
      by simp [targetText, htgt]⟩
  | cons g segs ih =>
    intro hval u
    have hval2 : ∀ g2 ∈ segs, g2.ValidFor m := fun g2 hg2 => hval g2 (List.mem_cons_of_mem _ hg2)
    cases g with
    | keep u2 =>
      obtain ⟨segs2, hv2, hsrc, htgt⟩ := ih hval2 (u ++ u2)
      exact ⟨segs2, hv2, by simp [sourceText, Segment.source, hsrc],
        by simp [targetText, Segment.target, htgt]⟩
    | rule C v x =>
      have hg : (Segment.rule C v x).ValidFor m := hval _ (List.mem_cons_self _ _)
      obtain ⟨hC, hne, hdot⟩ := hm (C, v) hg.1
      have hB : HeadedBy C (ruleTemplate C v) := ruleTemplate_headedBy C v hC hdot
      obtain ⟨segsU, hvU, hsrcU, htgtU⟩ := replaceAll_segments E vE hvE hT u.length u (le_refl _)
      obtain ⟨segsR, hvR, hsrcR, htgtR⟩ := ih hval2 []
      refine ⟨segsU ++ Segment.rule C v x :: segsR, ?_, ?_, ?_⟩
      · intro g2 hg2
        rcases List.mem_append.mp hg2 with h | h
        · exact (hvU g2 h).mono (by simp)
        · rcases List.mem_cons.mp h with rfl | h
          · exact hg.mono (by intro e he; simp [he])
          · exact hvR g2 h
      · simp [sourceText_append, sourceText, Segment.source, hsrcU, hsrcR]
      · have hno : ¬ MatchAt E (ruleTemplate C v ++ targetText segs) :=
          fun h => hne (hB.matchAt_eq hC hE h).symm
        have := replaceAll_frame_keep E (ruleTemplate E vE) (ruleTemplate C v) u
          (targetText segs) hE hT hB.dotBlock hno
        simp only [List.nil_append] at htgtR
        simp only [targetText_append, targetText, Segment.target, htgtU, htgtR]
        rw [List.append_assoc] at this
        rw [this]
        simp

theorem recolorPasses_segments :
    ∀ (m done : ColorMap) (segs : List Segment), WellFormed (done ++ m) →
      (∀ g ∈ segs, g.ValidFor done) →
      ∃ segs2 : List Segment, (∀ g ∈ segs2, g.ValidFor (done ++ m)) ∧
        sourceText segs2 = sourceText segs ∧
        targetText segs2 = recolorPasses m (targetText segs) := by
  intro m
  induction m with
  | nil =>
    intro done segs _ hval
    exact ⟨segs, fun g hg => (hval g hg).mono (by simp), rfl, rfl⟩
  | cons e m ih =>
    intro done segs hwf hval
    have hassoc : done ++ [e] ++ m = done ++ e :: m := by simp
    have hstage : ∃ segs1 : List Segment, (∀ g ∈ segs1, g.ValidFor (done ++ [e])) ∧
        sourceText segs1 = sourceText segs ∧ targetText segs1 = recolorPass e (targetText segs) := by
      by_cases ht : e.2.truthy = true
      · have hE : IsClassName e.1 := hwf.1 e (by simp)
        have hcol := hwf.2.2 e (by simp)
        have hT := ruleTemplate_no_dollar e.1 e.2 hE hcol.1
        have hnd : ((done ++ e :: m).map Prod.fst).Nodup := hwf.2.1
        have hdone : ∀ d ∈ done, IsClassName d.1 ∧ d.1 ≠ e.1 ∧ '.' ∉ d.2.toJSString := by
          intro d hd
          refine ⟨hwf.1 d (by simp [hd]), ?_, (hwf.2.2 d (by simp [hd])).2⟩
          intro heq
          rw [List.map_append, List.map_cons] at hnd
          have hdis : List.Disjoint (done.map Prod.fst) (e.1 :: m.map Prod.fst) :=
            (List.nodup_append.mp hnd).2.2
          have h1 : d.1 ∈ done.map Prod.fst := List.mem_map_of_mem Prod.fst hd
          have h2 : d.1 ∈ e.1 :: m.map Prod.fst := by rw [heq]; exact List.mem_cons_self _ _
          exact hdis h1 h2
        obtain ⟨segs1, hv1, hs1, ht1⟩ :=
          replaceAll_over_segments e.1 e.2 hE ht hT done hdone segs hval []
        refine ⟨segs1, hv1, by simpa using hs1, ?_⟩
        unfold recolorPass
        simpa [ht] using ht1
      · exact ⟨segs, fun g hg => (hval g hg).mono (fun x hx => List.mem_append_left _ hx), rfl,
          by simp [recolorPass, ht]⟩
    obtain ⟨segs1, hv1, hs1, ht1⟩ := hstage
    obtain ⟨segs2, hv2, hs2, ht2⟩ := ih (done ++ [e]) segs1 (by rw [hassoc]; exact hwf) hv1
    exact ⟨segs2, by rw [← hassoc]; exact hv2, by rw [hs2, hs1], by
      rw [ht2, ht1]; rfl⟩

/-- For a well-formed map the result of `replaceColors` is the master with some
fill rules of coloured classes replaced by their templates, every other
character kept in place. -/
theorem replaceColors_segments (m : ColorMap) (hm : WellFormed m) (master : List Char) :
    ∃ segs : List Segment, (∀ g ∈ segs, g.ValidFor m) ∧ sourceText segs = master ∧
      replaceColors master m = Except.ok (targetText segs) := by
  obtain ⟨segs, hv, hs, ht⟩ := recolorPasses_segments m [] [Segment.keep master]
    (by simpa using hm) (by intro g hg; simp at hg; subst hg; trivial)
  refine ⟨segs, by simpa using hv, by simpa [sourceText, Segment.source] using hs, ?_⟩
  rw [replaceColors_eq_passes m master hm.plain, ht]
  simp [targetText, Segment.target]

/-- C1: for every catalog theme `T`, every class `C` of its map with colour `v`
and every master `pre ++ .C { fill: #hhhhhh; ++ post`, `replaceColors` turns that
rule into `.C { fill: v;` and recolours `pre` and `post` independently; and the
master is a sequence of pieces, each either a fill rule of a class of `T`, which
becomes the template of that class, or text that stands unchanged, in the same
order, in the result. -/
theorem replaceColors_catalog_rule (T : String × Theme) (hT : T ∈ COLOR_THEMES)
    (C : List Char) (v : JSValue) (hCv : (C, v) ∈ T.2.colors) (h : List Char) (hh : IsHex6 h)
    (pre post : List Char) :
    (∃ pre2 post2, replaceColors pre T.2.colors = Except.ok pre2 ∧
      replaceColors post T.2.colors = Except.ok post2 ∧
      replaceColors (pre ++ canonicalRule C h ++ post) T.2.colors =
        Except.ok (pre2 ++ ruleTemplate C v ++ post2)) ∧
    ∃ segs : List Segment, (∀ g ∈ segs, g.ValidFor T.2.colors) ∧
      sourceText segs = pre ++ canonicalRule C h ++ post ∧
      replaceColors (pre ++ canonicalRule C h ++ post) T.2.colors =
        Except.ok (targetText segs) :=
  have hwf := catalog_wellFormed T hT
  ⟨replaceColors_frame_hit T.2.colors hwf.1 C v hCv (hwf.2 _ hCv) _
      (canonicalRule_isRule C h hh) pre post,
    replaceColors_segments T.2.colors hwf.1 _⟩

/-- The instance of C1 at the theme `quantum-blue` and the class `eyes`. -/
theorem replaceColors_catalog_rule_witness :
    (("quantum-blue", ⟨"Quantum Blue", "Deep space blue for tech community",
        mkColors "#0A1628" "#ffffff" "#1E3A8A" "#0A1628" "#60A5FA"⟩) : String × Theme) ∈
      COLOR_THEMES ∧
    ("eyes".toList, JSValue.str "#1E3A8A".toList) ∈
      mkColors "#0A1628" "#ffffff" "#1E3A8A" "#0A1628" "#60A5FA" ∧
    IsHex6 "24245a".toList ∧
    ∃ pre2 post2,
      replaceColors "<style>.ghost\x7bfill:#000000;\x7d".toList
        (mkColors "#0A1628" "#ffffff" "#1E3A8A" "#0A1628" "#60A5FA") = Except.ok pre2 ∧
      replaceColors " opacity: 1 \x7d</style>".toList
        (mkColors "#0A1628" "#ffffff" "#1E3A8A" "#0A1628" "#60A5FA") = Except.ok post2 ∧
      replaceColors ("<style>.ghost\x7bfill:#000000;\x7d".toList ++
          canonicalRule "eyes".toList "24245a".toList ++ " opacity: 1 \x7d</style>".toList)
        (mkColors "#0A1628" "#ffffff" "#1E3A8A" "#0A1628" "#60A5FA") =
        Except.ok (pre2 ++ ruleTemplate "eyes".toList (JSValue.str "#1E3A8A".toList) ++ post2) :=
  have hT : (("quantum-blue", ⟨"Quantum Blue", "Deep space blue for tech community",
      mkColors "#0A1628" "#ffffff" "#1E3A8A" "#0A1628" "#60A5FA"⟩) : String × Theme) ∈
      COLOR_THEMES := by
    unfold COLOR_THEMES
    exact List.mem_cons_of_mem _ (List.mem_cons_self _ _)
  have hC : ("eyes".toList, JSValue.str "#1E3A8A".toList) ∈
      mkColors "#0A1628" "#ffffff" "#1E3A8A" "#0A1628" "#60A5FA" := by decide
  ⟨hT, hC, by decide,
    (replaceColors_catalog_rule _ hT _ _ hC _ (by decide) _ _).1⟩

/-! ### One scan from left to right -/

theorem ruleTemplate_cons (C : List Char) (v : JSValue) :
    ∃ T2, ruleTemplate C v = '.' :: T2 :=
  ⟨C ++ " \x7b fill: ".toList ++ v.toJSString ++ ";".toList, by simp [ruleTemplate]⟩

theorem replaceAll_prefix_iff (D T : List Char) (hT : '$' ∉ T) (hTd : ∃ T2, T = '.' :: T2) :
    ∀ p : List Char, '.' ∉ p → ∀ t : List Char,
      (∃ r, t = p ++ r) ↔ ∃ r2, replaceAll (ruleTerms D) T t = p ++ r2 := by
  intro p
  induction p with
  | nil => intro _ t; exact ⟨fun _ => ⟨_, rfl⟩, fun _ => ⟨t, rfl⟩⟩
  | cons a p ih =>
    intro hp t
    have ha : a ≠ '.' := fun e => hp (by simp [e])
    have hp2 : '.' ∉ p := fun e => hp (List.mem_cons_of_mem _ e)
    constructor
    · rintro ⟨r, rfl⟩
      have hno : ¬ MatchAt D (a :: (p ++ r)) := fun hm => ha hm.head_dot
      obtain ⟨r2, hr2⟩ := (ih hp2 (p ++ r)).mp ⟨r, rfl⟩
      exact ⟨r2, by rw [List.cons_append, replaceAll_skip _ _ hT _ _ hno, hr2]; rfl⟩
    · rintro ⟨r2, hr2⟩
      cases t with
      | nil => rw [replaceAll_nil] at hr2; cases hr2
      | cons c t =>
        by_cases hm : MatchAt D (c :: t)
        · exfalso
          obtain ⟨x, r, hx, hs⟩ := hm
          obtain ⟨T2, hT2⟩ := hTd
          rw [hs, replaceAll_hit _ _ hT _ _ hx, hT2] at hr2
          simp at hr2
          exact ha hr2.1.symm
        · rw [replaceAll_skip _ _ hT _ _ hm] at hr2
          simp at hr2
          obtain ⟨r, hr⟩ := (ih hp2 t).mpr ⟨r2, hr2.2⟩
          exact ⟨r, by rw [hr, hr2.1]; rfl⟩

/-- Whether a class matches at a position does not depend on the passes for
other classes that ran over the text behind the position. -/
theorem matchAt_replaceAll_iff (E D T : List Char) (hE : IsClassName E) (hT : '$' ∉ T)
    (hTd : ∃ T2, T = '.' :: T2) (c : Char) (t : List Char) :
    MatchAt E (c :: t) ↔ MatchAt E (c :: replaceAll (ruleTerms D) T t) := by
  constructor
  · rintro ⟨x, r, hx, hs⟩
    obtain ⟨x2, rfl, hx2⟩ := (hx.headedBy hE).dotBlock
    simp at hs
    obtain ⟨r2, hr2⟩ := (replaceAll_prefix_iff D T hT hTd x2 hx2 t).mp ⟨r, hs.2⟩
    exact ⟨'.' :: x2, r2, hx, by rw [hs.1, hr2]; rfl⟩
  · rintro ⟨x, r2, hx, hs⟩
    obtain ⟨x2, rfl, hx2⟩ := (hx.headedBy hE).dotBlock
    simp at hs
    obtain ⟨r, hr⟩ := (replaceAll_prefix_iff D T hT hTd x2 hx2 t).mpr ⟨r2, hs.2⟩
    exact ⟨'.' :: x2, r, hx, by rw [hs.1, hr]; rfl⟩

/-- A character at which no coloured class matches is copied by all rounds. -/
theorem recolorPasses_skip :
    ∀ (m : ColorMap), WellFormed m → ∀ (c : Char) (s : List Char),
      (∀ e ∈ m, e.2.truthy = true → ¬ MatchAt e.1 (c :: s)) →
      recolorPasses m (c :: s) = c :: recolorPasses m s := by
  intro m
  induction m with
  | nil => intro _ c s _; rfl
  | cons e m ih =>
    intro hwf c s hno
    by_cases ht : e.2.truthy = true
    · have hD := hwf.1 e (List.mem_cons_self _ _)
      have hT := ruleTemplate_no_dollar e.1 e.2 hD (hwf.2.2 e (List.mem_cons_self _ _)).1
      have hpass : recolorPass e (c :: s) = c :: recolorPass e s := by
        unfold recolorPass
        simp only [ht, if_true]
        exact replaceAll_skip _ _ hT _ _ (hno e (List.mem_cons_self _ _) ht)
      rw [recolorPasses, hpass, recolorPasses]
      apply ih hwf.tail
      intro e2 he2 ht2 hm
      apply hno e2 (List.mem_cons_of_mem _ he2) ht2
      have hE := hwf.1 e2 (List.mem_cons_of_mem _ he2)
      have : recolorPass e s = replaceAll (ruleTerms e.1) (ruleTemplate e.1 e.2) s := by
        simp [recolorPass, ht]
      rw [this] at hm
      exact (matchAt_replaceAll_iff e2.1 e.1 _ hE hT (ruleTemplate_cons _ _) c s).mpr hm
    · have hpass : ∀ t, recolorPass e t = t := fun t => by simp [recolorPass, ht]
      rw [recolorPasses, hpass, recolorPasses, hpass]
      exact ih hwf.tail c s (fun e2 he2 => hno e2 (List.mem_cons_of_mem _ he2))

theorem catalog_templates :
    ∀ T ∈ COLOR_THEMES, ∀ e ∈ T.2.colors,
      IsHex6 e.2.toJSString.tail ∧ ruleTemplate e.1 e.2 = canonicalRule e.1 e.2.toJSString.tail := by
  decide

/-- C6 fails as stated: the white space inside a matched rule is not left as
authored.  For the theme `midnight-phantom` the rule `.text{fill:#000000;`
becomes `.text { fill: #24245a;`, not `.text{fill:#24245a;`. -/
theorem replaceColors_normalises_spacing :
    replaceColors ".text\x7bfill:#000000;\x7d".toList (themeColors "midnight-phantom") =
      Except.ok ".text \x7b fill: #24245a;\x7d".toList ∧
    replaceColors ".text\x7bfill:#000000;\x7d".toList (themeColors "midnight-phantom") ≠
      Except.ok ".text\x7bfill:#24245a;\x7d".toList := by
  have e : replaceColors ".text\x7bfill:#000000;\x7d".toList (themeColors "midnight-phantom") =
      Except.ok ".text \x7b fill: #24245a;\x7d".toList := rfl
  refine ⟨e, ?_⟩
  rw [e]
  intro h
  have h2 := Except.ok.inj h
  revert h2
  decide

/-- C6 (amended): for every catalog theme the result of `replaceColors` is the
master scanned once from left to right: the empty text gives the empty text; a
character at which no class of the theme has a fill rule is copied; a fill rule
`x` of a class `C` of the theme, from its dot to the semicolon after the colour,
is replaced as a whole by `.C { fill: v;`, which is the rule in single-space
layout with the theme's six-digit colour.  Text outside matched rules is never
changed; white space inside a matched rule is normalised. -/
theorem replaceColors_catalog_scan (T : String × Theme) (hT : T ∈ COLOR_THEMES) :
    replaceColors [] T.2.colors = Except.ok [] ∧
    (∀ (c : Char) (s : List Char), (∀ e ∈ T.2.colors, ¬ MatchAt e.1 (c :: s)) →
      ∃ s2, replaceColors s T.2.colors = Except.ok s2 ∧
        replaceColors (c :: s) T.2.colors = Except.ok (c :: s2)) ∧
    (∀ (C : List Char) (v : JSValue) (x r : List Char), (C, v) ∈ T.2.colors → IsRule C x →
      ∃ r2, replaceColors r T.2.colors = Except.ok r2 ∧
        replaceColors (x ++ r) T.2.colors = Except.ok (ruleTemplate C v ++ r2)) ∧
    (∀ e ∈ T.2.colors, IsHex6 e.2.toJSString.tail ∧
      ruleTemplate e.1 e.2 = canonicalRule e.1 e.2.toJSString.tail) := by
  have hwf := catalog_wellFormed T hT
  refine ⟨?_, ?_, ?_, catalog_templates T hT⟩
  · rw [replaceColors_eq_passes _ _ hwf.1.plain, recolorPasses_nil]
  · intro c s hno
    refine ⟨recolorPasses T.2.colors s, replaceColors_eq_passes _ _ hwf.1.plain, ?_⟩
    rw [replaceColors_eq_passes _ _ hwf.1.plain,
      recolorPasses_skip _ hwf.1 c s (fun e he _ => hno e he)]
  · intro C v x r hCv hx
    refine ⟨recolorPasses T.2.colors r, replaceColors_eq_passes _ _ hwf.1.plain, ?_⟩
    have := recolorPasses_frame_hit C v x hx (hwf.2 _ hCv) T.2.colors hwf.1 hCv [] r
    rw [replaceColors_eq_passes _ _ hwf.1.plain]
    simp only [List.nil_append, recolorPasses_nil] at this
    rw [this]

/-- The instance of C6 (amended) at the theme `midnight-phantom`. -/
theorem replaceColors_catalog_scan_witness :
    (("midnight-phantom", ⟨"Midnight Phantom", "Default deep space purple",
        mkColors "#24245a" "#ffffff" "#24245a" "#24245a" "#5c5981"⟩) : String × Theme) ∈
      COLOR_THEMES ∧
    replaceColors [] (mkColors "#24245a" "#ffffff" "#24245a" "#24245a" "#5c5981") =
      Except.ok [] :=
  have hT : (("midnight-phantom", ⟨"Midnight Phantom", "Default deep space purple",
      mkColors "#24245a" "#ffffff" "#24245a" "#24245a" "#5c5981"⟩) : String × Theme) ∈
      COLOR_THEMES := by
    unfold COLOR_THEMES
    exact List.mem_cons_self _ _
  ⟨hT, (replaceColors_catalog_scan _ hT).1⟩

/-! ### Counting loops -/

theorem Tally.count_total (r : Bool × Sys) (t : Tally) :
    (t.count r).generated + (t.count r).failed = t.generated + t.failed + 1 := by
  unfold Tally.count
  split <;> simp <;> omega

theorem Tally.count_sys (r : Bool × Sys) (t : Tally) : (t.count r).sys = r.2 := by
  unfold Tally.count
  split <;> rfl

theorem countFold_total {α : Type} (f : Tally → α → Bool × Sys) (l : List α) :
    ∀ t : Tally,
      (l.foldl (fun t a => t.count (f t a)) t).generated +
        (l.foldl (fun t a => t.count (f t a)) t).failed = t.generated + t.failed + l.length := by
  induction l with
  | nil => intro t; rfl
  | cons a l ih =>
    intro t
    rw [List.foldl_cons, ih, Tally.count_total, List.length_cons]
    omega

theorem countFold_all_ok {α : Type} (f : Tally → α → Bool × Sys) (l : List α)
    (hok : ∀ t a, a ∈ l → (f t a).1 = true) :
    ∀ t : Tally,
      (l.foldl (fun t a => t.count (f t a)) t).generated = t.generated + l.length ∧
      (l.foldl (fun t a => t.count (f t a)) t).failed = t.failed := by
  induction l with
  | nil => intro t; exact ⟨rfl, rfl⟩
  | cons a l ih =>
    intro t
    have h1 := hok t a (List.mem_cons_self _ _)
    obtain ⟨h2, h3⟩ := ih (fun t b hb => hok t b (List.mem_cons_of_mem _ hb)) (t.count (f t a))
    rw [List.foldl_cons, h2, h3]
    simp [Tally.count, h1]
    omega

theorem length_sizeFormatPairs {α : Type} (sizes : List α) (formats : List String) :
    (sizeFormatPairs sizes formats).length = sizes.length * formats.length := by
  induction sizes with
  | nil => simp [sizeFormatPairs]
  | cons e sizes ih =>
    have : sizeFormatPairs (e :: sizes) formats =
        formats.map (fun format => (e, format)) ++ sizeFormatPairs sizes formats := rfl
    rw [this, List.length_append, List.length_map, ih, List.length_cons]
    ring

theorem nestedFold_eq_pairs {α : Type} (step : Tally → α × String → Tally) (sizes : List α)
    (formats : List String) :
    ∀ t : Tally,
      sizes.foldl (fun t1 entry => formats.foldl (fun t2 format => step t2 (entry, format)) t1) t =
        (sizeFormatPairs sizes formats).foldl step t := by
  induction sizes with
  | nil => intro t; rfl
  | cons e sizes ih =>
    intro t
    have : sizeFormatPairs (e :: sizes) formats =
        formats.map (fun format => (e, format)) ++ sizeFormatPairs sizes formats := rfl
    rw [List.foldl_cons, ih, this, List.foldl_append, List.foldl_map]

/-- The loops of `generateCategoryIcons` are one loop over the pairs. -/
theorem categoryLoop_eq_pairs (env : Env) (svgBuffer : List Char) (dir : Path)
    (sizes : List IconSize) (formats : List String) (t : Tally) :
    categoryLoop env svgBuffer dir sizes formats t =
      (sizeFormatPairs sizes formats).foldl (fun t p =>
        t.count (generateIcon env t.sys svgBuffer (dir ++ [p.1.name]) p.1.size p.2)) t :=
  nestedFold_eq_pairs (fun (t : Tally) (p : IconSize × String) =>
    t.count (generateIcon env t.sys svgBuffer (dir ++ [p.1.name]) p.1.size p.2)) sizes formats t

theorem generateIcon_known (env : Env) (st : Sys) (input : List Char) (dir : Path)
    (p : IconSize × String) (hk : knownFormat p.2 = true) :
    generateIcon env st input (dir ++ [p.1.name]) p.1.size p.2 =
      if env.callFails st.calls.length (iconCall input dir p) then
        (false, { st with calls := iconCall input dir p :: st.calls })
      else (true, { st with calls := iconCall input dir p :: st.calls,
                            files := addExt (dir ++ [p.1.name]) p.2 :: st.files }) := by
  have hk2 : p.2 = "png" ∨ p.2 = "webp" ∨ p.2 = "avif" := by simpa [knownFormat] using hk
  unfold generateIcon encodeToFile libraryCall iconCall
  by_cases hf : env.callFails st.calls.length
      (Call.toFile input (addExt (dir ++ [p.1.name]) p.2) (some p.1.size) (some p.1.size) p.2) = true
  · simp [hk2, hf]
  · simp [hk2, hf]

/-- Over pairs with known formats every pair makes exactly one library call, in
order, and the counters count the calls that succeed and those that fail. -/
theorem pairsFold_trace (env : Env) (input : List Char) (dir : Path) :
    ∀ (ps : List (IconSize × String)), (∀ p ∈ ps, knownFormat p.2 = true) → ∀ t : Tally,
      let r := ps.foldl (fun t p =>
        t.count (generateIcon env t.sys input (dir ++ [p.1.name]) p.1.size p.2)) t
      r.sys.calls = (ps.map (iconCall input dir)).reverse ++ t.sys.calls ∧
      r.sys.dirs = t.sys.dirs ∧
      r.failed = t.failed + failingCalls env t.sys.calls.length (ps.map (iconCall input dir)) ∧
      r.generated + failingCalls env t.sys.calls.length (ps.map (iconCall input dir)) =
        t.generated + ps.length := by
  intro ps
  induction ps with
  | nil => intro _ t; simp [failingCalls]
  | cons p ps ih =>
    intro hk t
    have hp := hk p (List.mem_cons_self _ _)
    have ih2 := ih (fun q hq => hk q (List.mem_cons_of_mem _ hq))
      (t.count (generateIcon env t.sys input (dir ++ [p.1.name]) p.1.size p.2))
    simp only [List.foldl_cons, List.map_cons, List.reverse_cons, failingCalls, List.length_cons]
    simp only [Tally.count_sys] at ih2
    rw [generateIcon_known env t.sys input dir p hp] at ih2 ⊢
    cases hf : env.callFails t.sys.calls.length (iconCall input dir p) with
    | true =>
      simp only [hf, if_true] at ih2 ⊢
      obtain ⟨h1, h2, h3, h4⟩ := ih2
      simp only [List.length_cons] at h3 h4
      refine ⟨by rw [h1]; simp, h2, ?_, ?_⟩
      · rw [h3]; simp [Tally.count]; omega
      · simp [Tally.count] at h4 ⊢; omega
    | false =>
      simp only [hf, Bool.false_eq_true, if_false] at ih2 ⊢
      obtain ⟨h1, h2, h3, h4⟩ := ih2
      simp only [List.length_cons] at h3 h4
      refine ⟨by rw [h1]; simp, h2, ?_, ?_⟩
      · rw [h3]; simp [Tally.count]
      · simp [Tally.count] at h4 ⊢; omega

/-! ### Claims about the icon and logo builders -/

theorem ensureDirectoryExists_ok (env : Env) (st : Sys) (p : Path)
    (hmk : ∀ q, env.mkdirFails q = false) :
    ∃ st1, ensureDirectoryExists env st p = Except.ok st1 ∧ st1.calls = st.calls ∧
      st1.files = st.files := by
  unfold ensureDirectoryExists
  split
  · exact ⟨st, rfl, rfl, rfl⟩
  · simp [hmk p]

theorem ensureDirectoryExists_calls (env : Env) (st st1 : Sys) (p : Path)
    (h : ensureDirectoryExists env st p = Except.ok st1) :
    st1.calls = st.calls ∧ st1.files = st.files := by
  unfold ensureDirectoryExists at h
  split at h
  · cases h; exact ⟨rfl, rfl⟩
  · split at h
    · cases h
    · cases h; exact ⟨rfl, rfl⟩

/-- C10: failure isolation.  Once the category directory exists,
`generateCategoryIcons` returns, and `generated + failed` is the number of
(size, format) pairs; for the formats `png`, `webp`, `avif` it makes exactly one
encoder call per pair, in the order of the loops and whatever failed before,
`failed` is the number of calls that fail and `generated` the number of calls
that succeed. -/
theorem generateCategoryIcons_counts (env : Env) (st st1 : Sys) (svgBuffer : List Char)
    (category : String) (sizes : List IconSize) (formats : List String) (outputDir : Path)
    (hdir : ensureDirectoryExists env st (outputDir ++ [category]) = Except.ok st1) :
    ∃ t, generateCategoryIcons env st svgBuffer category sizes formats outputDir = Except.ok t ∧
      t.generated + t.failed = sizes.length * formats.length ∧
      ((∀ f ∈ formats, knownFormat f = true) →
        t.sys.calls = ((sizeFormatPairs sizes formats).map
            (iconCall svgBuffer (outputDir ++ [category]))).reverse ++ st.calls ∧
        t.failed = failingCalls env st.calls.length ((sizeFormatPairs sizes formats).map
            (iconCall svgBuffer (outputDir ++ [category]))) ∧
        t.generated = sizes.length * formats.length -
          failingCalls env st.calls.length ((sizeFormatPairs sizes formats).map
            (iconCall svgBuffer (outputDir ++ [category])))) := by
  refine ⟨_, by rw [generateCategoryIcons, hdir], ?_, ?_⟩
  · rw [categoryLoop_eq_pairs, countFold_total, length_sizeFormatPairs]
    simp
  · intro hk
    have hk2 : ∀ p ∈ sizeFormatPairs sizes formats, knownFormat p.2 = true := by
      intro p hp
      induction sizes with
      | nil => simp [sizeFormatPairs] at hp
      | cons e sizes ih =>
        have : sizeFormatPairs (e :: sizes) formats =
            formats.map (fun format => (e, format)) ++ sizeFormatPairs sizes formats := rfl
        rw [this, List.mem_append] at hp
        rcases hp with hp | hp
        · obtain ⟨f, hf, rfl⟩ := List.mem_map.mp hp
          exact hk f hf
        · exact ih hp
    have h := pairsFold_trace env svgBuffer (outputDir ++ [category])
      (sizeFormatPairs sizes formats) hk2 ⟨0, 0, st1⟩
    have hc := (ensureDirectoryExists_calls env st st1 _ hdir).1
    simp only [hc, length_sizeFormatPairs] at h
    rw [categoryLoop_eq_pairs]
    obtain ⟨h1, -, h3, h4⟩ := h
    refine ⟨h1, by rw [h3]; simp, ?_⟩
    simp only [Nat.zero_add] at h4
    exact Nat.eq_sub_of_add_eq h4

/-- The instance of C10 at the favicon sizes with the encoder failing for `webp`
at size 32: of the 15 pairs, 14 are generated and 1 has failed. -/
theorem generateCategoryIcons_counts_witness :
    ensureDirectoryExists Env.webp32Fails Sys.initial (["t", "icons"] ++ ["favicons"]) =
      Except.ok ⟨[["t", "icons", "favicons"]], [], []⟩ ∧
    (∃ t, generateCategoryIcons Env.webp32Fails Sys.initial "<svg/>".toList "favicons"
        [⟨16, "favicon-16"⟩, ⟨32, "favicon-32"⟩, ⟨48, "favicon-48"⟩, ⟨96, "favicon-96"⟩,
          ⟨192, "favicon-192"⟩] CONFIG.iconFormats ["t", "icons"] = Except.ok t ∧
      t.generated + t.failed = 5 * 3) ∧
    (generateCategoryIcons Env.webp32Fails Sys.initial "<svg/>".toList "favicons"
        [⟨16, "favicon-16"⟩, ⟨32, "favicon-32"⟩, ⟨48, "favicon-48"⟩, ⟨96, "favicon-96"⟩,
          ⟨192, "favicon-192"⟩] CONFIG.iconFormats ["t", "icons"]).map
      (fun t => (t.generated, t.failed, t.sys.files.length)) = Except.ok (14, 1, 14) :=
  have hdir : ensureDirectoryExists Env.webp32Fails Sys.initial (["t", "icons"] ++ ["favicons"]) =
      Except.ok ⟨[["t", "icons", "favicons"]], [], []⟩ := rfl
  ⟨hdir,
    (generateCategoryIcons_counts Env.webp32Fails Sys.initial _ "<svg/>".toList "favicons"
      [⟨16, "favicon-16"⟩, ⟨32, "favicon-32"⟩, ⟨48, "favicon-48"⟩, ⟨96, "favicon-96"⟩,
        ⟨192, "favicon-192"⟩] CONFIG.iconFormats ["t", "icons"] hdir).imp
      (fun _ h => ⟨h.1, h.2.1⟩),
    rfl⟩

theorem encodeToFile_ok (env : Env) (hall : env.NoCallFails) (st : Sys) (input : List Char)
    (path : Path) (w h : Option Nat) (format : String) (hk : knownFormat format = true) :
    encodeToFile env st input path w h format =
      (true, { st with calls := Call.toFile input (addExt path format) w h format :: st.calls,
                       files := addExt path format :: st.files }) := by
  have hk2 : format = "png" ∨ format = "webp" ∨ format = "avif" := by simpa [knownFormat] using hk
  simp [encodeToFile, libraryCall, hk2, hall _ _]

/-- With no failing call, a counting loop over pairs with known formats counts
every pair as generated and writes one file per pair. -/
theorem encodeFold_ok {α : Type} (env : Env) (hall : env.NoCallFails) (input : List Char)
    (dir : Path) (name : α → String) (w h : α → Option Nat) :
    ∀ (ps : List (α × String)), (∀ p ∈ ps, knownFormat p.2 = true) → ∀ t : Tally,
      let r := ps.foldl (fun t p =>
        t.count (encodeToFile env t.sys input (dir ++ [name p.1]) (w p.1) (h p.1) p.2)) t
      r.generated = t.generated + ps.length ∧ r.failed = t.failed ∧
      r.sys.files = (ps.map fun p => addExt (dir ++ [name p.1]) p.2).reverse ++ t.sys.files ∧
      r.sys.dirs = t.sys.dirs := by
  intro ps
  induction ps with
  | nil => intro _ t; simp
  | cons p ps ih =>
    intro hk t
    have hp := hk p (List.mem_cons_self _ _)
    have ih2 := ih (fun q hq => hk q (List.mem_cons_of_mem _ hq))
      (t.count (encodeToFile env t.sys input (dir ++ [name p.1]) (w p.1) (h p.1) p.2))
    simp only [List.foldl_cons, List.map_cons, List.reverse_cons, List.length_cons]
    rw [encodeToFile_ok env hall _ _ _ _ _ _ hp] at ih2 ⊢
    obtain ⟨h1, h2, h3, h4⟩ := ih2
    refine ⟨by rw [h1]; simp [Tally.count]; omega, by rw [h2]; simp [Tally.count],
      by rw [h3]; simp [Tally.count], by rw [h4]; simp [Tally.count]⟩

theorem knownFormat_pairs {α : Type} (sizes : List α) (formats : List String)
    (hk : ∀ f ∈ formats, knownFormat f = true) :
    ∀ p ∈ sizeFormatPairs sizes formats, knownFormat p.2 = true := by
  intro p hp
  induction sizes with
  | nil => simp [sizeFormatPairs] at hp
  | cons e sizes ih =>
    have : sizeFormatPairs (e :: sizes) formats =
        formats.map (fun format => (e, format)) ++ sizeFormatPairs sizes formats := rfl
    rw [this, List.mem_append] at hp
    rcases hp with hp | hp
    · obtain ⟨f, hf, rfl⟩ := List.mem_map.mp hp
      exact hk f hf
    · exact ih hp

theorem iconFormats_known : ∀ f ∈ CONFIG.iconFormats, knownFormat f = true := by decide

theorem logoFormats_known : ∀ f ∈ CONFIG.logoFormats, knownFormat f = true := by decide

/-- The category builder: it returns when the directory can be made, counts
every pair, and with no failing call generates all of them and writes their
files. -/
theorem generateCategoryIcons_total (env : Env) (hmk : env.NoMkdirFails) (st : Sys)
    (svgBuffer : List Char) (category : String) (sizes : List IconSize) (outputDir : Path) :
    ∃ t, generateCategoryIcons env st svgBuffer category sizes CONFIG.iconFormats outputDir =
        Except.ok t ∧
      t.generated + t.failed = sizes.length * 3 ∧
      (env.NoCallFails → t.generated = sizes.length * 3 ∧ t.failed = 0 ∧
        t.sys.files = (targetFiles IconSize.name (outputDir ++ [category]) sizes
          CONFIG.iconFormats).reverse ++ st.files) := by
  obtain ⟨st1, h1, -, hfiles⟩ := ensureDirectoryExists_ok env st (outputDir ++ [category]) hmk
  refine ⟨_, by rw [generateCategoryIcons, h1], ?_, ?_⟩
  · rw [categoryLoop_eq_pairs, countFold_total, length_sizeFormatPairs]
    simp [CONFIG.iconFormats]
  · intro hall
    have h := encodeFold_ok env hall svgBuffer (outputDir ++ [category]) IconSize.name
      (fun e => some e.size) (fun e => some e.size) (sizeFormatPairs sizes CONFIG.iconFormats)
      (knownFormat_pairs sizes _ iconFormats_known) ⟨0, 0, st1⟩
    rw [categoryLoop_eq_pairs]
    simp only [generateIcon]
    obtain ⟨h2, h3, h4, -⟩ := h
    refine ⟨by rw [h2, length_sizeFormatPairs]; simp [CONFIG.iconFormats], h3, ?_⟩
    rw [h4, hfiles]
    rfl

theorem categoriesLoop_total (env : Env) (hmk : env.NoMkdirFails) (svgBuffer : List Char)
    (iconsDir : Path) :
    ∀ (cats : List (String × List IconSize)) (t : Tally),
      ∃ r, categoriesLoop env svgBuffer iconsDir cats t = Except.ok r ∧
        r.generated + r.failed =
          t.generated + t.failed + (cats.map fun c => c.2.length * 3).sum ∧
        (env.NoCallFails →
          r.generated = t.generated + (cats.map fun c => c.2.length * 3).sum ∧
          r.failed = t.failed ∧
          r.sys.files.length = t.sys.files.length + (cats.map fun c => c.2.length * 3).sum) := by
  intro cats
  induction cats with
  | nil => intro t; exact ⟨t, rfl, by simp, fun _ => by simp⟩
  | cons c cats ih =>
    intro t
    obtain ⟨category, sizes⟩ := c
    obtain ⟨r1, h1, h2, h3⟩ :=
      generateCategoryIcons_total env hmk t.sys svgBuffer category sizes iconsDir
    obtain ⟨r, h4, h5, h6⟩ := ih ⟨t.generated + r1.generated, t.failed + r1.failed, r1.sys⟩
    refine ⟨r, by rw [categoriesLoop, h1]; exact h4, ?_, ?_⟩
    · rw [h5]; simp; omega
    · intro hall
      obtain ⟨h7, h8, h9⟩ := h3 hall
      obtain ⟨h10, h11, h12⟩ := h6 hall
      refine ⟨by rw [h10]; simp; omega, by rw [h11]; simp; omega, ?_⟩
      rw [h12]
      simp only [h9, List.length_append, List.length_reverse, targetFiles, List.length_map,
        length_sizeFormatPairs, List.map_cons, List.sum_cons]
      simp [CONFIG.iconFormats]
      omega

theorem icoBuffers_ok (env : Env) (hall : env.NoCallFails) (input : List Char) :
    ∀ (sizes : List Nat) (st : Sys),
      ∃ st1, icoBuffers env input sizes st = (some sizes, st1) ∧ st1.files = st.files := by
  intro sizes
  induction sizes with
  | nil => intro st; exact ⟨st, rfl, rfl⟩
  | cons n sizes ih =>
    intro st
    obtain ⟨st1, h1, h2⟩ := ih { st with calls := Call.toBuffer input n :: st.calls }
    refine ⟨st1, ?_, h2⟩
    simp [icoBuffers, libraryCall, hall _ _, h1]

theorem generateIcoFile_ok (env : Env) (hall : env.NoCallFails) (st : Sys) (input : List Char)
    (path : Path) (hw : env.writeFails path = false) :
    ∃ st1, generateIcoFile env st input path = (true, st1) ∧ st1.files = path :: st.files := by
  obtain ⟨st1, h1, h2⟩ := icoBuffers_ok env hall input CONFIG.icoSizes st
  refine ⟨_, by simp [generateIcoFile, h1, libraryCall, hall _ _, hw]; rfl, by simp [h2]⟩

/-- C8: when the directories can be made, `generateThemeIcons` returns with
`generated + failed = 49` for any pattern of call outcomes; when no encoder call
and not the write of `favicon.ico` fails, it returns `generated = 49`,
`failed = 0` and has written 49 files: 16 size entries times 3 formats, plus
`favicon.ico`. -/
theorem generateThemeIcons_counts (env : Env) (st : Sys) (svgContent : List Char)
    (themeName : String) (hmk : env.NoMkdirFails) :
    ∃ t, generateThemeIcons env st svgContent themeName = Except.ok t ∧
      t.generated + t.failed = 49 ∧
      (env.NoCallFails →
        env.writeFails [themeName, "icons", "favicons", "favicon.ico"] = false →
        t.generated = 49 ∧ t.failed = 0 ∧ t.sys.files.length = st.files.length + 49 ∧
        t.sys.files.head? = some [themeName, "icons", "favicons", "favicon.ico"]) ∧
      (CONFIG.iconSizes.map fun c => c.2.length) = [5, 5, 6] ∧ (5 + 5 + 6) * 3 + 1 = 49 := by
  obtain ⟨st1, h1, -, hf1⟩ := ensureDirectoryExists_ok env st [themeName, "icons"] hmk
  obtain ⟨r, h2, h3, h4⟩ :=
    categoriesLoop_total env hmk svgContent [themeName, "icons"] CONFIG.iconSizes ⟨0, 0, st1⟩
  have hsum : (CONFIG.iconSizes.map fun c => c.2.length * 3).sum = 48 := by decide
  rw [hsum] at h3 h4
  simp only [Nat.zero_add] at h3
  refine ⟨r.count (generateIcoFile env r.sys svgContent
    [themeName, "icons", "favicons", "favicon.ico"]),
    by simp only [generateThemeIcons, h1, h2], ?_, ?_, by decide, by decide⟩
  · rw [Tally.count_total, h3]
  · intro hall hw
    simp only [Nat.zero_add] at h4
    obtain ⟨h5, h6, h7⟩ := h4 hall
    obtain ⟨st2, h8, h9⟩ := generateIcoFile_ok env hall r.sys svgContent _ hw
    rw [h8]
    simp only [Tally.count, if_true, h5, h6, h9, List.length_cons, h7, hf1, List.head?_cons]
    simp

/-- The instance of C8 at an environment in which nothing fails. -/
theorem generateThemeIcons_counts_witness :
    Env.quiet.NoMkdirFails ∧
    ∃ t, generateThemeIcons Env.quiet Sys.initial "<svg/>".toList "void-black" = Except.ok t ∧
      t.generated + t.failed = 49 :=
  have hmk : Env.quiet.NoMkdirFails := fun _ => rfl
  ⟨hmk, (generateThemeIcons_counts Env.quiet Sys.initial "<svg/>".toList "void-black" hmk).imp
    (fun _ h => ⟨h.1, h.2.1⟩)⟩

theorem generateLogo_eq (env : Env) (st : Sys) (buffer : List Char) (path : Path)
    (d : LogoSize) (format : String) :
    generateLogo env st buffer path d format =
      encodeToFile env st buffer path (if d.hasWidth then d.width else none)
        (if d.hasWidth then none else d.height) format := by
  unfold generateLogo
  split <;> simp [*]

theorem logoLoop_eq_pairs (env : Env) (buffer : List Char) (dir : Path)
    (sizes : List LogoSize) (formats : List String) (t : Tally) :
    logoLoop env buffer dir sizes formats t =
      (sizeFormatPairs sizes formats).foldl (fun t p =>
        t.count (encodeToFile env t.sys buffer (dir ++ [p.1.name])
          (if p.1.hasWidth then p.1.width else none)
          (if p.1.hasWidth then none else p.1.height) p.2)) t := by
  unfold logoLoop
  simp only [generateLogo_eq]
  exact nestedFold_eq_pairs (fun (t : Tally) (p : LogoSize × String) =>
    t.count (encodeToFile env t.sys buffer (dir ++ [p.1.name])
      (if p.1.hasWidth then p.1.width else none)
      (if p.1.hasWidth then none else p.1.height) p.2)) sizes formats t

theorem logoLoop_total (env : Env) (buffer : List Char) (dir : Path) (sizes : List LogoSize)
    (formats : List String) (t : Tally) :
    (logoLoop env buffer dir sizes formats t).generated +
      (logoLoop env buffer dir sizes formats t).failed =
      t.generated + t.failed + sizes.length * formats.length := by
  rw [logoLoop_eq_pairs, countFold_total, length_sizeFormatPairs]

/-- One orientation: nothing for a content that is not truthy, every pair
generated and written otherwise, when no call fails. -/
theorem logoOrientation_ok (env : Env) (hmk : env.NoMkdirFails) (hall : env.NoCallFails)
    (content : Option (List Char)) (dir : Path) (sizes : List LogoSize) (t : Tally) :
    ∃ r, logoOrientation env content dir sizes t = Except.ok r ∧ r.failed = t.failed ∧
      r.generated = t.generated + (if truthyContent content then sizes.length * 3 else 0) ∧
      r.sys.files = (if truthyContent content then
          (targetFiles LogoSize.name dir sizes CONFIG.logoFormats).reverse else []) ++
        t.sys.files := by
  unfold logoOrientation
  by_cases hc : truthyContent content = true
  · obtain ⟨st1, h1, -, hf⟩ := ensureDirectoryExists_ok env t.sys dir hmk
    have h := encodeFold_ok env hall (content.getD []) dir LogoSize.name
      (fun d => if d.hasWidth then d.width else none)
      (fun d => if d.hasWidth then none else d.height)
      (sizeFormatPairs sizes CONFIG.logoFormats)
      (knownFormat_pairs sizes _ logoFormats_known) ⟨t.generated, t.failed, st1⟩
    obtain ⟨h2, h3, h4, -⟩ := h
    refine ⟨logoLoop env (content.getD []) dir sizes CONFIG.logoFormats
      ⟨t.generated, t.failed, st1⟩, by simp only [hc, if_true, h1], ?_, ?_, ?_⟩
    · rw [logoLoop_eq_pairs]; exact h3
    · rw [logoLoop_eq_pairs, h2, length_sizeFormatPairs]
      simp [hc, CONFIG.logoFormats]
    · rw [logoLoop_eq_pairs, h4, hf]
      simp [hc, targetFiles]
  · exact ⟨t, by simp [hc], rfl, by simp [hc], by simp [hc]⟩

theorem generateThemeLogos_ok (env : Env) (st : Sys)
    (horizontal vertical : Option (List Char)) (themeName : String)
    (hmk : env.NoMkdirFails) (hall : env.NoCallFails) :
    ∃ t, generateThemeLogos env st horizontal vertical themeName = Except.ok t ∧
      t.failed = 0 ∧
      t.generated = 12 * ((if truthyContent horizontal then 1 else 0) +
        (if truthyContent vertical then 1 else 0)) ∧
      t.sys.files =
        (if truthyContent vertical then
          (targetFiles LogoSize.name [themeName, "logos", "vertical"] CONFIG.logoSizes.vertical
            CONFIG.logoFormats).reverse else []) ++
        ((if truthyContent horizontal then
          (targetFiles LogoSize.name [themeName, "logos", "horizontal"]
            CONFIG.logoSizes.horizontal CONFIG.logoFormats).reverse else []) ++ st.files) ∧
      (targetFiles LogoSize.name [themeName, "logos", "horizontal"] CONFIG.logoSizes.horizontal
        CONFIG.logoFormats).length = 12 ∧
      (targetFiles LogoSize.name [themeName, "logos", "vertical"] CONFIG.logoSizes.vertical
        CONFIG.logoFormats).length = 12 := by
  obtain ⟨st1, h1, -, hf1⟩ := ensureDirectoryExists_ok env st [themeName, "logos"] hmk
  obtain ⟨r1, h2, h3, h4, h5⟩ := logoOrientation_ok env hmk hall horizontal
    [themeName, "logos", "horizontal"] CONFIG.logoSizes.horizontal ⟨0, 0, st1⟩
  obtain ⟨r2, h6, h7, h8, h9⟩ := logoOrientation_ok env hmk hall vertical
    [themeName, "logos", "vertical"] CONFIG.logoSizes.vertical r1
  refine ⟨r2, by simp only [generateThemeLogos, h1, h2, h6], by rw [h7, h3], ?_, ?_, rfl, rfl⟩
  · rw [h8, h4]
    simp only [CONFIG.logoSizes.horizontal, CONFIG.logoSizes.vertical, List.length_cons,
      List.length_nil]
    split <;> split <;> simp
  · rw [h9, h5, hf1]

/-- C9: when the directories can be made and no encoder call fails,
`generateThemeLogos` returns with `failed = 0` and `generated` equal to 12 times
the number of orientations whose recoloured content is present (a non-empty
string); it has written the 4 x 3 = 12 files of each present orientation and
none for an absent one. -/
theorem generateThemeLogos_counts (env : Env) (st : Sys)
    (horizontal vertical : Option (List Char)) (themeName : String)
    (hmk : env.NoMkdirFails) (hall : env.NoCallFails) :
    ∃ t, generateThemeLogos env st horizontal vertical themeName = Except.ok t ∧
      t.failed = 0 ∧
      t.generated = 12 * ((if truthyContent horizontal then 1 else 0) +
        (if truthyContent vertical then 1 else 0)) ∧
      t.sys.files =
        (if truthyContent vertical then
          (targetFiles LogoSize.name [themeName, "logos", "vertical"] CONFIG.logoSizes.vertical
            CONFIG.logoFormats).reverse else []) ++
        ((if truthyContent horizontal then
          (targetFiles LogoSize.name [themeName, "logos", "horizontal"]
            CONFIG.logoSizes.horizontal CONFIG.logoFormats).reverse else []) ++ st.files) ∧
      (targetFiles LogoSize.name [themeName, "logos", "horizontal"] CONFIG.logoSizes.horizontal
        CONFIG.logoFormats).length = 12 ∧
      (targetFiles LogoSize.name [themeName, "logos", "vertical"] CONFIG.logoSizes.vertical
        CONFIG.logoFormats).length = 12 :=
  generateThemeLogos_ok env st horizontal vertical themeName hmk hall

/-- The instance of C9 at an environment in which nothing fails, with the
horizontal content present and the vertical content absent. -/
theorem generateThemeLogos_counts_witness :
    Env.quiet.NoMkdirFails ∧ Env.quiet.NoCallFails ∧
    (∃ t, generateThemeLogos Env.quiet Sys.initial (some "<svg/>".toList) none "void-black" =
        Except.ok t ∧ t.failed = 0) ∧
    (generateThemeLogos Env.quiet Sys.initial (some "<svg/>".toList) none "void-black").map
      (fun t => (t.generated, t.failed, t.sys.files.length)) = Except.ok (12, 0, 12) :=
  have hmk : Env.quiet.NoMkdirFails := fun _ => rfl
  have hall : Env.quiet.NoCallFails := fun _ _ => rfl
  ⟨hmk, hall,
    (generateThemeLogos_counts Env.quiet Sys.initial (some "<svg/>".toList) none "void-black"
      hmk hall).imp (fun _ h => ⟨h.1, h.2.1⟩),
    rfl⟩

/-! ### Where a builder writes -/

theorem encodeToFile_cases (env : Env) (st : Sys) (input : List Char) (path : Path)
    (w h : Option Nat) (format : String) :
    (knownFormat format = false ∧ encodeToFile env st input path w h format = (false, st)) ∨
    (knownFormat format = true ∧
      env.callFails st.calls.length (Call.toFile input (addExt path format) w h format) = true ∧
      encodeToFile env st input path w h format =
        (false, { st with calls := Call.toFile input (addExt path format) w h format ::
          st.calls })) ∨
    (knownFormat format = true ∧
      env.callFails st.calls.length (Call.toFile input (addExt path format) w h format) = false ∧
      encodeToFile env st input path w h format =
        (true, { st with calls := Call.toFile input (addExt path format) w h format :: st.calls,
                         files := addExt path format :: st.files })) := by
  by_cases hk : format = "png" ∨ format = "webp" ∨ format = "avif"
  · have hk2 : knownFormat format = true := by simpa [knownFormat] using hk
    cases hf : env.callFails st.calls.length
        (Call.toFile input (addExt path format) w h format) with
    | true => exact Or.inr (Or.inl ⟨hk2, rfl, by simp [encodeToFile, libraryCall, hk, hf]⟩)
    | false => exact Or.inr (Or.inr ⟨hk2, rfl, by simp [encodeToFile, libraryCall, hk, hf]⟩)
  · have hk2 : knownFormat format = false := by simpa [knownFormat] using hk
    exact Or.inl ⟨hk2, by simp [encodeToFile, hk]⟩

theorem encodeToFile_avoids (env : Env) (dir : Path) (st : Sys) (input : List Char)
    (path : Path) (w h : Option Nat) (format : String)
    (hp : dir.isPrefixOf (addExt path format) = false) (hst : st.Avoids dir) :
    (encodeToFile env st input path w h format).2.Avoids dir := by
  have hcalls : ∀ c ∈ Call.toFile input (addExt path format) w h format :: st.calls,
      ∀ target, c.target? = some target → dir.isPrefixOf target = false := by
    intro c hc target ht
    rcases List.mem_cons.mp hc with rfl | hc
    · simp [Call.target?] at ht; rw [← ht]; exact hp
    · exact hst.2 c hc target ht
  rcases encodeToFile_cases env st input path w h format with ⟨-, h1⟩ | ⟨-, -, h1⟩ | ⟨-, -, h1⟩
  · rw [h1]; exact hst
  · rw [h1]; exact ⟨hst.1, hcalls⟩
  · rw [h1]
    refine ⟨?_, hcalls⟩
    intro p hpm
    rcases List.mem_cons.mp hpm with rfl | hpm
    · exact hp
    · exact hst.1 p hpm

theorem countFold_avoids {α : Type} (dir : Path) (f : Tally → α → Bool × Sys) (l : List α)
    (hf : ∀ t a, a ∈ l → t.sys.Avoids dir → (f t a).2.Avoids dir) :
    ∀ t : Tally, t.sys.Avoids dir →
      (l.foldl (fun t a => t.count (f t a)) t).sys.Avoids dir := by
  induction l with
  | nil => intro t ht; exact ht
  | cons a l ih =>
    intro t ht
    rw [List.foldl_cons]
    apply ih (fun t b hb => hf t b (List.mem_cons_of_mem _ hb))
    rw [Tally.count_sys]
    exact hf t a (List.mem_cons_self _ _) ht

theorem ensureDirectoryExists_avoids (env : Env) (dir : Path) (st st1 : Sys) (p : Path)
    (h : ensureDirectoryExists env st p = Except.ok st1) (hst : st.Avoids dir) :
    st1.Avoids dir := by
  obtain ⟨h1, h2⟩ := ensureDirectoryExists_calls env st st1 p h
  unfold Sys.Avoids
  rw [h1, h2]
  exact hst

theorem libraryCall_avoids (env : Env) (dir : Path) (st : Sys) (c : Call)
    (hc : c.target? = none) (hst : st.Avoids dir) : (libraryCall env st c).2.Avoids dir := by
  refine ⟨hst.1, ?_⟩
  intro c2 hc2 target ht
  rcases List.mem_cons.mp hc2 with rfl | hc2
  · rw [hc] at ht; cases ht
  · exact hst.2 c2 hc2 target ht

theorem icoBuffers_avoids (env : Env) (dir : Path) (input : List Char) :
    ∀ (sizes : List Nat) (st : Sys), st.Avoids dir →
      (icoBuffers env input sizes st).2.Avoids dir ∧
      (icoBuffers env input sizes st).2.files = st.files := by
  intro sizes
  induction sizes with
  | nil => intro st hst; exact ⟨hst, rfl⟩
  | cons n sizes ih =>
    intro st hst
    have h1 := libraryCall_avoids env dir st (Call.toBuffer input n) rfl hst
    have h2 := ih (libraryCall env st (Call.toBuffer input n)).2 h1
    unfold icoBuffers
    cases hf : env.callFails st.calls.length (Call.toBuffer input n) with
    | true => simp only [libraryCall, hf]; exact ⟨by simpa [libraryCall] using h1, rfl⟩
    | false =>
      simp only [libraryCall, hf, Bool.not_false, if_true] at h2 ⊢
      split
      · rename_i bs st2 heq
        rw [heq] at h2
        exact h2
      · rename_i st2 heq
        rw [heq] at h2
        exact h2

theorem generateIcoFile_avoids (env : Env) (dir : Path) (st : Sys) (input : List Char)
    (path : Path) (hp : dir.isPrefixOf path = false) (hst : st.Avoids dir) :
    (generateIcoFile env st input path).2.Avoids dir := by
  have h1 := (icoBuffers_avoids env dir input CONFIG.icoSizes st hst).1
  unfold generateIcoFile
  split
  · rename_i st1 heq
    rw [heq] at h1
    exact h1
  · rename_i bs st1 heq
    rw [heq] at h1
    have h2 := libraryCall_avoids env dir st1 (Call.pngToIco bs) rfl h1
    cases hf : env.callFails st1.calls.length (Call.pngToIco bs) with
    | true => simpa [libraryCall, hf] using h2
    | false =>
      simp only [libraryCall, hf, Bool.not_false, if_true] at h2 ⊢
      split
      · exact h2
      · refine ⟨?_, h2.2⟩
        intro p hpm
        rcases List.mem_cons.mp hpm with rfl | hpm
        · exact hp
        · exact h2.1 p hpm

theorem categoryLoop_avoids (env : Env) (dir : Path) (svgBuffer : List Char)
    (categoryDir : Path) (sizes : List IconSize) (formats : List String)
    (hp : ∀ name format, dir.isPrefixOf (addExt (categoryDir ++ [name]) format) = false)
    (t : Tally) (ht : t.sys.Avoids dir) :
    (categoryLoop env svgBuffer categoryDir sizes formats t).sys.Avoids dir := by
  rw [categoryLoop_eq_pairs]
  exact countFold_avoids dir
    (fun (t : Tally) (p : IconSize × String) =>
      generateIcon env t.sys svgBuffer (categoryDir ++ [p.1.name]) p.1.size p.2) _
    (fun t p _ h => encodeToFile_avoids env dir t.sys _ _ _ _ _ (hp _ _) h) t ht

theorem categoriesLoop_avoids (env : Env) (dir : Path) (svgBuffer : List Char)
    (iconsDir : Path)
    (hp : ∀ category name format,
      dir.isPrefixOf (addExt (iconsDir ++ [category] ++ [name]) format) = false) :
    ∀ (cats : List (String × List IconSize)) (t r : Tally),
      categoriesLoop env svgBuffer iconsDir cats t = Except.ok r → t.sys.Avoids dir →
      r.sys.Avoids dir := by
  intro cats
  induction cats with
  | nil => intro t r h ht; cases h; exact ht
  | cons c cats ih =>
    intro t r h ht
    obtain ⟨category, sizes⟩ := c
    unfold categoriesLoop generateCategoryIcons at h
    cases hd : ensureDirectoryExists env t.sys (iconsDir ++ [category]) with
    | error e => simp [hd] at h
    | ok st1 =>
      simp only [hd] at h
      exact ih _ r h (categoryLoop_avoids env dir svgBuffer _ sizes _ (hp category) _
        (ensureDirectoryExists_avoids env dir t.sys st1 _ hd ht))

theorem generateThemeIcons_avoids (env : Env) (dir : Path) (st : Sys) (svgContent : List Char)
    (themeName : String) (t : Tally)
    (hp : ∀ category name format,
      dir.isPrefixOf (addExt ([themeName, "icons"] ++ [category] ++ [name]) format) = false)
    (hico : dir.isPrefixOf [themeName, "icons", "favicons", "favicon.ico"] = false)
    (h : generateThemeIcons env st svgContent themeName = Except.ok t) (hst : st.Avoids dir) :
    t.sys.Avoids dir := by
  unfold generateThemeIcons at h
  cases hd : ensureDirectoryExists env st [themeName, "icons"] with
  | error e => simp [hd] at h
  | ok st1 =>
    simp only [hd] at h
    cases hc : categoriesLoop env svgContent [themeName, "icons"] CONFIG.iconSizes
        ⟨0, 0, st1⟩ with
    | error e => simp [hc] at h
    | ok r =>
      simp only [hc] at h
      cases h
      rw [Tally.count_sys]
      exact generateIcoFile_avoids env dir r.sys svgContent _ hico
        (categoriesLoop_avoids env dir svgContent _ hp _ _ r hc
          (ensureDirectoryExists_avoids env dir st st1 _ hd hst))

theorem logoLoop_avoids (env : Env) (dir : Path) (buffer : List Char) (logoDir : Path)
    (sizes : List LogoSize) (formats : List String)
    (hp : ∀ name format, dir.isPrefixOf (addExt (logoDir ++ [name]) format) = false)
    (t : Tally) (ht : t.sys.Avoids dir) :
    (logoLoop env buffer logoDir sizes formats t).sys.Avoids dir := by
  rw [logoLoop_eq_pairs]
  exact countFold_avoids dir
    (fun (t : Tally) (p : LogoSize × String) =>
      encodeToFile env t.sys buffer (logoDir ++ [p.1.name])
        (if p.1.hasWidth then p.1.width else none)
        (if p.1.hasWidth then none else p.1.height) p.2) _
    (fun t p _ h => encodeToFile_avoids env dir t.sys _ _ _ _ _ (hp _ _) h) t ht

/-- One orientation, whatever fails: it returns when the directory can be made
and counts every pair of a present content. -/
theorem logoOrientation_total (env : Env) (hmk : env.NoMkdirFails)
    (content : Option (List Char)) (dir : Path) (sizes : List LogoSize) (t : Tally) :
    ∃ r, logoOrientation env content dir sizes t = Except.ok r ∧
      r.generated + r.failed =
        t.generated + t.failed + (if truthyContent content then sizes.length * 3 else 0) ∧
      ∀ avoid : Path,
        (∀ name format, avoid.isPrefixOf (addExt (dir ++ [name]) format) = false) →
        t.sys.Avoids avoid → r.sys.Avoids avoid := by
  unfold logoOrientation
  by_cases hc : truthyContent content = true
  · obtain ⟨st1, h1, -, -⟩ := ensureDirectoryExists_ok env t.sys dir hmk
    refine ⟨logoLoop env (content.getD []) dir sizes CONFIG.logoFormats
      ⟨t.generated, t.failed, st1⟩, by simp only [hc, if_true, h1], ?_, ?_⟩
    · rw [logoLoop_total]
      simp [hc, CONFIG.logoFormats]
    · intro avoid hp ht
      exact logoLoop_avoids env avoid _ dir sizes _ hp _
        (ensureDirectoryExists_avoids env avoid t.sys st1 _ h1 ht)
  · exact ⟨t, by simp [hc], by simp [hc], fun _ _ ht => ht⟩

/-- The logo builder, whatever fails: 12 attempts for each present orientation,
and nothing aimed at the directory of an absent vertical orientation. -/
theorem generateThemeLogos_total (env : Env) (hmk : env.NoMkdirFails) (st : Sys)
    (horizontal vertical : Option (List Char)) (themeName : String) :
    ∃ t, generateThemeLogos env st horizontal vertical themeName = Except.ok t ∧
      t.generated + t.failed = (if truthyContent horizontal then 12 else 0) +
        (if truthyContent vertical then 12 else 0) ∧
      (truthyContent vertical = false →
        st.Avoids [themeName, "logos", "vertical"] →
        t.sys.Avoids [themeName, "logos", "vertical"]) := by
  obtain ⟨st1, h1, -, -⟩ := ensureDirectoryExists_ok env st [themeName, "logos"] hmk
  obtain ⟨r1, h2, h3, h4⟩ := logoOrientation_total env hmk horizontal
    [themeName, "logos", "horizontal"] CONFIG.logoSizes.horizontal ⟨0, 0, st1⟩
  obtain ⟨r2, h5, h6, -⟩ := logoOrientation_total env hmk vertical
    [themeName, "logos", "vertical"] CONFIG.logoSizes.vertical r1
  refine ⟨r2, by simp only [generateThemeLogos, h1, h2, h5], ?_, ?_⟩
  · have e1 : CONFIG.logoSizes.horizontal.length * 3 = 12 := rfl
    have e2 : CONFIG.logoSizes.vertical.length * 3 = 12 := rfl
    rw [e1] at h3
    rw [e2] at h6
    rw [h6, h3]
    simp
  · intro hv hst
    have hr1 := h4 [themeName, "logos", "vertical"]
      (by intro name format; simp [addExt, List.isPrefixOf])
      (ensureDirectoryExists_avoids env _ st st1 _ h1 hst)
    have : r2 = r1 := by
      have h7 : logoOrientation env vertical [themeName, "logos", "vertical"]
          CONFIG.logoSizes.vertical r1 = Except.ok r1 := by
        simp [logoOrientation, hv]
      rw [h7] at h5
      exact (Except.ok.inj h5).symm
    rw [this]
    exact hr1

/-! ### One theme iteration of `main` -/

theorem targetText_eq_nil (segs : List Segment) (h : targetText segs = []) :
    sourceText segs = [] := by
  induction segs with
  | nil => rfl
  | cons g segs ih =>
    simp only [targetText, List.append_eq_nil] at h
    cases g with
    | keep u =>
      simp only [Segment.target] at h
      simp [sourceText, Segment.source, h.1, ih h.2]
    | rule C v x =>
      exfalso
      obtain ⟨T2, hT2⟩ := ruleTemplate_cons C v
      simp [Segment.target, hT2] at h

/-- Recolouring a non-empty master gives a non-empty text. -/
theorem recolorPasses_ne_nil (m : ColorMap) (hm : WellFormed m) (s : List Char) (hs : s ≠ []) :
    recolorPasses m s ≠ [] := by
  obtain ⟨segs, -, hsrc, htgt⟩ := replaceColors_segments m hm s
  rw [replaceColors_eq_passes m s hm.plain] at htgt
  intro h
  rw [Except.ok.inj htgt] at h
  exact hs (by rw [← hsrc, targetText_eq_nil segs h])

theorem truthy_recolored (env : Env) (T : Theme) (hwf : WellFormed T.colors) (f : String) :
    truthyContent (recolored env T f) =
      (env.masterExists f && !(env.masterContent f).isEmpty) := by
  unfold recolored
  cases he : env.masterExists f with
  | false => simp [truthyContent]
  | true =>
    cases hc : env.masterContent f with
    | nil => simp [truthyContent, recolorPasses_nil]
    | cons c s =>
      have := recolorPasses_ne_nil T.colors hwf (c :: s) (by simp)
      cases hr : recolorPasses T.colors (c :: s) with
      | nil => exact absurd hr this
      | cons d r => simp [truthyContent]

theorem generateColorVariation_ok (env : Env) (st : Sys) (f themeName : String) (T : Theme)
    (hwf : WellFormed T.colors) (hsvg : env.SvgStepsWork themeName) :
    ∃ st1, generateColorVariation env st f themeName T =
        Except.ok ((env.masterExists f, recolored env T f), st1) ∧
      st1.calls = st.calls ∧
      st1.files = (if env.masterExists f then [[themeName, f]] else []) ++ st.files := by
  unfold generateColorVariation recolored
  cases he : env.masterExists f with
  | false => exact ⟨st, by simp, rfl, by simp⟩
  | true =>
    obtain ⟨st1, h1, h2, h3⟩ := ensureDirectoryExists_ok env st [themeName] hsvg.2.1
    refine ⟨{ st1 with files := [themeName, f] :: st1.files }, ?_, h2, by simp [h3]⟩
    simp [hsvg.1 f, replaceColors_eq_passes _ _ hwf.plain, h1, hsvg.2.2 f]

theorem store_horizontal (c : ThemeContents) (x : Option (List Char)) :
    c.store "phantom-horizontal-master.svg" x = { c with horizontal := x } := rfl

theorem store_vertical (c : ThemeContents) (x : Option (List Char)) :
    c.store "phantom-vertical-master.svg" x = { c with vertical := x } := rfl

theorem store_icon (c : ThemeContents) (x : Option (List Char)) :
    c.store "phantom-icon-master.svg" x = { c with icon := x } := rfl

theorem recolored_absent (env : Env) (T : Theme) (f : String) (h : env.masterExists f = false) :
    recolored env T f = none := by
  simp [recolored, h]

/-- The loop over the three master files, when no file-system step fails. -/
theorem svgLoop_ok (env : Env) (tot : Totals) (st : Sys) (themeName : String) (T : Theme)
    (hwf : WellFormed T.colors) (hsvg : env.SvgStepsWork themeName) :
    ∃ tot1 st1, svgLoop env themeName T CONFIG.masterFiles (tot, ⟨none, none, none⟩, st) =
        Except.ok (tot1, ⟨recolored env T "phantom-icon-master.svg",
          recolored env T "phantom-horizontal-master.svg",
          recolored env T "phantom-vertical-master.svg"⟩, st1) ∧
      tot1.svgGenerated = tot.svgGenerated + presentMasters env ∧
      tot1.svgSkipped = tot.svgSkipped + (3 - presentMasters env) ∧
      tot1.iconsGenerated = tot.iconsGenerated ∧ tot1.iconsFailed = tot.iconsFailed ∧
      tot1.logosGenerated = tot.logosGenerated ∧ tot1.logosFailed = tot.logosFailed ∧
      st1.calls = st.calls ∧
      ∀ p ∈ st1.files, p ∈ st.files ∨ ∃ f, p = [themeName, f] := by
  obtain ⟨s1, g1, c1, f1⟩ :=
    generateColorVariation_ok env st "phantom-horizontal-master.svg" themeName T hwf hsvg
  obtain ⟨s2, g2, c2, f2⟩ :=
    generateColorVariation_ok env s1 "phantom-vertical-master.svg" themeName T hwf hsvg
  obtain ⟨s3, g3, c3, f3⟩ :=
    generateColorVariation_ok env s2 "phantom-icon-master.svg" themeName T hwf hsvg
  have hfiles : ∀ p ∈ s3.files, p ∈ st.files ∨ ∃ f, p = [themeName, f] := by
    intro p hp
    rw [f3, f2, f1] at hp
    simp only [List.mem_append] at hp
    rcases hp with hp | hp | hp | hp
    · right; split at hp
      · exact ⟨_, by simpa using hp⟩
      · simp at hp
    · right; split at hp
      · exact ⟨_, by simpa using hp⟩
      · simp at hp
    · right; split at hp
      · exact ⟨_, by simpa using hp⟩
      · simp at hp
    · exact Or.inl hp
  simp only [CONFIG.masterFiles, svgLoop, g1]
  cases h1 : env.masterExists "phantom-horizontal-master.svg" <;>
  simp only [Bool.false_eq_true, if_false, if_true, g2] <;>
  cases h2 : env.masterExists "phantom-vertical-master.svg" <;>
  simp only [Bool.false_eq_true, if_false, if_true, g3] <;>
  cases h3 : env.masterExists "phantom-icon-master.svg" <;>
  simp only [Bool.false_eq_true, if_false, if_true, store_horizontal, store_vertical,
    store_icon, recolored_absent, h1, h2, h3] <;>
  refine ⟨_, s3, rfl, ?_, ?_, rfl, rfl, rfl, rfl, by rw [c3, c2, c1], hfiles⟩ <;>
  simp [presentMasters, CONFIG.masterFiles, h1, h2, h3]

/-- One theme iteration, when no file-system step fails and whatever the
image-library calls do: it returns; the SVG counters count the master files
that exist and those that do not; the icon counters grow by 49 when the icon
master exists and is not empty and by 0 otherwise; the logo counters grow by 12
for each orientation whose master exists and is not empty; nothing is aimed at
the vertical directory when the vertical master is missing or empty. -/
theorem themeIteration_ok (env : Env) (tot : Totals) (st : Sys) (themeName : String)
    (T : Theme) (hwf : WellFormed T.colors) (hsvg : env.SvgStepsWork themeName) :
    ∃ tot2 st2, themeIteration env tot st themeName T = Except.ok (tot2, st2) ∧
      tot2.svgGenerated = tot.svgGenerated + presentMasters env ∧
      tot2.svgSkipped = tot.svgSkipped + (3 - presentMasters env) ∧
      tot2.iconsGenerated + tot2.iconsFailed = tot.iconsGenerated + tot.iconsFailed +
        (if masterUsable env "phantom-icon-master.svg" then 49 else 0) ∧
      tot2.logosGenerated + tot2.logosFailed = tot.logosGenerated + tot.logosFailed +
        ((if masterUsable env "phantom-horizontal-master.svg" then 12 else 0) +
         (if masterUsable env "phantom-vertical-master.svg" then 12 else 0)) ∧
      (masterUsable env "phantom-vertical-master.svg" = false →
        st.Avoids (verticalDir themeName) → st2.Avoids (verticalDir themeName)) := by
  obtain ⟨tot1, st1, h1, a1, a2, a3, a4, a5, a6, hcalls, hfiles⟩ :=
    svgLoop_ok env tot st themeName T hwf hsvg
  have hI := truthy_recolored env T hwf "phantom-icon-master.svg"
  have hH := truthy_recolored env T hwf "phantom-horizontal-master.svg"
  have hV := truthy_recolored env T hwf "phantom-vertical-master.svg"
  have hav1 : st.Avoids (verticalDir themeName) → st1.Avoids (verticalDir themeName) := by
    intro hst
    refine ⟨?_, by rw [hcalls]; exact hst.2⟩
    intro p hp
    rcases hfiles p hp with hp | ⟨f, rfl⟩
    · exact hst.1 p hp
    · simp [verticalDir, List.isPrefixOf]
  -- the icon step
  have hicon : ∃ tot2 st2, iconStep env themeName
      ⟨recolored env T "phantom-icon-master.svg", recolored env T "phantom-horizontal-master.svg",
        recolored env T "phantom-vertical-master.svg"⟩ tot1 st1 = Except.ok (tot2, st2) ∧
      tot2.svgGenerated = tot1.svgGenerated ∧ tot2.svgSkipped = tot1.svgSkipped ∧
      tot2.iconsGenerated + tot2.iconsFailed = tot1.iconsGenerated + tot1.iconsFailed +
        (if masterUsable env "phantom-icon-master.svg" then 49 else 0) ∧
      tot2.logosGenerated = tot1.logosGenerated ∧ tot2.logosFailed = tot1.logosFailed ∧
      (st1.Avoids (verticalDir themeName) → st2.Avoids (verticalDir themeName)) := by
    unfold iconStep
    simp only [hI, masterUsable]
    by_cases hu : (env.masterExists "phantom-icon-master.svg" &&
        !(env.masterContent "phantom-icon-master.svg").isEmpty) = true
    · obtain ⟨t, g1, g2, -⟩ := generateThemeIcons_counts env st1
        ((recolored env T "phantom-icon-master.svg").getD []) themeName hsvg.2.1
      refine ⟨{ tot1 with iconsGenerated := tot1.iconsGenerated + t.generated,
                           iconsFailed := tot1.iconsFailed + t.failed }, t.sys,
        by simp only [hu, if_true, g1], rfl, rfl, ?_, rfl, rfl, ?_⟩
      · simp only [hu, if_true]; omega
      · intro hst
        exact generateThemeIcons_avoids env _ st1 _ themeName t
          (by intro c n f; simp [verticalDir, addExt, List.isPrefixOf])
          (by simp [verticalDir, List.isPrefixOf]) g1 hst
    · exact ⟨tot1, st1, by simp only [hu]; rfl, rfl, rfl, by simp only [hu]; rfl, rfl, rfl,
        fun h => h⟩
  obtain ⟨tot2, st2, h2, b1, b2, b3, b4, b5, hav2⟩ := hicon
  -- the logo step
  have hlogo : ∃ tot3 st3, logoStep env themeName
      ⟨recolored env T "phantom-icon-master.svg", recolored env T "phantom-horizontal-master.svg",
        recolored env T "phantom-vertical-master.svg"⟩ tot2 st2 = Except.ok (tot3, st3) ∧
      tot3.svgGenerated = tot2.svgGenerated ∧ tot3.svgSkipped = tot2.svgSkipped ∧
      tot3.iconsGenerated = tot2.iconsGenerated ∧ tot3.iconsFailed = tot2.iconsFailed ∧
      tot3.logosGenerated + tot3.logosFailed = tot2.logosGenerated + tot2.logosFailed +
        ((if masterUsable env "phantom-horizontal-master.svg" then 12 else 0) +
         (if masterUsable env "phantom-vertical-master.svg" then 12 else 0)) ∧
      (masterUsable env "phantom-vertical-master.svg" = false →
        st2.Avoids (verticalDir themeName) → st3.Avoids (verticalDir themeName)) := by
    unfold logoStep
    simp only
    by_cases hu : (truthyContent (recolored env T "phantom-horizontal-master.svg") ||
        truthyContent (recolored env T "phantom-vertical-master.svg")) = true
    · obtain ⟨t, g1, g2, g3⟩ := generateThemeLogos_total env hsvg.2.1 st2
        (recolored env T "phantom-horizontal-master.svg")
        (recolored env T "phantom-vertical-master.svg") themeName
      refine ⟨{ tot2 with logosGenerated := tot2.logosGenerated + t.generated,
                           logosFailed := tot2.logosFailed + t.failed }, t.sys,
        by simp only [hu, if_true, g1], rfl, rfl, rfl, rfl, ?_, ?_⟩
      · rw [hH, hV] at g2
        simp only [masterUsable]
        omega
      · intro hv hst
        exact g3 (by rw [hV]; exact hv) hst
    · have hu2 := hu
      simp only [Bool.or_eq_true, not_or, Bool.not_eq_true] at hu2
      rw [hH, hV] at hu2
      refine ⟨tot2, st2, by simp only [hu]; rfl, rfl, rfl, rfl, rfl, ?_, fun _ h => h⟩
      simp [masterUsable, hu2.1, hu2.2]
  obtain ⟨tot3, st3, h3, d1, d2, d3, d4, d5, hav3⟩ := hlogo
  refine ⟨tot3, st3, by simp only [themeIteration, h1, h2, h3], by omega, by omega, by omega,
    by omega, fun hv hst => hav3 hv (hav2 (hav1 hst))⟩

/-! ### Claims about `main` -/

theorem catalog_theme_wellFormed (themeName : String) (T : Theme)
    (hT : (themeName, T) ∈ COLOR_THEMES) : WellFormed T.colors :=
  (catalog_wellFormed (themeName, T) hT).1

/-- C11: in a theme iteration where the vertical master file is absent, the
horizontal and icon masters exist and are not empty, and no file-system step
fails, the SVG skip count grows by exactly 1 and the SVG generated count by
exactly 2; the icon counters grow by 49 and the logo counters by 12 (the
horizontal attempts), as they do for these two masters when all three are
present; no file is written to and no encoder call is aimed at the vertical logo
directory. -/
theorem themeIteration_vertical_absent (env : Env) (tot : Totals) (st : Sys)
    (themeName : String) (T : Theme) (hT : (themeName, T) ∈ COLOR_THEMES)
    (hsvg : env.SvgStepsWork themeName)
    (hV : env.masterExists "phantom-vertical-master.svg" = false)
    (hH : masterUsable env "phantom-horizontal-master.svg" = true)
    (hI : masterUsable env "phantom-icon-master.svg" = true) :
    ∃ tot2 st2, themeIteration env tot st themeName T = Except.ok (tot2, st2) ∧
      tot2.svgSkipped = tot.svgSkipped + 1 ∧
      tot2.svgGenerated = tot.svgGenerated + 2 ∧
      tot2.iconsGenerated + tot2.iconsFailed = tot.iconsGenerated + tot.iconsFailed + 49 ∧
      tot2.logosGenerated + tot2.logosFailed = tot.logosGenerated + tot.logosFailed + 12 ∧
      (st.Avoids (verticalDir themeName) → st2.Avoids (verticalDir themeName)) := by
  obtain ⟨tot2, st2, h1, h2, h3, h4, h5, h6⟩ :=
    themeIteration_ok env tot st themeName T (catalog_theme_wellFormed themeName T hT) hsvg
  have hVu : masterUsable env "phantom-vertical-master.svg" = false := by
    simp [masterUsable, hV]
  have hHe : env.masterExists "phantom-horizontal-master.svg" = true := by
    simp [masterUsable] at hH; exact hH.1
  have hIe : env.masterExists "phantom-icon-master.svg" = true := by
    simp [masterUsable] at hI; exact hI.1
  have hp : presentMasters env = 2 := by
    simp [presentMasters, CONFIG.masterFiles, List.filter, hV, hHe, hIe]
  rw [hp] at h2 h3
  rw [hI] at h4
  rw [hH, hVu] at h5
  exact ⟨tot2, st2, h1, h3, h2, by simpa using h4, by simpa using h5, h6 hVu⟩

/-- The instance of C11 at the theme `void-black`. -/
theorem themeIteration_vertical_absent_witness :
    ("void-black", themeNamed "void-black") ∈ COLOR_THEMES ∧
    Env.noVertical.SvgStepsWork "void-black" ∧
    Env.noVertical.masterExists "phantom-vertical-master.svg" = false ∧
    masterUsable Env.noVertical "phantom-horizontal-master.svg" = true ∧
    masterUsable Env.noVertical "phantom-icon-master.svg" = true ∧
    (∃ tot2 st2, themeIteration Env.noVertical ⟨0, 0, 0, 0, 0, 0⟩ Sys.initial "void-black"
        (themeNamed "void-black") = Except.ok (tot2, st2) ∧
      tot2.svgSkipped = 0 + 1 ∧ tot2.svgGenerated = 0 + 2) ∧
    (themeIteration Env.noVertical ⟨0, 0, 0, 0, 0, 0⟩ Sys.initial "void-black"
        (themeNamed "void-black")).map Prod.fst = Except.ok ⟨2, 1, 49, 0, 12, 0⟩ :=
  have hT : ("void-black", themeNamed "void-black") ∈ COLOR_THEMES := by decide
  have hsvg : Env.noVertical.SvgStepsWork "void-black" :=
    ⟨fun _ => rfl, fun _ => rfl, fun _ => rfl⟩
  ⟨hT, hsvg, rfl, rfl, rfl,
    (themeIteration_vertical_absent Env.noVertical ⟨0, 0, 0, 0, 0, 0⟩ Sys.initial "void-black"
      (themeNamed "void-black") hT hsvg rfl rfl rfl).imp
      (fun _ h => h.imp (fun _ h2 => ⟨h2.1, h2.2.1, h2.2.2.1⟩)),
    rfl⟩

/-- C12 fails as stated: with an icon master file that exists and is empty, the
recolouring is counted as generated (3 SVG files), yet the icon builder is not
invoked: the icon counters stay at 0 instead of totalling 49. -/
theorem themeIteration_empty_icon_master :
    Env.emptyIcon.masterExists "phantom-icon-master.svg" = true ∧
    (themeIteration Env.emptyIcon ⟨0, 0, 0, 0, 0, 0⟩ Sys.initial "midnight-phantom"
        (themeNamed "midnight-phantom")).map Prod.fst = Except.ok ⟨3, 0, 0, 0, 24, 0⟩ :=
  ⟨rfl, rfl⟩

/-- C12 (amended): for every catalog theme, when no file-system step fails, the
icon builder is invoked exactly when the icon master file exists and is not
empty: the icon counters then grow by 49 in total; when the file is absent, or
exists and is empty, zero icons are attempted. -/
theorem themeIteration_icons (env : Env) (tot : Totals) (st : Sys) (themeName : String)
    (T : Theme) (hT : (themeName, T) ∈ COLOR_THEMES) (hsvg : env.SvgStepsWork themeName) :
    ∃ tot2 st2, themeIteration env tot st themeName T = Except.ok (tot2, st2) ∧
      tot2.iconsGenerated + tot2.iconsFailed = tot.iconsGenerated + tot.iconsFailed +
        (if env.masterExists "phantom-icon-master.svg" = true ∧
            env.masterContent "phantom-icon-master.svg" ≠ [] then 49 else 0) := by
  obtain ⟨tot2, st2, h1, -, -, h4, -, -⟩ :=
    themeIteration_ok env tot st themeName T (catalog_theme_wellFormed themeName T hT) hsvg
  refine ⟨tot2, st2, h1, ?_⟩
  rw [h4]
  congr 1
  unfold masterUsable
  cases env.masterExists "phantom-icon-master.svg" <;>
    cases env.masterContent "phantom-icon-master.svg" <;> simp

/-- The instance of C12 (amended) at the theme `void-black`. -/
theorem themeIteration_icons_witness :
    ("void-black", themeNamed "void-black") ∈ COLOR_THEMES ∧
    Env.quiet.SvgStepsWork "void-black" ∧
    ∃ tot2 st2, themeIteration Env.quiet ⟨0, 0, 0, 0, 0, 0⟩ Sys.initial "void-black"
        (themeNamed "void-black") = Except.ok (tot2, st2) ∧
      tot2.iconsGenerated + tot2.iconsFailed = 0 + 0 +
        (if Env.quiet.masterExists "phantom-icon-master.svg" = true ∧
            Env.quiet.masterContent "phantom-icon-master.svg" ≠ [] then 49 else 0) :=
  have hT : ("void-black", themeNamed "void-black") ∈ COLOR_THEMES := by decide
  have hsvg : Env.quiet.SvgStepsWork "void-black" := ⟨fun _ => rfl, fun _ => rfl, fun _ => rfl⟩
  ⟨hT, hsvg, themeIteration_icons Env.quiet ⟨0, 0, 0, 0, 0, 0⟩ Sys.initial "void-black"
    (themeNamed "void-black") hT hsvg⟩

/-- C13: when the input directory does not exist (and the first argument is not
a help flag, which is handled before anything else), `main` ends with
`process.exit(1)` before the output directory is created or any file written:
the state below the output directory is the initial one. -/
theorem main_missing_input (env : Env) (now : String) (hhelp : ¬ env.helpRequested)
    (hin : env.inputDirExists = false) :
    main env now = RunResult.exited 1 Sys.initial ∧ (main env now).exitCode = 1 ∧
      Sys.initial.dirs = [] ∧ Sys.initial.files = [] := by
  have h : main env now = RunResult.exited 1 Sys.initial := by
    unfold main
    rw [if_neg (show ¬ (env.args.head? = some "--help" ∨ env.args.head? = some "-h") from hhelp)]
    simp [hin]
  exact ⟨h, by rw [h]; rfl, rfl, rfl⟩

/-- The instance of C13 at a run without arguments. -/
theorem main_missing_input_witness :
    ¬ Env.noInput.helpRequested ∧ Env.noInput.inputDirExists = false ∧
    main Env.noInput "2025-01-01T00:00:00.000Z" = RunResult.exited 1 Sys.initial :=
  have hhelp : ¬ Env.noInput.helpRequested := by
    rintro (h | h) <;> cases h
  ⟨hhelp, rfl, (main_missing_input _ _ hhelp rfl).1⟩

theorem Env.FileSystemWorks.svg {env : Env} (h : env.FileSystemWorks) (themeName : String) :
    env.SvgStepsWork themeName :=
  ⟨h.1, h.2.1, h.2.2 themeName⟩

theorem themesLoop_ok (env : Env) (hfs : env.FileSystemWorks) :
    ∀ (themes : List (String × Theme)), (∀ T ∈ themes, T ∈ COLOR_THEMES) →
      ∀ acc : Totals × Sys, ∃ r, themesLoop env themes acc = Except.ok r := by
  intro themes
  induction themes with
  | nil => intro _ acc; exact ⟨acc, rfl⟩
  | cons T themes ih =>
    intro hmem acc
    obtain ⟨themeName, themeData⟩ := T
    obtain ⟨tot, st⟩ := acc
    obtain ⟨tot2, st2, h1, -⟩ := themeIteration_ok env tot st themeName themeData
      (catalog_theme_wellFormed themeName themeData (hmem _ (List.mem_cons_self _ _)))
      (hfs.svg themeName)
    obtain ⟨r, hr⟩ := ih (fun x hx => hmem x (List.mem_cons_of_mem _ hx)) (tot2, st2)
    exact ⟨r, by simp only [themesLoop, h1, hr]⟩

/-- C14: when the input directory exists (and the first argument is not a help
flag) and the file-system steps outside the `try` blocks work, `main` runs to
its end, displays the summary and the exit code is 0, for every pattern of
image-library failures, of failures to write `favicon.ico`, and whether or not
the write of the manifest `asset-summary.json` fails. -/
theorem main_completes (env : Env) (now : String) (hhelp : ¬ env.helpRequested)
    (hin : env.inputDirExists = true) (hfs : env.FileSystemWorks) :
    ∃ totals summary sys, main env now = RunResult.completed totals summary sys ∧
      (main env now).exitCode = 0 ∧
      summary = createSummary now (outputDirArg env.args) totals.svgGenerated
        totals.svgSkipped totals.iconsGenerated totals.iconsFailed totals.logosGenerated
        totals.logosFailed := by
  obtain ⟨st0, h0, -, -⟩ := ensureDirectoryExists_ok env Sys.initial [] hfs.2.1
  obtain ⟨r, hr⟩ := themesLoop_ok env hfs COLOR_THEMES (fun _ h => h) (⟨0, 0, 0, 0, 0, 0⟩, st0)
  obtain ⟨tot, st⟩ := r
  have h : main env now = RunResult.completed tot
      (createSummary now (outputDirArg env.args) tot.svgGenerated tot.svgSkipped
        tot.iconsGenerated tot.iconsFailed tot.logosGenerated tot.logosFailed)
      (if env.writeFails ["asset-summary.json"] then st
        else { st with files := ["asset-summary.json"] :: st.files }) := by
    unfold main
    rw [if_neg (show ¬ (env.args.head? = some "--help" ∨ env.args.head? = some "-h") from hhelp)]
    simp only [hin, h0, hr]
    rfl
  exact ⟨_, _, _, h, by rw [h]; rfl, rfl⟩

/-- The instance of C14 at a run in which every encoder call and the write of
the manifest fail. -/
theorem main_completes_witness :
    ¬ Env.encoderDown.helpRequested ∧ Env.encoderDown.inputDirExists = true ∧
    Env.encoderDown.FileSystemWorks ∧
    ∃ totals summary sys,
      main Env.encoderDown "2025-01-01T00:00:00.000Z" =
        RunResult.completed totals summary sys ∧
      (main Env.encoderDown "2025-01-01T00:00:00.000Z").exitCode = 0 :=
  have hhelp : ¬ Env.encoderDown.helpRequested := by
    rintro (h | h) <;> cases h
  have hfs : Env.encoderDown.FileSystemWorks :=
    ⟨fun _ => rfl, fun _ => rfl, fun _ _ => rfl⟩
  ⟨hhelp, rfl, hfs, (main_completes _ _ hhelp rfl hfs).imp
    (fun _ h => h.imp (fun _ h2 => h2.imp (fun _ h3 => ⟨h3.1, h3.2.1⟩)))⟩

/-- C15: for all six counts the manifest of `createSummary` lists the 8 theme
slugs of the catalog in declaration order, the configured formats
`png`, `webp`, `avif` for icons and logos, the icon categories `favicons`,
`ios`, `android`, the logo types `horizontal`, `vertical`, and the counts as
given. -/
theorem createSummary_fields (now outputDir : String) (a b c d e f : Nat) :
    (createSummary now outputDir a b c d e f).themes =
      ["midnight-phantom", "quantum-blue", "forest-stealth", "dark-matter", "void-black",
        "crimson-phantom", "mystic-purple", "stellar-silver"] ∧
    (createSummary now outputDir a b c d e f).themes = COLOR_THEMES.map Prod.fst ∧
    (createSummary now outputDir a b c d e f).themes.length = 8 ∧
    (createSummary now outputDir a b c d e f).iconsFormats = ["png", "webp", "avif"] ∧
    (createSummary now outputDir a b c d e f).logosFormats = ["png", "webp", "avif"] ∧
    (createSummary now outputDir a b c d e f).iconsFormats = CONFIG.iconFormats ∧
    (createSummary now outputDir a b c d e f).logosFormats = CONFIG.logoFormats ∧
    (createSummary now outputDir a b c d e f).iconsCategories = ["favicons", "ios", "android"] ∧
    (createSummary now outputDir a b c d e f).logosTypes = ["horizontal", "vertical"] ∧
    (createSummary now outputDir a b c d e f).svgFilesGenerated = a ∧
    (createSummary now outputDir a b c d e f).svgFilesSkipped = b ∧
    (createSummary now outputDir a b c d e f).iconsGenerated = c ∧
    (createSummary now outputDir a b c d e f).iconsFailed = d ∧
    (createSummary now outputDir a b c d e f).logosGenerated = e ∧
    (createSummary now outputDir a b c d e f).logosFailed = f :=
  ⟨rfl, rfl, rfl, rfl, rfl, rfl, rfl, rfl, rfl, rfl, rfl, rfl, rfl, rfl, rfl⟩

/-! ### Output paths -/

theorem categoriesLoop_files (env : Env) (hmk : env.NoMkdirFails) (hall : env.NoCallFails)
    (svgBuffer : List Char) (iconsDir : Path) :
    ∀ (cats : List (String × List IconSize)) (t r : Tally),
      categoriesLoop env svgBuffer iconsDir cats t = Except.ok r →
      r.sys.files = (iconTargets iconsDir cats).reverse ++ t.sys.files := by
  intro cats
  induction cats with
  | nil => intro t r h; cases h; rfl
  | cons c cats ih =>
    intro t r h
    obtain ⟨category, sizes⟩ := c
    obtain ⟨r1, h1, -, h3⟩ :=
      generateCategoryIcons_total env hmk t.sys svgBuffer category sizes iconsDir
    simp only [categoriesLoop, h1] at h
    rw [ih _ r h]
    simp only [(h3 hall).2.2, iconTargets, List.foldr_cons, List.reverse_append,
      List.append_assoc]

theorem generateThemeIcons_files (env : Env) (st : Sys) (svgContent : List Char)
    (themeName : String) (hmk : env.NoMkdirFails) (hall : env.NoCallFails)
    (hw : env.writeFails [themeName, "icons", "favicons", "favicon.ico"] = false) :
    ∃ t, generateThemeIcons env st svgContent themeName = Except.ok t ∧
      t.sys.files = [themeName, "icons", "favicons", "favicon.ico"] ::
        ((iconTargets [themeName, "icons"] CONFIG.iconSizes).reverse ++ st.files) := by
  obtain ⟨st1, h1, -, hf1⟩ := ensureDirectoryExists_ok env st [themeName, "icons"] hmk
  obtain ⟨r, h2, -, -⟩ :=
    categoriesLoop_total env hmk svgContent [themeName, "icons"] CONFIG.iconSizes ⟨0, 0, st1⟩
  have h3 := categoriesLoop_files env hmk hall svgContent _ _ _ r h2
  obtain ⟨st2, h4, h5⟩ := generateIcoFile_ok env hall r.sys svgContent _ hw
  refine ⟨r.count (generateIcoFile env r.sys svgContent
    [themeName, "icons", "favicons", "favicon.ico"]),
    by simp only [generateThemeIcons, h1, h2], ?_⟩
  rw [Tally.count_sys, h4, h5, h3, hf1]

theorem themeOutputs_eq (themeName : String) :
    themeOutputs themeName = relativeOutputs.map fun p => themeName :: p := rfl

theorem relativeOutputs_nodup : relativeOutputs.Nodup ∧ relativeOutputs.length = 73 := by
  decide

theorem themeOutputs_nodup (themeName : String) : (themeOutputs themeName).Nodup := by
  rw [themeOutputs_eq]
  exact relativeOutputs_nodup.1.map (fun a b h => (List.cons.inj h).2)

theorem themeOutputs_head (themeName : String) :
    ∀ p ∈ themeOutputs themeName, p.head? = some themeName := by
  intro p hp
  rw [themeOutputs_eq] at hp
  obtain ⟨q, -, rfl⟩ := List.mem_map.mp hp
  rfl

theorem catalogOutputs_nodup : catalogOutputs.Nodup := by
  unfold catalogOutputs
  rw [List.nodup_flatMap]
  refine ⟨fun t _ => themeOutputs_nodup t, ?_⟩
  have hslugs : (COLOR_THEMES.map Prod.fst).Nodup := by decide
  refine hslugs.imp ?_
  intro a b hab p hpa hpb
  have h1 := themeOutputs_head a p hpa
  have h2 := themeOutputs_head b p hpb
  rw [h1] at h2
  exact hab (Option.some.inj h2)

theorem catalogOutputs_length : catalogOutputs.length = 8 * 73 := by
  unfold catalogOutputs
  simp only [List.length_flatMap, themeOutputs_eq, List.length_map, relativeOutputs_nodup.2]
  decide

theorem addExt_append (name ext : String) :
    ∀ dir : Path, addExt (dir ++ [name]) ext = dir ++ [name ++ "." ++ ext] := by
  intro dir
  induction dir with
  | nil => rfl
  | cons d dir ih =>
    cases dir with
    | nil => rfl
    | cons e dir =>
      have h : addExt (d :: ((e :: dir) ++ [name])) ext = d :: addExt ((e :: dir) ++ [name]) ext :=
        rfl
      rw [List.cons_append, h, ih]
      rfl

/-- C16: a theme whose three recoloured contents are present and for which
nothing fails has written exactly the files `themeOutputs`; an icon goes to
`theme/icons/category/name.format`, a logo to
`theme/logos/orientation/name.format`, the container to
`theme/icons/favicons/favicon.ico` (all below the output directory); and the
8 x 73 = 584 paths of the whole catalog are pairwise distinct. -/
theorem output_paths_distinct (env : Env) (st : Sys) (svgContent horizontal vertical : List Char)
    (themeName : String) (hmk : env.NoMkdirFails) (hall : env.NoCallFails)
    (hw : env.writeFails [themeName, "icons", "favicons", "favicon.ico"] = false)
    (hh : horizontal ≠ []) (hv : vertical ≠ []) :
    (∃ t u, generateThemeIcons env st svgContent themeName = Except.ok t ∧
      generateThemeLogos env t.sys (some horizontal) (some vertical) themeName = Except.ok u ∧
      u.sys.files = (themeOutputs themeName).reverse ++ st.files) ∧
    (∀ c ∈ CONFIG.iconSizes, ∀ entry ∈ c.2, ∀ format ∈ CONFIG.iconFormats,
      addExt ([themeName, "icons"] ++ [c.1] ++ [entry.name]) format =
        [themeName, "icons", c.1, entry.name ++ "." ++ format] ∧
      [themeName, "icons", c.1, entry.name ++ "." ++ format] ∈ themeOutputs themeName) ∧
    (∀ d ∈ CONFIG.logoSizes.horizontal, ∀ format ∈ CONFIG.logoFormats,
      addExt ([themeName, "logos", "horizontal"] ++ [d.name]) format =
        [themeName, "logos", "horizontal", d.name ++ "." ++ format] ∧
      [themeName, "logos", "horizontal", d.name ++ "." ++ format] ∈ themeOutputs themeName) ∧
    (∀ d ∈ CONFIG.logoSizes.vertical, ∀ format ∈ CONFIG.logoFormats,
      addExt ([themeName, "logos", "vertical"] ++ [d.name]) format =
        [themeName, "logos", "vertical", d.name ++ "." ++ format] ∧
      [themeName, "logos", "vertical", d.name ++ "." ++ format] ∈ themeOutputs themeName) ∧
    [themeName, "icons", "favicons", "favicon.ico"] ∈ themeOutputs themeName ∧
    (themeOutputs themeName).Nodup ∧ (themeOutputs themeName).length = 73 ∧
    catalogOutputs.Nodup ∧ catalogOutputs.length = 584 := by
  have hrel : ∀ q ∈ relativeOutputs, themeName :: q ∈ themeOutputs themeName := by
    intro q hq
    rw [themeOutputs_eq]
    exact List.mem_map_of_mem _ hq
  refine ⟨?_, ?_, ?_, ?_, hrel _ (by decide), themeOutputs_nodup _, ?_, catalogOutputs_nodup,
    catalogOutputs_length⟩
  · obtain ⟨t, h1, h2⟩ := generateThemeIcons_files env st svgContent themeName hmk hall hw
    obtain ⟨u, h3, -, -, h4, -⟩ :=
      generateThemeLogos_ok env t.sys (some horizontal) (some vertical) themeName hmk hall
    refine ⟨t, u, h1, h3, ?_⟩
    have e1 : truthyContent (some horizontal) = true := by
      cases horizontal with
      | nil => exact absurd rfl hh
      | cons a l => rfl
    have e2 : truthyContent (some vertical) = true := by
      cases vertical with
      | nil => exact absurd rfl hv
      | cons a l => rfl
    rw [h4, h2, e1, e2]
    simp only [if_true, themeOutputs, List.reverse_append, List.reverse_cons, List.reverse_nil,
      List.nil_append, List.append_assoc, List.cons_append]
  · intro c hc entry he format hf
    refine ⟨addExt_append _ _ _, ?_⟩
    have : [("icons" : String), c.1, entry.name ++ "." ++ format] ∈ relativeOutputs := by
      revert c entry format
      decide
    exact hrel _ this
  · intro d hd format hf
    refine ⟨addExt_append _ _ _, ?_⟩
    have : [("logos" : String), "horizontal", d.name ++ "." ++ format] ∈ relativeOutputs := by
      revert d format
      decide
    exact hrel _ this
  · intro d hd format hf
    refine ⟨addExt_append _ _ _, ?_⟩
    have : [("logos" : String), "vertical", d.name ++ "." ++ format] ∈ relativeOutputs := by
      revert d format
      decide
    exact hrel _ this
  · rw [themeOutputs_eq, List.length_map, relativeOutputs_nodup.2]

/-- The instance of C16 at an environment in which nothing fails. -/
theorem output_paths_distinct_witness :
    Env.quiet.NoMkdirFails ∧ Env.quiet.NoCallFails ∧
    (∃ t u, generateThemeIcons Env.quiet Sys.initial "<svg/>".toList "void-black" = Except.ok t ∧
      generateThemeLogos Env.quiet t.sys (some "<svg/>".toList) (some "<svg/>".toList)
        "void-black" = Except.ok u ∧
      u.sys.files = (themeOutputs "void-black").reverse ++ Sys.initial.files) ∧
    catalogOutputs.Nodup :=
  have hmk : Env.quiet.NoMkdirFails := fun _ => rfl
  have hall : Env.quiet.NoCallFails := fun _ _ => rfl
  have h := output_paths_distinct Env.quiet Sys.initial "<svg/>".toList "<svg/>".toList
    "<svg/>".toList "void-black" hmk hall rfl (by decide) (by decide)
  ⟨hmk, hall, h.1, h.2.2.2.2.2.2.2.1⟩

/-- C17: `generateIcon` and `generateLogo` return a boolean for every input: for
a format outside png, webp, avif the result is `false` with the state unchanged
(no call, no file), which the caller counts as one failure; for a format of the
set the encoder is called once and, when that call works, the result is `true`
and exactly `outputPath.format` is written. -/
theorem generate_format_switch (env : Env) (st : Sys) (input : List Char) (path : Path)
    (size : Nat) (d : LogoSize) (format : String) (t : Tally) :
    knownFormat format = decide (format ∈ ["png", "webp", "avif"]) ∧
    generateIcon env st input path size format =
      (if knownFormat format then
        if env.callFails st.calls.length
            (Call.toFile input (addExt path format) (some size) (some size) format) then
          (false, Sys.mk st.dirs st.files
            (Call.toFile input (addExt path format) (some size) (some size) format :: st.calls))
        else
          (true, { st with
            calls :=
              Call.toFile input (addExt path format) (some size) (some size) format :: st.calls,
            files := addExt path format :: st.files })
      else (false, st)) ∧
    generateLogo env st input path d format =
      (if knownFormat format then
        if env.callFails st.calls.length
            (Call.toFile input (addExt path format) (if d.hasWidth then d.width else none)
              (if d.hasWidth then none else d.height) format) then
          (false, Sys.mk st.dirs st.files
            (Call.toFile input (addExt path format) (if d.hasWidth then d.width else none)
              (if d.hasWidth then none else d.height) format :: st.calls))
        else
          (true, { st with
            calls :=
              Call.toFile input (addExt path format) (if d.hasWidth then d.width else none)
                (if d.hasWidth then none else d.height) format :: st.calls,
            files := addExt path format :: st.files })
      else (false, st)) ∧
    t.count (false, st) = ⟨t.generated, t.failed + 1, st⟩ ∧
    (∀ (dir : Path) (name : String),
      addExt (dir ++ [name]) format = dir ++ [name ++ "." ++ format]) := by
  have key : ∀ w h, encodeToFile env st input path w h format =
      (if knownFormat format then
        if env.callFails st.calls.length (Call.toFile input (addExt path format) w h format) then
          (false, { st with calls := Call.toFile input (addExt path format) w h format ::
            st.calls })
        else
          (true, { st with
            calls := Call.toFile input (addExt path format) w h format :: st.calls,
            files := addExt path format :: st.files })
      else (false, st)) := by
    intro w h
    rcases encodeToFile_cases env st input path w h format with ⟨h1, h2⟩ | ⟨h1, h2, h3⟩ |
      ⟨h1, h2, h3⟩
    · rw [h2, h1]; rfl
    · rw [h3, h1, h2]; rfl
    · rw [h3, h1, h2]; rfl
  refine ⟨?_, key _ _, ?_, rfl, fun dir name => addExt_append name format dir⟩
  · simp [knownFormat]
  · rw [generateLogo_eq]; exact key _ _

theorem icoBuffers_three (env : Env) (st : Sys) (input : List Char) :
    icoBuffers env input [16, 32, 48] st =
      (if env.callFails st.calls.length (Call.toBuffer input 16) then
        (none, { st with calls := Call.toBuffer input 16 :: st.calls })
      else if env.callFails (st.calls.length + 1) (Call.toBuffer input 32) then
        (none, { st with calls := Call.toBuffer input 32 :: Call.toBuffer input 16 :: st.calls })
      else if env.callFails (st.calls.length + 2) (Call.toBuffer input 48) then
        (none, Sys.mk st.dirs st.files
          (Call.toBuffer input 48 :: Call.toBuffer input 32 :: Call.toBuffer input 16 :: st.calls))
      else
        (some [16, 32, 48], Sys.mk st.dirs st.files
          (Call.toBuffer input 48 :: Call.toBuffer input 32 :: Call.toBuffer input 16 ::
            st.calls))) := by
  simp only [icoBuffers, libraryCall, List.length_cons]
  cases env.callFails st.calls.length (Call.toBuffer input 16) <;>
  cases env.callFails (st.calls.length + 1) (Call.toBuffer input 32) <;>
  cases env.callFails (st.calls.length + 1 + 1) (Call.toBuffer input 48) <;> simp

theorem generateIcoFile_eq (env : Env) (st : Sys) (input : List Char) (path : Path) :
    generateIcoFile env st input path =
      (if env.callFails st.calls.length (Call.toBuffer input 16) then
        (false, Sys.mk st.dirs st.files (Call.toBuffer input 16 :: st.calls))
      else if env.callFails (st.calls.length + 1) (Call.toBuffer input 32) then
        (false, Sys.mk st.dirs st.files
          (Call.toBuffer input 32 :: Call.toBuffer input 16 :: st.calls))
      else if env.callFails (st.calls.length + 2) (Call.toBuffer input 48) then
        (false, Sys.mk st.dirs st.files
          (Call.toBuffer input 48 :: Call.toBuffer input 32 :: Call.toBuffer input 16 :: st.calls))
      else if env.callFails (st.calls.length + 3) (Call.pngToIco [16, 32, 48]) then
        (false, Sys.mk st.dirs st.files
          (Call.pngToIco [16, 32, 48] :: Call.toBuffer input 48 :: Call.toBuffer input 32 ::
            Call.toBuffer input 16 :: st.calls))
      else if env.writeFails path then
        (false, Sys.mk st.dirs st.files
          (Call.pngToIco [16, 32, 48] :: Call.toBuffer input 48 :: Call.toBuffer input 32 ::
            Call.toBuffer input 16 :: st.calls))
      else
        (true, Sys.mk st.dirs (path :: st.files)
          (Call.pngToIco [16, 32, 48] :: Call.toBuffer input 48 :: Call.toBuffer input 32 ::
            Call.toBuffer input 16 :: st.calls))) := by
  simp only [generateIcoFile, CONFIG.icoSizes, icoBuffers_three]
  split_ifs <;> simp [libraryCall, *]

theorem generateIcoFile_files (env : Env) (st : Sys) (input : List Char) (path : Path) :
    (generateIcoFile env st input path).2.files =
      (if (generateIcoFile env st input path).1 then path :: st.files else st.files) ∧
    (generateIcoFile env st input path).2.dirs = st.dirs := by
  rw [generateIcoFile_eq]
  split_ifs <;> simp_all

/-- C18: `generateIcoFile` asks for the buffers of the sizes 16, 32, 48 in this
order, packs them with one call and writes one file; it stops at the first
failure, returns `false` then and leaves the set of written files as it was; a
`true` result means that `favicon.ico` was written.  `generateThemeIcons`, when
it returns, has counted the container once: its result is the tally of the
categories with 1 added to `generated` when the container was made and 1 added
to `failed` otherwise. -/
theorem generateIcoFile_atomic (env : Env) (st : Sys) (input : List Char) (path : Path)
    (themeName : String) (t : Tally) :
    CONFIG.icoSizes = [16, 32, 48] ∧
    generateIcoFile env st input path =
      (if env.callFails st.calls.length (Call.toBuffer input 16) then
        (false, Sys.mk st.dirs st.files (Call.toBuffer input 16 :: st.calls))
      else if env.callFails (st.calls.length + 1) (Call.toBuffer input 32) then
        (false, Sys.mk st.dirs st.files
          (Call.toBuffer input 32 :: Call.toBuffer input 16 :: st.calls))
      else if env.callFails (st.calls.length + 2) (Call.toBuffer input 48) then
        (false, Sys.mk st.dirs st.files
          (Call.toBuffer input 48 :: Call.toBuffer input 32 :: Call.toBuffer input 16 :: st.calls))
      else if env.callFails (st.calls.length + 3) (Call.pngToIco [16, 32, 48]) then
        (false, Sys.mk st.dirs st.files
          (Call.pngToIco [16, 32, 48] :: Call.toBuffer input 48 :: Call.toBuffer input 32 ::
            Call.toBuffer input 16 :: st.calls))
      else if env.writeFails path then
        (false, Sys.mk st.dirs st.files
          (Call.pngToIco [16, 32, 48] :: Call.toBuffer input 48 :: Call.toBuffer input 32 ::
            Call.toBuffer input 16 :: st.calls))
      else
        (true, Sys.mk st.dirs (path :: st.files)
          (Call.pngToIco [16, 32, 48] :: Call.toBuffer input 48 :: Call.toBuffer input 32 ::
            Call.toBuffer input 16 :: st.calls))) ∧
    (generateIcoFile env st input path).2.files =
      (if (generateIcoFile env st input path).1 then path :: st.files else st.files) ∧
    (generateThemeIcons env st input themeName = Except.ok t →
      ∃ r, categoriesLoop env input [themeName, "icons"] CONFIG.iconSizes
          ⟨0, 0, (ensureDirectoryExists env st [themeName, "icons"]).toOption.getD st⟩ =
          Except.ok r ∧
        t.generated = r.generated +
          (if (generateIcoFile env r.sys input
            [themeName, "icons", "favicons", "favicon.ico"]).1 then 1 else 0) ∧
        t.failed = r.failed +
          (if (generateIcoFile env r.sys input
            [themeName, "icons", "favicons", "favicon.ico"]).1 then 0 else 1) ∧
        t.sys = (generateIcoFile env r.sys input
          [themeName, "icons", "favicons", "favicon.ico"]).2) := by
  refine ⟨rfl, generateIcoFile_eq env st input path,
    (generateIcoFile_files env st input path).1, ?_⟩
  intro h
  unfold generateThemeIcons at h
  cases h1 : ensureDirectoryExists env st [themeName, "icons"] with
  | error e => rw [h1] at h; cases h
  | ok st1 =>
    rw [h1] at h
    simp only at h
    cases h2 : categoriesLoop env input [themeName, "icons"] CONFIG.iconSizes ⟨0, 0, st1⟩ with
    | error e => rw [h2] at h; cases h
    | ok r =>
      rw [h2] at h
      simp only [Except.ok.injEq] at h
      refine ⟨r, by simpa [Except.toOption] using h2, ?_⟩
      subst h
      unfold Tally.count
      split <;> simp [*]

/-- The instance of C18 at a run whose third image-library call, the encoding
of `favicon-16.avif`, fails: `generateThemeIcons` returns, and its `generated`
is that of the categories plus what the container adds. -/
theorem generateIcoFile_atomic_witness :
    generateThemeIcons Env.thirdCallFails Sys.initial "<svg/>".toList "void-black" =
      Except.ok ((generateThemeIcons Env.thirdCallFails Sys.initial "<svg/>".toList
        "void-black").toOption.getD ⟨0, 0, Sys.initial⟩) ∧
    ∃ r, categoriesLoop Env.thirdCallFails "<svg/>".toList ["void-black", "icons"]
          CONFIG.iconSizes
          ⟨0, 0, (ensureDirectoryExists Env.thirdCallFails Sys.initial
            ["void-black", "icons"]).toOption.getD Sys.initial⟩ = Except.ok r ∧
      ((generateThemeIcons Env.thirdCallFails Sys.initial "<svg/>".toList
        "void-black").toOption.getD ⟨0, 0, Sys.initial⟩).generated = r.generated +
          (if (generateIcoFile Env.thirdCallFails r.sys "<svg/>".toList
            ["void-black", "icons", "favicons", "favicon.ico"]).1 then 1 else 0) :=
  ⟨rfl, ((generateIcoFile_atomic Env.thirdCallFails Sys.initial "<svg/>".toList [] "void-black"
    _).2.2.2 rfl).imp fun _ h => ⟨h.1, h.2.1⟩⟩

/-- C19, as it fails: where the directory of the icons cannot be created,
`generateThemeIcons` throws; the call of `ensureDirectoryExists` stands outside
every `try`. -/
theorem generateThemeIcons_throws_on_mkdir :
    generateThemeIcons Env.readOnly Sys.initial "<svg/>".toList "void-black" =
      Except.error Thrown.error := rfl

/-- C19, amended: when no directory creation fails, `generateThemeIcons` returns
a tally for every content, every theme name and every pattern of failing
rasterisations, encodings, packings and file writes, and the tally counts 49
units; when the directory of the icons is missing and cannot be created, it
throws. -/
theorem generateThemeIcons_returns (env : Env) (st : Sys) (svgContent : List Char)
    (themeName : String) :
    (env.NoMkdirFails →
      ∃ t, generateThemeIcons env st svgContent themeName = Except.ok t ∧
        t.generated + t.failed = 49) ∧
    (env.dirExists [themeName, "icons"] = false →
      st.dirs.any (fun d => [themeName, "icons"].isPrefixOf d) = false →
      env.mkdirFails [themeName, "icons"] = true →
      generateThemeIcons env st svgContent themeName = Except.error Thrown.error) := by
  constructor
  · intro hmk
    obtain ⟨st1, h1, -, -⟩ := ensureDirectoryExists_ok env st [themeName, "icons"] hmk
    obtain ⟨r, h2, h3, -⟩ :=
      categoriesLoop_total env hmk svgContent [themeName, "icons"] CONFIG.iconSizes ⟨0, 0, st1⟩
    have hsum : (CONFIG.iconSizes.map fun c => c.2.length * 3).sum = 48 := by decide
    rw [hsum] at h3
    simp only [Nat.zero_add] at h3
    refine ⟨r.count (generateIcoFile env r.sys svgContent
      [themeName, "icons", "favicons", "favicon.ico"]),
      by simp only [generateThemeIcons, h1, h2], ?_⟩
    rw [Tally.count_total, h3]
  · intro h1 h2 h3
    simp [generateThemeIcons, ensureDirectoryExists, h1, h2, h3]

/-- The instance of the amended C19 at an environment in which every encoder
call fails. -/
theorem generateThemeIcons_returns_witness :
    Env.encoderDown.NoMkdirFails ∧
    ∃ t, generateThemeIcons Env.encoderDown Sys.initial "<svg/>".toList "void-black" =
        Except.ok t ∧ t.generated + t.failed = 49 :=
  have hmk : Env.encoderDown.NoMkdirFails := fun _ => rfl
  ⟨hmk, (generateThemeIcons_returns Env.encoderDown Sys.initial "<svg/>".toList
    "void-black").1 hmk⟩

/-- C20: the icon catalog is favicons 16, 32, 48, 96, 192, ios 180, 152, 120,
76, 60 and android 512, 192, 144, 96, 72, 48, each entry one number used as
width and as height; the horizontal logo entries have the widths 200, 300, 400,
600 and no height, the vertical ones the heights 150, 200, 300, 400 and no
width, and their names are `logo-h-` and `logo-v-` followed by small, medium,
large, xlarge in this order; the container sizes 16, 32, 48 are favicon
sizes. -/
theorem CONFIG_size_catalogs :
    CONFIG.iconSizes.map (fun c => (c.1, c.2.map IconSize.size)) =
      [("favicons", [16, 32, 48, 96, 192]), ("ios", [180, 152, 120, 76, 60]),
       ("android", [512, 192, 144, 96, 72, 48])] ∧
    (∀ (env : Env) (st : Sys) (input : List Char) (path : Path) (size : Nat) (format : String),
      generateIcon env st input path size format =
        encodeToFile env st input path (some size) (some size) format) ∧
    CONFIG.logoSizes.horizontal.map (fun d => (d.width, d.height)) =
      [(some 200, none), (some 300, none), (some 400, none), (some 600, none)] ∧
    CONFIG.logoSizes.vertical.map (fun d => (d.width, d.height)) =
      [(none, some 150), (none, some 200), (none, some 300), (none, some 400)] ∧
    CONFIG.logoSizes.horizontal.map LogoSize.name =
      ["small", "medium", "large", "xlarge"].map (fun n => "logo-h-" ++ n) ∧
    CONFIG.logoSizes.vertical.map LogoSize.name =
      ["small", "medium", "large", "xlarge"].map (fun n => "logo-v-" ++ n) ∧
    (CONFIG.logoSizes.horizontal ++ CONFIG.logoSizes.vertical).all
      (fun d => d.width.isSome != d.height.isSome) = true ∧
    CONFIG.logoSizes.horizontal.all LogoSize.hasWidth = true ∧
    CONFIG.logoSizes.vertical.all (fun d => !d.hasWidth) = true ∧
    CONFIG.icoSizes = [16, 32, 48] ∧
    CONFIG.icoSizes.all (fun n =>
      ((CONFIG.iconSizes.lookup "favicons").getD []).any (fun e => e.size == n)) = true := by
  refine ⟨by decide, fun _ _ _ _ _ _ => rfl, by decide, by decide, by decide, by decide,
    by decide, by decide, by decide, by decide, by decide⟩

/-! ### The install-script responder -/

/-- C21: the status is 200 exactly when the pathname is one of `/health`, `/ip`,
`/` and `/install`, compared as strings; for every other pathname the status is
404 and the body is `Not Found`; `/health` answers `OK`, and `/` and `/install`
both answer the install script with the content type
`text/x-shellscript; charset=utf-8`. -/
theorem fetch_routing (installScript : String) (request : Request) :
    ((fetch installScript request).status = 200 ↔
      request.url.pathname ∈ ["/health", "/ip", "/", "/install"]) ∧
    (request.url.pathname ∉ ["/health", "/ip", "/", "/install"] →
      (fetch installScript request).status = 404 ∧
      (fetch installScript request).body = "Not Found") ∧
    (request.url.pathname = "/health" → (fetch installScript request).body = "OK") ∧
    (request.url.pathname = "/" ∨ request.url.pathname = "/install" →
      (fetch installScript request).body = installScript ∧
      (fetch installScript request).status = 200 ∧
      Headers.get (fetch installScript request).headers "Content-Type" =
        some "text/x-shellscript; charset=utf-8") := by
  have hct : Headers.get
      [("Content-Type", "text/x-shellscript; charset=utf-8"),
       ("Content-Disposition", "inline; filename=\"install.sh\""),
       ("Cache-Control", "no-cache, no-store, must-revalidate"),
       ("X-Content-Type-Options", "nosniff")] "Content-Type" =
      some "text/x-shellscript; charset=utf-8" := by decide
  unfold fetch
  simp only [List.mem_cons, List.mem_singleton, List.not_mem_nil, or_false, not_or]
  by_cases h1 : request.url.pathname = "/health"
  · simp [h1]
  · by_cases h2 : request.url.pathname = "/ip"
    · simp [h2]
    · by_cases h3 : request.url.pathname = "/"
      · simp [h3, hct]
      · by_cases h4 : request.url.pathname = "/install"
        · simp [h4, hct]
        · simp [h1, h2, h3, h4]

/-- The instance of C21 at a request for `/install`, and two pathnames that
differ from a route by a slash or by case. -/
theorem fetch_routing_witness :
    (fetch "#!/bin/bash" Request.sampleInstall).body = "#!/bin/bash" ∧
    (fetch "#!/bin/bash" Request.sampleInstall).status = 200 ∧
    (fetch "#!/bin/bash"
      { Request.sampleInstall with url := ⟨"https:", "h", "/install/", "", ""⟩ }).status = 404 ∧
    (fetch "#!/bin/bash"
      { Request.sampleInstall with url := ⟨"https:", "h", "/Health", "", ""⟩ }).status = 404 :=
  have h := (fetch_routing "#!/bin/bash" Request.sampleInstall).2.2.2 (Or.inr rfl)
  ⟨h.1, h.2.1, by decide, by decide⟩

/-- C22: for the pathname `/ip` the status is 200 and the body is the value of
the header `CF-Connecting-IP` when the header is present and not empty, and
`unknown` when it is absent or empty. -/
theorem fetch_ip (installScript : String) (request : Request)
    (hpath : request.url.pathname = "/ip") :
    (fetch installScript request).status = 200 ∧
    (∀ v, Headers.get request.headers "CF-Connecting-IP" = some v → v ≠ "" →
      (fetch installScript request).body = v) ∧
    (Headers.get request.headers "CF-Connecting-IP" = none →
      (fetch installScript request).body = "unknown") ∧
    (Headers.get request.headers "CF-Connecting-IP" = some "" →
      (fetch installScript request).body = "unknown") := by
  have hf : fetch installScript request =
      ⟨orDefault (Headers.get request.headers "CF-Connecting-IP") "unknown", 200,
        [("Content-Type", "text/plain"),
         ("Cache-Control", "no-cache, no-store, must-revalidate")]⟩ := by
    simp [fetch, hpath]
  rw [hf]
  refine ⟨rfl, ?_, ?_, ?_⟩
  · intro v hv hne
    simp [hv, orDefault, hne]
  · intro hv
    simp [hv, orDefault]
  · intro hv
    simp [hv, orDefault]

/-- The instance of C22 at a request that carries the header, and the answers
to a request without it and to one whose header is empty. -/
theorem fetch_ip_witness :
    (fetch "" Request.sampleIp).status = 200 ∧
    (fetch "" Request.sampleIp).body = "203.0.113.7" ∧
    (fetch "" { Request.sampleIp with headers := [] }).body = "unknown" ∧
    (fetch "" { Request.sampleIp with headers := [("CF-Connecting-IP", "")] }).body =
      "unknown" :=
  have h := fetch_ip "" Request.sampleIp rfl
  ⟨h.1, h.2.1 "203.0.113.7" (by decide) (by decide), by decide, by decide⟩

/-- C28: two requests with the same pathname and the same value of
`Headers.get` for `CF-Connecting-IP` get equal responses: status, headers and
body; method, query string, fragment, host, body and the other headers do not
enter. -/
theorem fetch_depends_on_path_and_ip (installScript : String) (r1 r2 : Request)
    (hpath : r1.url.pathname = r2.url.pathname)
    (hip : Headers.get r1.headers "CF-Connecting-IP" =
      Headers.get r2.headers "CF-Connecting-IP") :
    fetch installScript r1 = fetch installScript r2 := by
  simp only [fetch, hpath, hip]

/-- The instance of C28 at a GET and a POST of `/ip` from one client. -/
theorem fetch_depends_on_path_and_ip_witness :
    Request.sampleIp ≠ Request.samplePost ∧
    fetch "#!/bin/bash" Request.sampleIp = fetch "#!/bin/bash" Request.samplePost :=
  ⟨by decide,
    fetch_depends_on_path_and_ip "#!/bin/bash" Request.sampleIp Request.samplePost rfl
      (by decide)⟩

/-! ### Auto-reload -/

theorem onError_delay (s : AutoReload) :
    s.onError = (⟨s.reconnectAttempts + 1⟩,
      min (500 * (3 / 2 : ℚ) ^ s.reconnectAttempts) 5000) := rfl

theorem errors_attempts : ∀ (k : Nat) (s : AutoReload),
    (AutoReload.errors k s).1.reconnectAttempts = s.reconnectAttempts + k := by
  intro k
  induction k with
  | zero => intro s; rfl
  | succ k ih =>
    intro s
    simp only [AutoReload.errors, onError_delay, ih]
    rfl

/-- C23: the delay scheduled at the `k`-th error in a row after an open (or
after the start), `k >= 1`, is `min (500 * (3/2)^(k-1)) 5000`; it is 500 for
`k = 1`, does not decrease with `k`, is at most 5000 and is 5000 from `k = 7`
on; an open sets the counter to 0, so that the delay of the next error is 500
again. -/
theorem reconnect_backoff (s : AutoReload) (k : Nat) (hk : 1 ≤ k) :
    (AutoReload.errors k s.onOpen).2 = min (500 * (3 / 2 : ℚ) ^ (k - 1)) 5000 ∧
    (AutoReload.errors k AutoReload.initial).2 = min (500 * (3 / 2 : ℚ) ^ (k - 1)) 5000 ∧
    (AutoReload.errors 1 s.onOpen).2 = 500 ∧
    (AutoReload.errors k s.onOpen).2 ≤ (AutoReload.errors (k + 1) s.onOpen).2 ∧
    (AutoReload.errors k s.onOpen).2 ≤ 5000 ∧
    (7 ≤ k → (AutoReload.errors k s.onOpen).2 = 5000) ∧
    s.onOpen.reconnectAttempts = 0 ∧
    ((AutoReload.errors k s.onOpen).1.onOpen.onError).2 = 500 := by
  have key : ∀ j : Nat, 1 ≤ j → ∀ s0 : AutoReload, s0.reconnectAttempts = 0 →
      (AutoReload.errors j s0).2 = min (500 * (3 / 2 : ℚ) ^ (j - 1)) 5000 := by
    intro j hj s0 h0
    obtain ⟨i, rfl⟩ : ∃ i, j = i + 1 := ⟨j - 1, by omega⟩
    simp only [AutoReload.errors, onError_delay, errors_attempts, h0, Nat.zero_add,
      Nat.add_sub_cancel]
  have hmono : ∀ i j : Nat, i ≤ j → (3 / 2 : ℚ) ^ i ≤ (3 / 2 : ℚ) ^ j :=
    fun i j h => pow_le_pow_right₀ (by norm_num) h
  refine ⟨key k hk _ rfl, key k hk _ rfl, ?_, ?_, ?_, ?_, rfl, ?_⟩
  · rw [key 1 (le_refl 1) s.onOpen rfl]; norm_num
  · rw [key k hk s.onOpen rfl, key (k + 1) (by omega) s.onOpen rfl]
    apply min_le_min_right
    apply mul_le_mul_of_nonneg_left (hmono _ _ (by omega)) (by norm_num)
  · rw [key k hk s.onOpen rfl]; exact min_le_right _ _
  · intro h7
    rw [key k hk s.onOpen rfl]
    apply min_eq_right
    have h6 := hmono 6 (k - 1) (by omega)
    have : (5000 : ℚ) ≤ 500 * (3 / 2 : ℚ) ^ 6 := by norm_num
    linarith
  · simp only [onError_delay, AutoReload.onOpen]
    norm_num

/-- The instance of C23 at the eighth error in a row, with the delays of the
first seven errors. -/
theorem reconnect_backoff_witness :
    (AutoReload.errors 8 AutoReload.initial.onOpen).2 = 5000 ∧
    (List.range 8).map (fun k => (AutoReload.errors k AutoReload.initial).2) =
      [0, 500, 750, 1125, 3375 / 2, 10125 / 4, 30375 / 8, 5000] :=
  ⟨(reconnect_backoff AutoReload.initial 8 (by decide)).2.2.2.2.2.1 (by decide), by
    simp only [List.range, List.range.loop, List.map, AutoReload.errors, onError_delay]
    norm_num [AutoReload.initial]⟩

/-! ### The feature slider -/

theorem jsRem_next (n : Nat) (c : Int) (hn : 0 < n) (h0 : 0 ≤ c) (h1 : c < n) :
    jsRem (c + 1) n = some (if c + 1 = n then 0 else c + 1) := by
  have hn0 : (n : Int) ≠ 0 := by omega
  simp only [jsRem, hn0, if_false]
  congr 1
  rw [Int.tmod_eq_emod (by omega) (by omega)]
  split
  · next h => rw [h]; exact Int.emod_self
  · next h => exact Int.emod_eq_of_lt (by omega) (by omega)

theorem jsRem_prev (n : Nat) (c : Int) (hn : 0 < n) (h0 : 0 ≤ c) (h1 : c < n) :
    jsRem (c - 1 + n) n = some (if c = 0 then (n : Int) - 1 else c - 1) := by
  have hn0 : (n : Int) ≠ 0 := by omega
  simp only [jsRem, hn0, if_false]
  congr 1
  rw [Int.tmod_eq_emod (by omega) (by omega)]
  split
  · next h =>
    have e : c - 1 + (n : Int) = (n : Int) - 1 := by omega
    rw [e]
    exact Int.emod_eq_of_lt (by omega) (by omega)
  · next h =>
    rw [Int.add_emod_self]
    exact Int.emod_eq_of_lt (by omega) (by omega)

theorem call_inRange (n : Nat) (hn : 0 < n) (s : PhantomFeatureSlider) (op : SliderCall)
    (hop : op.InRange n) (hs : s.slideCount = n)
    (hc : ∃ c : Int, s.currentSlide = some c ∧ 0 ≤ c ∧ c < n) :
    (s.call op).slideCount = n ∧
    ∃ c : Int, (s.call op).currentSlide = some c ∧ 0 ≤ c ∧ c < n := by
  obtain ⟨c, hc, h0, h1⟩ := hc
  cases op with
  | next =>
    refine ⟨hs, if c + 1 = n then 0 else c + 1, ?_, ?_⟩
    · simp only [PhantomFeatureSlider.call, PhantomFeatureSlider.nextPhantomSlide,
        PhantomFeatureSlider.goToPhantomSlide, hc, hs, Option.bind, jsRem_next n c hn h0 h1]
    · split <;> omega
  | prev =>
    refine ⟨hs, if c = 0 then (n : Int) - 1 else c - 1, ?_, ?_⟩
    · simp only [PhantomFeatureSlider.call, PhantomFeatureSlider.prevPhantomSlide,
        PhantomFeatureSlider.goToPhantomSlide, hc, hs, Option.bind, jsRem_prev n c hn h0 h1]
    · split <;> omega
  | goTo i => exact ⟨hs, i, rfl, hop.1, hop.2⟩

theorem run_inRange (n : Nat) (hn : 0 < n) : ∀ (calls : List SliderCall)
    (s : PhantomFeatureSlider), (∀ op ∈ calls, op.InRange n) → s.slideCount = n →
    (∃ c : Int, s.currentSlide = some c ∧ 0 ≤ c ∧ c < n) →
    (s.run calls).slideCount = n ∧
    ∃ c : Int, (s.run calls).currentSlide = some c ∧ 0 ≤ c ∧ c < n := by
  intro calls
  induction calls with
  | nil => intro s _ hs hc; exact ⟨hs, hc⟩
  | cons op calls ih =>
    intro s hops hs hc
    have h := call_inRange n hn s op (hops op (List.mem_cons_self _ _)) hs hc
    exact ih (s.call op) (fun o ho => hops o (List.mem_cons_of_mem _ ho)) h.1 h.2

/-- C29: for `n > 0` slides, after any sequence of `nextPhantomSlide`,
`prevPhantomSlide` and `goToPhantomSlide(i)` with `0 <= i < n` from the state
of the constructor, `currentSlide` is an index in `[0, n)`; from such a state
next goes from `n - 1` to 0, prev from 0 to `n - 1`, and prev after next, and
next after prev, give the state back. -/
theorem slider_index_invariant (n : Nat) (hn : 0 < n) (calls : List SliderCall)
    (hcalls : ∀ op ∈ calls, op.InRange n) :
    (∃ c : Int, ((PhantomFeatureSlider.new n).run calls).currentSlide = some c ∧
      0 ≤ c ∧ c < n) ∧
    ((PhantomFeatureSlider.new n).run calls).nextPhantomSlide.prevPhantomSlide =
      (PhantomFeatureSlider.new n).run calls ∧
    ((PhantomFeatureSlider.new n).run calls).prevPhantomSlide.nextPhantomSlide =
      (PhantomFeatureSlider.new n).run calls ∧
    (PhantomFeatureSlider.mk (some ((n : Int) - 1)) n).nextPhantomSlide =
      PhantomFeatureSlider.mk (some 0) n ∧
    (PhantomFeatureSlider.mk (some 0) n).prevPhantomSlide =
      PhantomFeatureSlider.mk (some ((n : Int) - 1)) n := by
  have hinv := run_inRange n hn calls (PhantomFeatureSlider.new n) hcalls rfl
    ⟨0, rfl, le_refl 0, by omega⟩
  have hnext : ∀ c : Int, 0 ≤ c → c < n →
      (PhantomFeatureSlider.mk (some c) n).nextPhantomSlide =
        PhantomFeatureSlider.mk (some (if c + 1 = n then 0 else c + 1)) n := by
    intro c h0 h1
    simp only [PhantomFeatureSlider.nextPhantomSlide, PhantomFeatureSlider.goToPhantomSlide,
      Option.bind, jsRem_next n c hn h0 h1]
  have hprev : ∀ c : Int, 0 ≤ c → c < n →
      (PhantomFeatureSlider.mk (some c) n).prevPhantomSlide =
        PhantomFeatureSlider.mk (some (if c = 0 then (n : Int) - 1 else c - 1)) n := by
    intro c h0 h1
    simp only [PhantomFeatureSlider.prevPhantomSlide, PhantomFeatureSlider.goToPhantomSlide,
      Option.bind, jsRem_prev n c hn h0 h1]
  obtain ⟨hcount, c, hc, h0, h1⟩ := hinv
  have hs : (PhantomFeatureSlider.new n).run calls = PhantomFeatureSlider.mk (some c) n := by
    cases h : (PhantomFeatureSlider.new n).run calls with
    | mk cur cnt =>
      rw [h] at hc hcount
      simp only at hc hcount
      rw [hc, hcount]
  refine ⟨⟨c, hc, h0, h1⟩, ?_, ?_, ?_, ?_⟩
  · rw [hs, hnext c h0 h1]
    rw [hprev _ (by split <;> omega) (by split <;> omega)]
    congr 2
    split <;> split <;> omega
  · rw [hs, hprev c h0 h1]
    rw [hnext _ (by split <;> omega) (by split <;> omega)]
    congr 2
    split <;> split <;> omega
  · rw [hnext _ (by omega) (by omega)]
    simp
  · rw [hprev _ (le_refl 0) (by omega)]
    simp

/-- The instance of C29 at three slides and the calls next, next, next,
go to 2, prev. -/
theorem slider_index_invariant_witness :
    ((PhantomFeatureSlider.new 3).run
      [SliderCall.next, SliderCall.next, SliderCall.next, SliderCall.goTo 2,
        SliderCall.prev]).currentSlide = some 1 ∧
    ∃ c : Int, ((PhantomFeatureSlider.new 3).run
      [SliderCall.next, SliderCall.next, SliderCall.next, SliderCall.goTo 2,
        SliderCall.prev]).currentSlide = some c ∧ 0 ≤ c ∧ c < (3 : Nat) :=
  ⟨by decide, (slider_index_invariant 3 (by decide)
    [SliderCall.next, SliderCall.next, SliderCall.next, SliderCall.goTo 2, SliderCall.prev]
    (by
      intro op hop
      simp only [List.mem_cons, List.mem_singleton, List.not_mem_nil, or_false] at hop
      rcases hop with rfl | rfl | rfl | rfl | rfl
      · exact True.intro
      · exact True.intro
      · exact True.intro
      · exact ⟨by decide, by decide⟩
      · exact True.intro)).1⟩

/-! ### Cast file paths -/

theorem resolveCastFilePath_eq (currentPath path : List Char) :
    resolveCastFilePath currentPath path =
      if isAbsolute path then Except.ok path
      else if !includes path "../".toList then Except.ok ("/assets/static/".toList ++ path)
      else
        match ((splitSlash currentPath).filter fun p => !p.isEmpty).getLast? with
        | none => Except.error TypeError.undefinedProperty
        | some last =>
          Except.ok ('/' :: joinSlash (applyRelative
            (if includes last ".".toList then
              ((splitSlash currentPath).filter fun p => !p.isEmpty).dropLast
            else (splitSlash currentPath).filter fun p => !p.isEmpty) (splitSlash path))) :=
  rfl

theorem isAbsolute_slash (rest : List Char) : isAbsolute ('/' :: rest) = true := by
  simp [isAbsolute, startsWith]

theorem resolveCastFilePath_absolute (currentPath path : List Char)
    (h : isAbsolute path = true) : resolveCastFilePath currentPath path = Except.ok path := by
  rw [resolveCastFilePath_eq, if_pos h]

theorem resolveCastFilePath_static (currentPath path : List Char)
    (h : isAbsolute path = false) (h2 : includes path "../".toList = false) :
    resolveCastFilePath currentPath path = Except.ok ("/assets/static/".toList ++ path) := by
  rw [resolveCastFilePath_eq, h, h2]
  rfl

/-- C24: `resolveCastFilePath` returns its argument for a path that starts with
`/`, `http://` or `https://`, and `/assets/static/` followed by the path for
every other path without `../`; in both cases the result is the same on every
page. -/
theorem resolveCastFilePath_simple (currentPath otherPath path : List Char) :
    (startsWith path "/".toList = true ∨ startsWith path "http://".toList = true ∨
        startsWith path "https://".toList = true →
      resolveCastFilePath currentPath path = Except.ok path) ∧
    (startsWith path "/".toList = false → startsWith path "http://".toList = false →
      startsWith path "https://".toList = false → includes path "../".toList = false →
      resolveCastFilePath currentPath path = Except.ok ("/assets/static/".toList ++ path)) ∧
    (isAbsolute path = true ∨ includes path "../".toList = false →
      resolveCastFilePath currentPath path = resolveCastFilePath otherPath path) := by
  refine ⟨?_, ?_, ?_⟩
  · intro h
    apply resolveCastFilePath_absolute
    unfold isAbsolute
    rcases h with h | h | h <;> rw [h] <;> simp only [Bool.true_or, Bool.or_true]
  · intro h1 h2 h3 h4
    apply resolveCastFilePath_static _ _ _ h4
    unfold isAbsolute
    rw [h1, h2, h3]
    rfl
  · intro h
    by_cases ha : isAbsolute path = true
    · rw [resolveCastFilePath_absolute _ _ ha, resolveCastFilePath_absolute _ _ ha]
    · have ha2 : isAbsolute path = false := by simpa using ha
      rcases h with h | h
      · exact absurd h ha
      · rw [resolveCastFilePath_static _ _ ha2 h, resolveCastFilePath_static _ _ ha2 h]

/-- The instance of C24 at a URL, on two pages, and the result for a plain
file name. -/
theorem resolveCastFilePath_simple_witness :
    resolveCastFilePath "/docs/guide/".toList "https://example.org/a/../b.cast".toList =
      Except.ok "https://example.org/a/../b.cast".toList ∧
    resolveCastFilePath "/docs/guide/".toList "demo.cast".toList =
      Except.ok "/assets/static/demo.cast".toList ∧
    resolveCastFilePath "/docs/guide/".toList "https://example.org/a/../b.cast".toList =
      resolveCastFilePath "/".toList "https://example.org/a/../b.cast".toList :=
  have h := resolveCastFilePath_simple "/docs/guide/".toList "/".toList
    "https://example.org/a/../b.cast".toList
  ⟨h.1 (Or.inr (Or.inr (by decide))), rfl, h.2.2 (Or.inl (by decide))⟩

/-- C30, as the code has it: on the page `/` a relative cast path with `../`
makes `resolveCastFilePath` throw a `TypeError`, the last part of an empty list
of parts being `undefined`; the function throws exactly for the cast paths that
are not absolute and contain `../` on a page whose pathname has no part that is
not empty; where it returns, the result starts with `/`, `http://` or
`https://` and is returned unchanged by a second application on any page. -/
theorem resolveCastFilePath_root_throws :
    resolveCastFilePath "/".toList "../casts/demo.cast".toList =
      Except.error TypeError.undefinedProperty ∧
    (∀ currentPath path : List Char,
      resolveCastFilePath currentPath path = Except.error TypeError.undefinedProperty ↔
        (isAbsolute path = false ∧ includes path "../".toList = true ∧
          (splitSlash currentPath).filter (fun p => !p.isEmpty) = [])) ∧
    (∀ currentPath otherPath path r : List Char,
      resolveCastFilePath currentPath path = Except.ok r →
        isAbsolute r = true ∧ resolveCastFilePath otherPath r = Except.ok r) := by
  refine ⟨rfl, ?_, ?_⟩
  · intro currentPath path
    rw [resolveCastFilePath_eq]
    by_cases ha : isAbsolute path = true
    · rw [if_pos ha]
      constructor
      · intro h; cases h
      · intro h; rw [ha] at h; exact absurd h.1 (by decide)
    · have ha2 : isAbsolute path = false := by simpa using ha
      rw [if_neg ha]
      by_cases hi : includes path "../".toList = true
      · rw [hi]
        simp only [Bool.not_true, Bool.false_eq_true, if_false]
        cases hl : ((splitSlash currentPath).filter fun p => !p.isEmpty).getLast? with
        | none =>
          have hnil := List.getLast?_eq_none_iff.mp hl
          exact ⟨fun _ => ⟨ha2, trivial, hnil⟩, fun _ => rfl⟩
        | some last =>
          constructor
          · intro h; cases h
          · intro h
            rw [h.2.2] at hl
            cases hl
      · have hi2 : includes path "../".toList = false := by simpa using hi
        rw [hi2]
        constructor
        · intro h; cases h
        · intro h; exact absurd h.2.1 (by decide)
  · intro currentPath otherPath path r hr
    have key : isAbsolute r = true := by
      rw [resolveCastFilePath_eq] at hr
      by_cases ha : isAbsolute path = true
      · rw [if_pos ha] at hr
        cases hr
        exact ha
      · rw [if_neg ha] at hr
        by_cases hi : includes path "../".toList = true
        · rw [hi] at hr
          simp only [Bool.not_true, Bool.false_eq_true, if_false] at hr
          cases hl : ((splitSlash currentPath).filter fun p => !p.isEmpty).getLast? with
          | none => rw [hl] at hr; cases hr
          | some last =>
            rw [hl] at hr
            simp only [Except.ok.injEq] at hr
            rw [← hr]
            exact isAbsolute_slash _
        · have hi2 : includes path "../".toList = false := by simpa using hi
          rw [hi2] at hr
          simp only [Bool.not_false, if_true, Except.ok.injEq] at hr
          rw [← hr]
          exact isAbsolute_slash _
    exact ⟨key, resolveCastFilePath_absolute _ _ key⟩

/-- The general part of C30 at a page of the documentation. -/
theorem resolveCastFilePath_root_throws_witness :
    resolveCastFilePath "/docs/guide/index.html".toList "../casts/demo.cast".toList =
      Except.ok "/docs/casts/demo.cast".toList ∧
    resolveCastFilePath "/".toList "/docs/casts/demo.cast".toList =
      Except.ok "/docs/casts/demo.cast".toList :=
  ⟨rfl, (resolveCastFilePath_root_throws.2.2 "/docs/guide/index.html".toList "/".toList
    "../casts/demo.cast".toList "/docs/casts/demo.cast".toList rfl).2⟩

/-! ### The language switcher -/

/-- C25 on the code: `constructor` is no key of `LANG_CONFIG`, yet
`switchLanguage('constructor')` on the English page stores `constructor` as the
preference and assigns the member inherited under that name to the location,
where an unknown language should leave both unchanged; the same holds for every
name that `LANG_CONFIG` inherits from `Object.prototype`. -/
theorem switchLanguage_inherited_key :
    LANG_CONFIG.lookup "constructor" = none ∧
    switchLanguage "en" "constructor" ⟨false, none, none⟩ =
      ⟨false, some "constructor", some (LangLookup.inherited "constructor")⟩ ∧
    switchLanguage "en" "constructor" ⟨false, none, none⟩ ≠ ⟨false, none, none⟩ ∧
    objectPrototypeKeys.all (fun key =>
      LANG_CONFIG.lookup key == none &&
      switchLanguage "en" key ⟨false, none, none⟩ ==
        ⟨false, some key, some (LangLookup.inherited key)⟩) = true := by
  decide

/-- With a storage that rejects the write, a switch from `en` to the configured
language `tr` navigates to `index-tr.html` and the stored preference stays as
it was: the failed save is caught. -/
theorem switchLanguage_storage_rejects :
    switchLanguage "en" "tr" ⟨true, none, none⟩ =
      ⟨true, none, some (LangLookup.file "index-tr.html")⟩ := by
  decide

/-- Away from the inherited names: for a target that differs from the current
language and is `en` or `tr`, `switchLanguage` assigns the file of the target to
the location and stores the target as the preference unless the storage rejects
the write; for a target equal to the current language, and for a target under
which `LANG_CONFIG` has no own and no inherited property, it changes neither
the location nor the stored preference. -/
theorem switchLanguage_configured (currentLang targetLang : String) (b : Browser) :
    (targetLang ≠ currentLang → ∀ name, LANG_CONFIG.lookup targetLang = some name →
      (switchLanguage currentLang targetLang b).href = some (LangLookup.file name) ∧
      (switchLanguage currentLang targetLang b).preferredLanguage =
        (if b.storageFails then b.preferredLanguage else some targetLang)) ∧
    (targetLang = currentLang ∨
        (targetLang ∉ ["en", "tr"] ∧ targetLang ∉ objectPrototypeKeys) →
      switchLanguage currentLang targetLang b = b) ∧
    (LANG_CONFIG.lookup targetLang ≠ none ↔ targetLang ∈ ["en", "tr"]) := by
  refine ⟨?_, ?_, ?_⟩
  · intro hne name hl
    have hname : name ≠ "" := by
      intro h
      subst h
      simp only [LANG_CONFIG, List.lookup] at hl
      split at hl
      · exact absurd hl (by decide)
      · split at hl
        · exact absurd hl (by decide)
        · exact absurd hl (by simp)
    have ht : (LANG_CONFIG.get targetLang) = LangLookup.file name := by
      simp only [LANG_CONFIG.get, hl]
    simp only [switchLanguage, hne, if_false, ht, LangLookup.truthy]
    simp only [ne_eq, hname, not_false_eq_true, decide_True, Bool.not_true, if_false,
      Bool.false_eq_true]
    cases b.storageFails <;> simp
  · intro h
    rcases h with h | ⟨h1, h2⟩
    · simp [switchLanguage, h]
    · have hl : LANG_CONFIG.lookup targetLang = none := by
        simp only [List.mem_cons, List.mem_singleton, List.not_mem_nil, or_false, not_or] at h1
        simp only [LANG_CONFIG, List.lookup]
        have e1 : (targetLang == "en") = false := by simpa using h1.1
        have e2 : (targetLang == "tr") = false := by simpa using h1.2
        simp only [e1, e2]
      simp [switchLanguage, LANG_CONFIG.get, hl, h2, LangLookup.truthy]
  · simp only [LANG_CONFIG, List.lookup, List.mem_cons, List.mem_singleton, List.not_mem_nil,
      or_false]
    by_cases e1 : targetLang = "en"
    · simp [e1]
    · by_cases e2 : targetLang = "tr"
      · subst e2; simp
      · have e1b : (targetLang == "en") = false := by simpa using e1
        have e2b : (targetLang == "tr") = false := by simpa using e2
        simp [e1, e2, e1b, e2b]

/-- A switch from `en` to `tr` with a working storage, and the unknown language
`de`. -/
theorem switchLanguage_configured_witness :
    (switchLanguage "en" "tr" ⟨false, none, none⟩).href =
      some (LangLookup.file "index-tr.html") ∧
    (switchLanguage "en" "tr" ⟨false, none, none⟩).preferredLanguage = some "tr" ∧
    switchLanguage "en" "de" ⟨false, none, none⟩ = ⟨false, none, none⟩ :=
  have h := (switchLanguage_configured "en" "tr" ⟨false, none, none⟩).1 (by decide)
    "index-tr.html" (by decide)
  ⟨h.1, h.2, (switchLanguage_configured "en" "de" ⟨false, none, none⟩).2.1
    (Or.inr ⟨by decide, by decide⟩)⟩

/-! ### One theme after another -/

/-- Whether a class matches at a position does not depend on the rounds that
ran over the text behind the position. -/
theorem matchAt_recolorPasses_iff (E : List Char) (hE : IsClassName E) :
    ∀ (m : ColorMap), WellFormed m → ∀ (c : Char) (t : List Char),
      MatchAt E (c :: t) ↔ MatchAt E (c :: recolorPasses m t) := by
  intro m
  induction m with
  | nil => intro _ c t; exact Iff.rfl
  | cons e m ih =>
    intro hwf c t
    rw [recolorPasses]
    by_cases ht : e.2.truthy = true
    · have hD := hwf.1 e (List.mem_cons_self _ _)
      have hT := ruleTemplate_no_dollar e.1 e.2 hD (hwf.2.2 e (List.mem_cons_self _ _)).1
      have hp : recolorPass e t = replaceAll (ruleTerms e.1) (ruleTemplate e.1 e.2) t := by
        simp [recolorPass, ht]
      rw [hp]
      exact (matchAt_replaceAll_iff E e.1 _ hE hT (ruleTemplate_cons _ _) c t).trans
        (ih hwf.tail c _)
    · have hp : recolorPass e t = t := by simp [recolorPass, ht]
      rw [hp]
      exact ih hwf.tail c t

theorem mem_of_keys_eq {m1 m2 : ColorMap} (hkeys : m1.map Prod.fst = m2.map Prod.fst) :
    ∀ e ∈ m1, ∃ v, (e.1, v) ∈ m2 := by
  intro e he
  have h1 : e.1 ∈ m2.map Prod.fst := by
    rw [← hkeys]
    exact List.mem_map_of_mem Prod.fst he
  obtain ⟨e2, he2, h2⟩ := List.mem_map.mp h1
  exact ⟨e2.2, by rw [← h2]; exact he2⟩

/-- The rounds of a second map over the result of the rounds of a first map
with the same classes, whose templates are fill rules, give what the second map
gives on the master. -/
theorem recolorPasses_twice (m1 m2 : ColorMap) (hw1 : WellFormed m1) (hw2 : WellFormed m2)
    (hkeys : m1.map Prod.fst = m2.map Prod.fst)
    (ht1 : ∀ e ∈ m1, e.2.truthy = true) (ht2 : ∀ e ∈ m2, e.2.truthy = true)
    (hrule : ∀ e ∈ m1, IsRule e.1 (ruleTemplate e.1 e.2)) :
    ∀ (n : Nat) (s : List Char), s.length ≤ n →
      recolorPasses m2 (recolorPasses m1 s) = recolorPasses m2 s := by
  intro n
  induction n with
  | zero =>
    intro s hs
    have : s = [] := List.length_eq_zero.mp (Nat.le_zero.mp hs)
    subst this
    rw [recolorPasses_nil]
  | succ n ih =>
    intro s hs
    cases s with
    | nil => rw [recolorPasses_nil]
    | cons c rest =>
      by_cases hm : ∃ e ∈ m1, MatchAt e.1 (c :: rest)
      · obtain ⟨e, he, x, r, hx, hs2⟩ := hm
        obtain ⟨v2, hv2⟩ := mem_of_keys_eq hkeys e he
        have hlen : r.length ≤ n := by
          have h1 := hx.length_pos
          have h2 := congrArg List.length hs2
          simp only [List.length_cons, List.length_append] at h2 hs
          omega
        rw [hs2]
        have f1 := recolorPasses_frame_hit e.1 e.2 x hx (ht1 e he) m1 hw1 he [] r
        have f2 := recolorPasses_frame_hit e.1 v2 x hx (ht2 _ hv2) m2 hw2 hv2 [] r
        have f3 := recolorPasses_frame_hit e.1 v2 (ruleTemplate e.1 e.2) (hrule e he)
          (ht2 _ hv2) m2 hw2 hv2 [] (recolorPasses m1 r)
        simp only [List.nil_append, recolorPasses_nil] at f1 f2 f3
        rw [f1, f3, f2, ih r hlen]
      · have hno1 : ∀ e ∈ m1, e.2.truthy = true → ¬ MatchAt e.1 (c :: rest) :=
          fun e he _ h => hm ⟨e, he, h⟩
        have hno2 : ∀ e ∈ m2, e.2.truthy = true → ¬ MatchAt e.1 (c :: rest) := by
          intro e he _ h
          obtain ⟨v1, hv1⟩ := mem_of_keys_eq hkeys.symm e he
          exact hm ⟨(e.1, v1), hv1, h⟩
        have hno3 : ∀ e ∈ m2, e.2.truthy = true →
            ¬ MatchAt e.1 (c :: recolorPasses m1 rest) := by
          intro e he ht h
          exact hno2 e he ht ((matchAt_recolorPasses_iff e.1 (hw2.1 e he) m1 hw1 c rest).mpr h)
        have hlen : rest.length ≤ n := by
          simp only [List.length_cons] at hs
          omega
        rw [recolorPasses_skip m1 hw1 c rest hno1, recolorPasses_skip m2 hw2 c _ hno3,
          recolorPasses_skip m2 hw2 c rest hno2, ih rest hlen]

theorem catalog_same_classes :
    ∀ T1 ∈ COLOR_THEMES, ∀ T2 ∈ COLOR_THEMES,
      T1.2.colors.map Prod.fst = T2.2.colors.map Prod.fst := by
  decide

/-- C26: for every master `s` and all catalog themes `T1` and `T2`, the same
theme twice included, both calls of `replaceColors` return and
`replaceColors(replaceColors(s, T1.colors), T2.colors)` is
`replaceColors(s, T2.colors)`. -/
theorem replaceColors_last_theme_wins (T1 T2 : String × Theme) (h1 : T1 ∈ COLOR_THEMES)
    (h2 : T2 ∈ COLOR_THEMES) (s : List Char) :
    (∃ s1 s2, replaceColors s T1.2.colors = Except.ok s1 ∧
      replaceColors s1 T2.2.colors = Except.ok s2 ∧
      replaceColors s T2.2.colors = Except.ok s2) ∧
    ((replaceColors s T1.2.colors).bind fun s1 => replaceColors s1 T2.2.colors) =
      replaceColors s T2.2.colors := by
  have hw1 := catalog_wellFormed T1 h1
  have hw2 := catalog_wellFormed T2 h2
  have hrule : ∀ e ∈ T1.2.colors, IsRule e.1 (ruleTemplate e.1 e.2) := by
    intro e he
    have h := catalog_templates T1 h1 e he
    rw [h.2]
    exact canonicalRule_isRule _ _ h.1
  have key := recolorPasses_twice T1.2.colors T2.2.colors hw1.1 hw2.1
    (catalog_same_classes T1 h1 T2 h2) hw1.2 hw2.2 hrule s.length s (le_refl _)
  have e1 := replaceColors_eq_passes T1.2.colors s hw1.1.plain
  have e2 := replaceColors_eq_passes T2.2.colors s hw2.1.plain
  have e3 := replaceColors_eq_passes T2.2.colors (recolorPasses T1.2.colors s) hw2.1.plain
  refine ⟨⟨_, _, e1, e3, by rw [e2, key]⟩, ?_⟩
  rw [e1, e2]
  show replaceColors (recolorPasses T1.2.colors s) T2.2.colors = _
  rw [e3, key]

/-- The instance of C26 at `quantum-blue` followed by `void-black`. -/
theorem replaceColors_last_theme_wins_witness :
    (("quantum-blue", ⟨"Quantum Blue", "Deep space blue for tech community",
        mkColors "#0A1628" "#ffffff" "#1E3A8A" "#0A1628" "#60A5FA"⟩) : String × Theme) ∈
      COLOR_THEMES ∧
    (("void-black", ⟨"Void Black", "Absolute black monochrome",
        mkColors "#000000" "#ffffff" "#000000" "#000000" "#666666"⟩) : String × Theme) ∈
      COLOR_THEMES ∧
    ((replaceColors "<style>.eyes\x7bfill:#123456;\x7d</style>".toList
        (mkColors "#0A1628" "#ffffff" "#1E3A8A" "#0A1628" "#60A5FA")).bind fun s1 =>
      replaceColors s1 (mkColors "#000000" "#ffffff" "#000000" "#000000" "#666666")) =
      replaceColors "<style>.eyes\x7bfill:#123456;\x7d</style>".toList
        (mkColors "#000000" "#ffffff" "#000000" "#000000" "#666666") :=
  have hT1 : (("quantum-blue", ⟨"Quantum Blue", "Deep space blue for tech community",
      mkColors "#0A1628" "#ffffff" "#1E3A8A" "#0A1628" "#60A5FA"⟩) : String × Theme) ∈
      COLOR_THEMES := by decide
  have hT2 : (("void-black", ⟨"Void Black", "Absolute black monochrome",
      mkColors "#000000" "#ffffff" "#000000" "#000000" "#666666"⟩) : String × Theme) ∈
      COLOR_THEMES := by decide
  ⟨hT1, hT2, (replaceColors_last_theme_wins _ _ hT1 hT2 _).2⟩

/-! ### The catalog -/

/-- C27: `COLOR_THEMES` has 8 themes; every theme defines exactly the classes
shield, ghost, eyes, text and slogan; every colour is a string made of `#` and
six hexadecimal digits; the slugs are pairwise distinct and contain neither a
slash nor a backslash. -/
theorem COLOR_THEMES_wellFormed :
    COLOR_THEMES.length = 8 ∧
    (∀ T ∈ COLOR_THEMES, T.2.colors.map Prod.fst =
      ["shield".toList, "ghost".toList, "eyes".toList, "text".toList, "slogan".toList]) ∧
    (∀ T ∈ COLOR_THEMES, ∀ e ∈ T.2.colors,
      ∃ h, e.2 = JSValue.str ('#' :: h) ∧ h.length = 6 ∧ h.all isHexDigit = true) ∧
    (COLOR_THEMES.map Prod.fst).Nodup ∧
    (∀ T ∈ COLOR_THEMES, '/' ∉ T.1.toList ∧ '\\' ∉ T.1.toList) := by
  refine ⟨rfl, by decide, ?_, by decide, by decide⟩
  have h : ∀ T ∈ COLOR_THEMES, ∀ e ∈ T.2.colors,
      e.2 = JSValue.str ('#' :: e.2.toJSString.tail) ∧ e.2.toJSString.tail.length = 6 ∧
        e.2.toJSString.tail.all isHexDigit = true := by decide
  intro T hT e he
  exact ⟨_, h T hT e he⟩

/-- The instance of C27 at the theme `void-black`. -/
theorem COLOR_THEMES_wellFormed_witness :
    (("void-black", ⟨"Void Black", "Absolute black monochrome",
        mkColors "#000000" "#ffffff" "#000000" "#000000" "#666666"⟩) : String × Theme) ∈
      COLOR_THEMES ∧
    (mkColors "#000000" "#ffffff" "#000000" "#000000" "#666666").map Prod.fst =
      ["shield".toList, "ghost".toList, "eyes".toList, "text".toList, "slogan".toList] :=
  have hT : (("void-black", ⟨"Void Black", "Absolute black monochrome",
      mkColors "#000000" "#ffffff" "#000000" "#000000" "#666666"⟩) : String × Theme) ∈
      COLOR_THEMES := by decide
  ⟨hT, COLOR_THEMES_wellFormed.2.1 _ hT⟩

end Phantom
